import Mathlib

/-!
# ascii-converter: a shallow embedding of `ascii-converter.go`

The Go program decodes a PNG into a flat row-major buffer of RGBA pixels,
rescales it with nearest-neighbour sampling and renders every pixel as one of
ten ASCII glyphs, optionally wrapped in a true-colour escape sequence.

Conventions of the embedding

* `uint32` values are natural numbers; where Go arithmetic can wrap, the
  reduction `% 2 ^ 32` is written out.
* `int` is the 64-bit signed integer of the usual Go targets; values are
  integers and `wrapInt` is the two's-complement reduction.
* `float64` values are the type `F64`: a finite value is the rational number it
  denotes, and every arithmetic result is rounded to nearest, ties to even, on
  the binary64 grid (`roundQ`).
* A run-time panic (index out of range, `make` with a negative length or with
  a length beyond what the allocator hands out) is the result `none`.
* What depends on the implementation and the machine is a `Platform`: the
  `int` a float-to-int conversion gives where Go leaves it open, and the
  longest slice of pixels the allocator hands out.
* A float-to-int conversion whose result Go leaves to the implementation
  succeeds with the value the `Platform` gives it; `F64.toInt` is the part of
  the conversion that Go specifies.
-/

namespace AsciiConverter

/-! ## Pixels -/

/-- The Go struct `Color`: four `uint32` channels. -/
structure Color where
  r : Nat
  g : Nat
  b : Nat
  a : Nat
deriving DecidableEq, Repr

/-- A value the Go type can hold: every channel is a `uint32`. -/
def Color.IsGoValue (c : Color) : Prop :=
  c.r < 2 ^ 32 ∧ c.g < 2 ^ 32 ∧ c.b < 2 ^ 32 ∧ c.a < 2 ^ 32

instance (c : Color) : Decidable c.IsGoValue := by
  unfold Color.IsGoValue; infer_instance

/-- Source: `func (c *Color) GetBrightness() uint32`, lines 16-18.
The sum is formed in `uint32`, so it is reduced modulo `2 ^ 32` before the
division. -/
def Color.GetBrightness (c : Color) : Nat :=
  ((2 * c.r + 3 * c.g + c.b) % 2 ^ 32) / 6

/-- Source: `func (c *Color) AsCharacter() string`, lines 20-43. -/
def Color.AsCharacter (c : Color) : String :=
  let brightness := c.GetBrightness
  if brightness ≤ 25 then " "
  else if brightness ≤ 50 then "."
  else if brightness ≤ 75 then ":"
  else if brightness ≤ 100 then "-"
  else if brightness ≤ 125 then "="
  else if brightness ≤ 150 then "+"
  else if brightness ≤ 175 then "*"
  else if brightness ≤ 200 then "#"
  else if brightness ≤ 225 then "%"
  else "@"

/-- The brightness ramp of the spec (section 4.3) as data: inclusive upper
bounds with their glyphs, darkest first. -/
def ramp : List (Nat × String) :=
  [(25, " "), (50, "."), (75, ":"), (100, "-"), (125, "="),
   (150, "+"), (175, "*"), (200, "#"), (225, "%")]

/-- The glyph the spec's table assigns to a brightness: the first row whose
bound is not exceeded, and `@` when every bound is exceeded. -/
def rampGlyph (b : Nat) : String :=
  match ramp.find? (fun p => b ≤ p.1) with
  | some p => p.2
  | none => "@"

/-! ## Machine integers, slices and loops -/

/-- Two's-complement reduction of an integer to the 64-bit Go `int`. -/
def wrapInt (v : Int) : Int := (v + 2 ^ 63) % 2 ^ 64 - 2 ^ 63

/-- The Go expression `data[j]` as a read: a panic (`none`) unless
`0 <= j < len(data)`. -/
def index (data : List Color) (j : Int) : Option Color :=
  if 0 ≤ j ∧ j < data.length then data[j.toNat]? else none

/-- The Go statement `data[j] = c`: a panic (`none`) unless
`0 <= j < len(data)`. -/
def store (data : List Color) (j : Int) (c : Color) : Option (List Color) :=
  if 0 ≤ j ∧ j < data.length then some (data.set j.toNat c) else none

/-- The remaining `k` iterations of a counting loop whose counter stands at
`j`; the loop stops with `none` as soon as one iteration panics. -/
def loopFrom {σ : Type} (body : Int → σ → Option σ) : Nat → Int → σ → Option σ
  | 0, _, s => some s
  | k + 1, j, s =>
    match body j s with
    | none => none
    | some t => loopFrom body k (j + 1) t

/-- The Go loop `for j := 0; j < n; j++ { body }` threading the state `s`. -/
def forLoop {σ : Type} (n : Int) (body : Int → σ → Option σ) (s : σ) : Option σ :=
  loopFrom body n.toNat 0 s

/-! ## Image buffers and rendering -/

/-- Source: `type AsciiMode int`, line 45. -/
abbrev AsciiMode := Int

/-- Source: `ASCII_MODE_PLAIN AsciiMode = iota`, line 48. -/
def ASCII_MODE_PLAIN : AsciiMode := 0

/-- Source: `ASCII_MODE_FORE`, line 49. -/
def ASCII_MODE_FORE : AsciiMode := 1

/-- Source: `ASCII_MODE_BACK`, line 50. -/
def ASCII_MODE_BACK : AsciiMode := 2

/-- The Go struct `Image`, lines 53-57. -/
structure Image where
  data : List Color
  width : Int
  height : Int
deriving DecidableEq, Repr

/-- A value the Go type can hold: the slice length and both dimensions are
64-bit `int`s. -/
def Image.IsGoValue (i : Image) : Prop :=
  (i.data.length : Int) < 2 ^ 63 ∧
  (-2 ^ 63 ≤ i.width ∧ i.width < 2 ^ 63) ∧ (-2 ^ 63 ≤ i.height ∧ i.height < 2 ^ 63)

instance (i : Image) : Decidable i.IsGoValue := by
  unfold Image.IsGoValue; infer_instance

/-- The Image Buffer invariant of the spec: non-negative dimensions and
`len(data) = width * height`. -/
def Image.Valid (i : Image) : Prop :=
  0 ≤ i.width ∧ 0 ≤ i.height ∧ (i.data.length : Int) = i.width * i.height

instance (i : Image) : Decidable i.Valid := by
  unfold Image.Valid; infer_instance

/-- Source: `func (i *Image) ToAscii(mode AsciiMode) string`, lines 102-118.
`fmt.Sprintf` with `%d` writes a `uint32` in base 10. -/
def Image.ToAscii (i : Image) (mode : AsciiMode) : Option String :=
  forLoop i.height (fun y picture =>
    (forLoop i.width (fun x picture =>
      match index i.data (wrapInt (x + wrapInt (y * i.width))) with
      | none => none
      | some color =>
        if mode = ASCII_MODE_PLAIN then
          some (picture ++ color.AsCharacter)
        else if mode = ASCII_MODE_BACK then
          some (picture ++ ("\x1b[48;2;" ++ toString color.r ++ ";" ++ toString color.g ++ ";"
            ++ toString color.b ++ "m" ++ color.AsCharacter ++ "\x1b[0m"))
        else if mode = ASCII_MODE_FORE then
          some (picture ++ ("\x1b[38;2;" ++ toString color.r ++ ";" ++ toString color.g ++ ";"
            ++ toString color.b ++ "m" ++ color.AsCharacter ++ "\x1b[0m"))
        else some picture) picture).map (fun picture => picture ++ "\n")) ""

/-! ## binary64 arithmetic -/

/-- Rounding of a rational to the nearest integer, ties to the even one. -/
def roundHalfEven (m : ℚ) : ℤ :=
  if m - ⌊m⌋ < 1 / 2 then ⌊m⌋
  else if 1 / 2 < m - ⌊m⌋ then ⌊m⌋ + 1
  else if ⌊m⌋ % 2 = 0 then ⌊m⌋ else ⌊m⌋ + 1

/-- The spacing of the binary64 grid at `q`: `2 ^ (e - 52)` for
`2 ^ e ≤ |q| < 2 ^ (e + 1)`, with the exponent held at `-1022` in the
subnormal range. -/
def ulp (q : ℚ) : ℚ := (2 : ℚ) ^ (max (Int.log 2 |q|) (-1022) - 52)

/-- The binary64 rounding of a rational, exponent range unbounded above:
the nearest multiple of `ulp q`, ties to even. -/
def roundQ (q : ℚ) : ℚ := roundHalfEven (q / ulp q) * ulp q

/-- A `float64`: a finite value (both zeros are `fin 0`), an infinity with its
sign, or a NaN. The two zeros differ only in the sign of a quotient by zero,
which the conversion to `int` does not observe: it leaves the result for
every infinity and NaN to the implementation. -/
inductive F64 where
  | fin (q : ℚ)
  | inf (neg : Bool)
  | nan
deriving DecidableEq, Repr

/-- The `float64` an exact result is delivered as: rounded, and an infinity
once the rounded magnitude reaches `2 ^ 1024`. -/
def F64.round (q : ℚ) : F64 :=
  if (2 : ℚ) ^ 1024 ≤ |roundQ q| then F64.inf (decide (q < 0)) else F64.fin (roundQ q)

/-- The Go conversion `float64(n)` of an `int`. -/
def F64.ofInt (n : Int) : F64 := F64.round n

/-- The Go product `a * b` of two `float64`s. -/
def F64.mul : F64 → F64 → F64
  | .fin x, .fin y => F64.round (x * y)
  | .fin x, .inf s => if x = 0 then .nan else .inf (xor (decide (x < 0)) s)
  | .inf s, .fin y => if y = 0 then .nan else .inf (xor s (decide (y < 0)))
  | .inf s, .inf t => .inf (xor s t)
  | _, _ => .nan

/-- The Go quotient `a / b` of two `float64`s. -/
def F64.div : F64 → F64 → F64
  | .fin x, .fin y =>
    if y = 0 then (if x = 0 then .nan else .inf (decide (x < 0))) else F64.round (x / y)
  | .fin _, .inf _ => .fin 0
  | .inf s, .fin y => .inf (xor s (decide (y < 0)))
  | _, _ => .nan

/-- The Go conversion `int(f)` as far as the language specifies it: truncation
toward zero. For a NaN, an infinity or a value outside the `int` range Go
leaves the result to the implementation; that is `none`. -/
def F64.toInt : F64 → Option Int
  | .fin q =>
    if -2 ^ 63 ≤ (if 0 ≤ q then ⌊q⌋ else ⌈q⌉) ∧ (if 0 ≤ q then ⌊q⌋ else ⌈q⌉) < 2 ^ 63 then
      some (if 0 ≤ q then ⌊q⌋ else ⌈q⌉)
    else none
  | _ => none

/-- The most bytes one allocation may ask for: `maxAlloc` of the Go runtime on
the 64-bit targets with 48-bit heap addresses (amd64, arm64). -/
def maxAlloc : Int := 2 ^ 48

/-- The size of a `Color` in bytes: four `uint32` fields. -/
def sizeofColor : Int := 16

/-- What the implementation of Go and the machine it runs on add to the
language: the `int` that a conversion `int(f)` gives where Go leaves the result
to the implementation, and the length of the longest `[]Color` the allocator
hands out. The runtime refuses every allocation of more than `maxAlloc` bytes,
so that length is at most `2 ^ 44`; how far below it lies depends on the
memory of the machine. -/
structure Platform where
  convert : F64 → Int
  maxLen : Nat
  maxLen_le : (maxLen : Int) * sizeofColor ≤ maxAlloc

/-- The Go conversion `int(f)` on a platform: the truncation where Go specifies
it, and otherwise the `int` the platform delivers. -/
def F64.toIntOn (p : Platform) (f : F64) : Int :=
  match F64.toInt f with
  | some n => n
  | none => wrapInt (p.convert f)

/-- The amd64 platform of the examples: every conversion left to the
implementation gives `-2 ^ 63`, the result of the `CVTTSD2SQ` instruction, and
the allocator hands out slices of up to `2 ^ 20` pixels (16 MiB). -/
def amd64 : Platform :=
  { convert := fun _ => -2 ^ 63, maxLen := 2 ^ 20, maxLen_le := by decide }

/-- The Go expression `make([]Color, n)` on a platform: a panic (`none`) for a
negative length and for a length above the longest slice the allocator hands
out (the runtime's `makeslice: len out of range` beyond `maxAlloc` bytes, that
is beyond `2 ^ 44` pixels, and its `out of memory` below that); else `n` zero
pixels. -/
def make (p : Platform) (n : Int) : Option (List Color) :=
  if 0 ≤ n ∧ n ≤ (p.maxLen : Int) then some (List.replicate n.toNat ⟨0, 0, 0, 0⟩)
  else none

/-- A positive scale factor: a positive finite value or `+Inf`. -/
def F64.IsPositive : F64 → Prop
  | .fin q => 0 < q
  | .inf neg => neg = false
  | .nan => False

/-! ## Resampling -/

/-- The right-hand side `i.data[int(px)+int(py)*i.width]` of the assignment in
`Resize`, for the destination `(x, y)`: lines 130-132. -/
def Image.source (i : Image) (p : Platform) (xScale yScale : F64) (x y : Int) :
    Option Color :=
  index i.data (wrapInt (F64.toIntOn p (F64.div (F64.ofInt x) xScale)
    + wrapInt (F64.toIntOn p (F64.div (F64.ofInt y) yScale) * i.width)))

/-- Source: `func (i *Image) Resize(xScale float64, yScale float64)`, lines
120-136. The result is the value `*i` holds afterwards. -/
def Image.Resize (i : Image) (p : Platform) (xScale yScale : F64) : Option Image :=
  let newWidth := F64.toIntOn p (F64.mul (F64.ofInt i.width) xScale)
  let newHeight := F64.toIntOn p (F64.mul (F64.ofInt i.height) yScale)
  match make p (wrapInt (newWidth * newHeight)) with
  | none => none
  | some fresh =>
    (forLoop newHeight (fun y data =>
      forLoop newWidth (fun x data =>
        match i.source p xScale yScale x y with
        | some c => store data (wrapInt (x + wrapInt (y * newWidth))) c
        | none => none) data) fresh).map
      (fun data => { data := data, width := newWidth, height := newHeight })

/-! ## Resampling, with the cause of a panic -/

/-- What makes a run of `Resize` panic: `make` refusing the length, an index
out of range in the read `i.data[...]`, or an index out of range in the
assignment `data[...] = ...`. -/
inductive Fault where
  | length
  | read
  | write
deriving DecidableEq, Repr

/-- The remaining `k` iterations of a counting loop whose counter stands at
`j`, with the cause of a panic kept: the loop stops at the first iteration
that panics. -/
def loopFromE {σ : Type} (body : Int → σ → Except Fault σ) : Nat → Int → σ → Except Fault σ
  | 0, _, s => .ok s
  | k + 1, j, s =>
    match body j s with
    | .error f => .error f
    | .ok t => loopFromE body k (j + 1) t

/-- The Go loop `for j := 0; j < n; j++ { body }` threading the state `s`, with
the cause of a panic kept. -/
def forLoopE {σ : Type} (n : Int) (body : Int → σ → Except Fault σ) (s : σ) :
    Except Fault σ :=
  loopFromE body n.toNat 0 s

/-- Source: `func (i *Image) Resize(xScale float64, yScale float64)`, lines
120-136, once more, with the cause of a panic kept: in each assignment the
right-hand side `i.data[...]` is read before the element of `data` is
written. -/
def Image.ResizeE (i : Image) (p : Platform) (xScale yScale : F64) : Except Fault Image :=
  let newWidth := F64.toIntOn p (F64.mul (F64.ofInt i.width) xScale)
  let newHeight := F64.toIntOn p (F64.mul (F64.ofInt i.height) yScale)
  match make p (wrapInt (newWidth * newHeight)) with
  | none => .error .length
  | some fresh =>
    (forLoopE newHeight (fun y data =>
      forLoopE newWidth (fun x data =>
        match i.source p xScale yScale x y with
        | none => .error .read
        | some c =>
          match store data (wrapInt (x + wrapInt (y * newWidth))) c with
          | none => .error .write
          | some data => .ok data) data) fresh).map
      (fun data => { data := data, width := newWidth, height := newHeight })

/-! ## Reference renderings, written from the spec -/

/-- The pixels of row `y` of a row-major buffer, left to right. -/
def Image.row (i : Image) (y : Nat) : List Color :=
  (i.data.drop (y * i.width.toNat)).take i.width.toNat

/-- The text the spec describes for a buffer once the text of one pixel is
fixed: rows in increasing `y`, each the pixel texts in increasing `x`
followed by one newline. -/
def renderRows (cell : Color → String) (i : Image) : String :=
  String.join ((List.range i.height.toNat).map
    (fun y => String.join ((i.row y).map cell) ++ "\n"))

/-- A pixel in PLAIN mode: its glyph alone. -/
def plainCell (c : Color) : String := c.AsCharacter

/-- A pixel in FOREGROUND mode: `ESC[38;2;R;G;Bm`, the glyph, `ESC[0m`. -/
def foreCell (c : Color) : String :=
  "\x1b[38;2;" ++ toString c.r ++ ";" ++ toString c.g ++ ";" ++ toString c.b ++ "m"
    ++ c.AsCharacter ++ "\x1b[0m"

/-- A pixel in BACKGROUND mode: `ESC[48;2;R;G;Bm`, the glyph, `ESC[0m`. -/
def backCell (c : Color) : String :=
  "\x1b[48;2;" ++ toString c.r ++ ";" ++ toString c.g ++ ";" ++ toString c.b ++ "m"
    ++ c.AsCharacter ++ "\x1b[0m"

/-- The text a pixel contributes in a given mode, following the branches of
`ToAscii`; a mode outside the three constants contributes nothing. -/
def modeCell (mode : AsciiMode) (c : Color) : String :=
  if mode = ASCII_MODE_PLAIN then plainCell c
  else if mode = ASCII_MODE_BACK then backCell c
  else if mode = ASCII_MODE_FORE then foreCell c
  else ""

/-- The character a pixel is drawn with. -/
def Color.glyphChar (c : Color) : Char := c.AsCharacter.get 0

/-- Removal of escape sequences from a text: everything from an `ESC` up to and
including the next `m` is dropped. The flag tells whether the scan is inside
an escape sequence. -/
def stripFrom : Bool → List Char → List Char
  | _, [] => []
  | true, c :: cs => if c = 'm' then stripFrom false cs else stripFrom true cs
  | false, c :: cs => if c = '\x1b' then stripFrom true cs else c :: stripFrom false cs

/-- Removal of every escape sequence from a text. -/
def stripEscapes (s : String) : String := String.mk (stripFrom false s.data)

/-- The 2 by 1 buffer of the spec's examples: a black and a white pixel. -/
def blackWhite : Image :=
  { data := [⟨0, 0, 0, 255⟩, ⟨255, 255, 255, 255⟩], width := 2, height := 1 }

/-- A 1 by 1 buffer holding one black pixel. -/
def onePixel : Image :=
  { data := [⟨0, 0, 0, 255⟩], width := 1, height := 1 }

/-- An empty buffer of width `2 ^ 53 + 1` and height 0: it satisfies
`len(data) = width * height`, and its width is not a `float64`. -/
def wideEmpty : Image :=
  { data := [], width := 2 ^ 53 + 1, height := 0 }

/-- A 1 by 1 buffer whose pixel has the red channel 300, a `uint32` above the
8-bit range. -/
def overBright : Image :=
  { data := [⟨300, 0, 0, 255⟩], width := 1, height := 1 }

/-- The glyphs of the ramp from darkest to brightest, the characters of the
string `" .:-=+*#%@"`. -/
def rampChars : List Char := [' ', '.', ':', '-', '=', '+', '*', '#', '%', '@']

/-- The position of a pixel's glyph in the dark-to-bright ramp. -/
def Color.rampPosition (c : Color) : Nat := rampChars.indexOf c.glyphChar

/-- The Go struct `color.RGBA`: four `uint8` channels. -/
structure RGBA where
  R : Nat
  G : Nat
  B : Nat
  A : Nat
deriving DecidableEq, Repr

/-- Source: `func (i Image) At(x, y int) color.Color`, lines 59-62. The
conversion `uint8(v)` of a `uint32` keeps the low eight bits. -/
def Image.At (i : Image) (x y : Int) : Option RGBA :=
  match index i.data (wrapInt (x + wrapInt (y * i.width))) with
  | none => none
  | some c => some ⟨c.r % 256, c.g % 256, c.b % 256, c.a % 256⟩

/-! ## Loading, saving and `main` -/

/-- What `png.Decode` returns, as far as `LoadImage` uses it: the extent
`Bounds().Dx()`, `Bounds().Dy()` of the image, whose bounds start at the
origin, and the four `uint32` values `At(x, y).RGBA()`. -/
structure Decoded where
  width : Int
  height : Int
  rgba : Int → Int → Color

/-- A decoded image as the PNG decoder delivers it: non-negative extent, a
pixel count that is an `int`, and channels in the 16-bit range that
`color.Color.RGBA` promises. -/
def Decoded.WellFormed (image : Decoded) : Prop :=
  0 ≤ image.width ∧ 0 ≤ image.height ∧ image.width * image.height < 2 ^ 63 ∧
  ∀ x y : Int, (image.rgba x y).r ≤ 65535 ∧ (image.rgba x y).g ≤ 65535 ∧
    (image.rgba x y).b ≤ 65535 ∧ (image.rgba x y).a ≤ 65535

/-- Source: `LoadImage`, lines 84-99, the part after a successful decode: the
buffer is allocated and filled pixel by pixel with the channels divided by
256. -/
def LoadImage.pixels (p : Platform) (image : Decoded) : Option Image :=
  match make p (wrapInt (image.width * image.height)) with
  | none => none
  | some pictureData =>
    (forLoop image.height (fun y data =>
      forLoop image.width (fun x data =>
        store data (wrapInt (x + wrapInt (y * image.width)))
          ⟨(image.rgba x y).r / 256, (image.rgba x y).g / 256,
           (image.rgba x y).b / 256, (image.rgba x y).a / 256⟩) data) pictureData).map
      (fun data => { data := data, width := image.width, height := image.height })

/-- The operating system and the PNG codec, as the program meets them: each
call either fails with the text of its error or succeeds. -/
structure Env where
  open_ : String → Except String String
  decode : String → Except String Decoded
  create : String → Option String
  write : String → String → Option String
  encode : Image → Except String String

/-- How a run stops before the end of `main`: `os.Exit(code)` or a run-time
panic. -/
inductive Stop where
  | exit (code : Int)
  | panic
deriving DecidableEq, Repr

/-- What a run has done that is visible from outside: the lines printed, the
paths of the files created and the contents written to them. -/
structure Effects where
  stdout : List String
  created : List String
  written : List (String × String)
deriving DecidableEq, Repr

/-- The exit status of the process: 0 when `main` returns, the argument of
`os.Exit`, and 2 after a panic. -/
def exitStatus : Except Stop Unit → Int
  | .ok _ => 0
  | .error (.exit code) => code
  | .error .panic => 2

/-- Source: `func LoadImage(filepath string) Image`, lines 72-100. -/
def LoadImage (env : Env) (p : Platform) (filepath : String) (e : Effects) :
    Effects × Except Stop Image :=
  match env.open_ filepath with
  | .error err => ({ e with stdout := e.stdout ++ [err] }, .error (.exit 1))
  | .ok file =>
    match env.decode file with
    | .error err => ({ e with stdout := e.stdout ++ [err] }, .error (.exit 1))
    | .ok image =>
      match LoadImage.pixels p image with
      | none => (e, .error .panic)
      | some picture => (e, .ok picture)

/-- Source: `func (i *Image) SaveAscii(filepath string, mode AsciiMode)`, lines
151-163. The file is created before the text is rendered. -/
def Image.SaveAscii (i : Image) (env : Env) (filepath : String) (mode : AsciiMode)
    (e : Effects) : Effects × Except Stop Unit :=
  match env.create filepath with
  | some err => ({ e with stdout := e.stdout ++ [err] }, .error (.exit 1))
  | none =>
    match i.ToAscii mode with
    | none => ({ e with created := e.created ++ [filepath] }, .error .panic)
    | some text =>
      match env.write filepath text with
      | some err =>
        ({ e with stdout := e.stdout ++ [err], created := e.created ++ [filepath] },
          .error (.exit 1))
      | none =>
        ({ e with created := e.created ++ [filepath],
                  written := e.written ++ [(filepath, text)] }, .ok ())

/-- Source: `func (i *Image) SavePNG(filepath string)`, lines 138-149. -/
def Image.SavePNG (i : Image) (env : Env) (filepath : String) (e : Effects) :
    Effects × Except Stop Unit :=
  match env.create filepath with
  | some err => ({ e with stdout := e.stdout ++ [err] }, .error (.exit 1))
  | none =>
    match env.encode i with
    | .error err =>
      ({ e with stdout := e.stdout ++ [err], created := e.created ++ [filepath] },
        .error (.exit 1))
    | .ok bytes =>
      ({ e with created := e.created ++ [filepath],
                written := e.written ++ [(filepath, bytes)] }, .ok ())

/-- The text `main` prints for an output format it does not know. -/
def invalidFormatText : String :=
  "Invalid output format: Please specify the output format (0 = NO_COLOR, 1 = FOREGROUD_COLORED, 2 = BACKGROUND_COLORED, 3 = PNG)"

/-- Source: the `switch *outputFormat` of `main`, lines 176-190. -/
def main.switch (env : Env) (image : Image) (outputFormat : Int) (outputFilepath : String)
    (e : Effects) : Effects × Except Stop Unit :=
  if outputFormat = 0 then image.SaveAscii env outputFilepath ASCII_MODE_PLAIN e
  else if outputFormat = 1 then image.SaveAscii env outputFilepath ASCII_MODE_FORE e
  else if outputFormat = 2 then image.SaveAscii env outputFilepath ASCII_MODE_BACK e
  else if outputFormat = 3 then image.SavePNG env outputFilepath e
  else ({ e with stdout := e.stdout ++ [invalidFormatText] }, .error (.exit 1))

/-- Source: the last statement of `main`, line 192, reached when the switch
returns. -/
def main.report (outputFilepath : String) :
    Effects × Except Stop Unit → Effects × Except Stop Unit
  | (e, .error stop) => (e, .error stop)
  | (e, .ok _) => ({ e with stdout := e.stdout ++ ["File saved to: " ++ outputFilepath] }, .ok ())

/-- Source: `func main()`, lines 165-193, from the parsed flags on. -/
def main (env : Env) (p : Platform) (filepath : String) (xFactor yFactor : F64)
    (outputFormat : Int) (outputFilepath : String) : Effects × Except Stop Unit :=
  match LoadImage env p filepath ⟨[], [], []⟩ with
  | (e, .error stop) => (e, .error stop)
  | (e, .ok image) =>
    match image.Resize p xFactor yFactor with
    | none => (e, .error .panic)
    | some resized => main.report outputFilepath (main.switch env resized outputFormat outputFilepath e)

/-- A 2 by 1 decoded image: an opaque black and an opaque white pixel with
16-bit channels. -/
def decodedBlackWhite : Decoded :=
  { width := 2, height := 1,
    rgba := fun x _ => if x = 0 then ⟨0, 0, 0, 65535⟩ else ⟨65535, 65535, 65535, 65535⟩ }

/-- An environment in which the only readable file is `in.png`, holding the
2 by 1 image black, white, and every write succeeds. -/
def sampleEnv : Env :=
  { open_ := fun path => if path = "in.png" then .ok "png" else .error "open: no such file",
    decode := fun _ => .ok decodedBlackWhite,
    create := fun _ => none,
    write := fun _ _ => none,
    encode := fun _ => .ok "bytes" }

/-! ## Theorems about pixels -/

/-- C1: for every brightness value `b`, the glyph `AsCharacter` returns for a
pixel of that brightness is the one of the ten-step ramp with inclusive upper
bounds, which is also the entry the spec's table gives for `b`. -/
theorem C1_AsCharacter_ramp (b : Nat) (c : Color) (hb : c.GetBrightness = b) :
    (b ≤ 25 → c.AsCharacter = " ") ∧
    (26 ≤ b ∧ b ≤ 50 → c.AsCharacter = ".") ∧
    (51 ≤ b ∧ b ≤ 75 → c.AsCharacter = ":") ∧
    (76 ≤ b ∧ b ≤ 100 → c.AsCharacter = "-") ∧
    (101 ≤ b ∧ b ≤ 125 → c.AsCharacter = "=") ∧
    (126 ≤ b ∧ b ≤ 150 → c.AsCharacter = "+") ∧
    (151 ≤ b ∧ b ≤ 175 → c.AsCharacter = "*") ∧
    (176 ≤ b ∧ b ≤ 200 → c.AsCharacter = "#") ∧
    (201 ≤ b ∧ b ≤ 225 → c.AsCharacter = "%") ∧
    (225 < b → c.AsCharacter = "@") ∧
    c.AsCharacter = rampGlyph b := by
  subst hb
  have key : ∀ n : Nat,
      (if n ≤ 25 then " " else if n ≤ 50 then "." else if n ≤ 75 then ":"
        else if n ≤ 100 then "-" else if n ≤ 125 then "=" else if n ≤ 150 then "+"
        else if n ≤ 175 then "*" else if n ≤ 200 then "#" else if n ≤ 225 then "%"
        else "@") = rampGlyph n := by
    intro n
    simp only [rampGlyph, ramp, List.find?]
    by_cases h1 : n ≤ 25
    · simp [h1]
    by_cases h2 : n ≤ 50
    · simp [h1, h2]
    by_cases h3 : n ≤ 75
    · simp [h1, h2, h3]
    by_cases h4 : n ≤ 100
    · simp [h1, h2, h3, h4]
    by_cases h5 : n ≤ 125
    · simp [h1, h2, h3, h4, h5]
    by_cases h6 : n ≤ 150
    · simp [h1, h2, h3, h4, h5, h6]
    by_cases h7 : n ≤ 175
    · simp [h1, h2, h3, h4, h5, h6, h7]
    by_cases h8 : n ≤ 200
    · simp [h1, h2, h3, h4, h5, h6, h7, h8]
    by_cases h9 : n ≤ 225
    · simp [h1, h2, h3, h4, h5, h6, h7, h8, h9]
    · simp [h1, h2, h3, h4, h5, h6, h7, h8, h9]
  refine ⟨?_, ?_, ?_, ?_, ?_, ?_, ?_, ?_, ?_, ?_, key _⟩
  · intro h; simp [Color.AsCharacter, h]
  all_goals
    intro h
    simp only [Color.AsCharacter]
    repeat (first | rw [if_pos (by omega)] | rw [if_neg (by omega)])

/-- Witness for C1 at the four boundaries named by the spec: brightness 25 is a
space, 26 a dot, 225 a percent sign and 226 an at sign. -/
theorem C1_AsCharacter_ramp_witness :
    (Color.mk 0 0 150 255).AsCharacter = " " ∧
    (Color.mk 0 0 156 255).AsCharacter = "." ∧
    (Color.mk 255 255 75 255).AsCharacter = "%" ∧
    (Color.mk 255 255 81 255).AsCharacter = "@" :=
  ⟨(C1_AsCharacter_ramp 25 ⟨0, 0, 150, 255⟩ (by decide)).1 (by decide),
   (C1_AsCharacter_ramp 26 ⟨0, 0, 156, 255⟩ (by decide)).2.1 (by decide),
   (C1_AsCharacter_ramp 225 ⟨255, 255, 75, 255⟩ (by decide)).2.2.2.2.2.2.2.2.1 (by decide),
   (C1_AsCharacter_ramp 226 ⟨255, 255, 81, 255⟩ (by decide)).2.2.2.2.2.2.2.2.2.1 (by decide)⟩

/-- C2 (as stated, refuted): the pixel with red channel `2 ^ 31` is a `uint32`
pixel whose computed brightness is 0, not `(2 * r + 3 * g + b) / 6`, because
the weighted sum wraps around in `uint32`. -/
theorem C2_GetBrightness_wraps :
    (Color.mk (2 ^ 31) 0 0 0).IsGoValue ∧
    (Color.mk (2 ^ 31) 0 0 0).GetBrightness = 0 ∧
    (2 * (Color.mk (2 ^ 31) 0 0 0).r + 3 * (Color.mk (2 ^ 31) 0 0 0).g
      + (Color.mk (2 ^ 31) 0 0 0).b) / 6 = 715827882 := by
  decide

/-- C2 (amended): for every pixel whose weighted sum `2 * r + 3 * g + b` fits in
a `uint32` (in particular for every pixel with 8-bit channels),
`GetBrightness` is the floor of `(2 * r + 3 * g + b) / 6`; and for every pixel
whatsoever the result does not depend on the alpha channel. -/
theorem C2_GetBrightness_formula (c : Color) (hfit : 2 * c.r + 3 * c.g + c.b < 2 ^ 32) :
    c.GetBrightness = (2 * c.r + 3 * c.g + c.b) / 6 ∧
    ∀ (d : Color) (alpha : Nat), (Color.mk d.r d.g d.b alpha).GetBrightness = d.GetBrightness := by
  refine ⟨?_, ?_⟩
  · simp only [Color.GetBrightness]
    rw [Nat.mod_eq_of_lt hfit]
  · intro d alpha
    rfl

/-- Witness for C2 at white, whose brightness is `(510 + 765 + 255) / 6 = 255`. -/
theorem C2_GetBrightness_formula_witness :
    (Color.mk 255 255 255 255).GetBrightness = (2 * 255 + 3 * 255 + 255) / 6 :=
  (C2_GetBrightness_formula ⟨255, 255, 255, 255⟩ (by decide)).1


/-! ## Machine integers and loops -/

theorem wrapInt_of_range (v : Int) (h1 : -2 ^ 63 ≤ v) (h2 : v < 2 ^ 63) : wrapInt v = v := by
  unfold wrapInt
  omega

theorem wrapInt_range (v : Int) : -2 ^ 63 ≤ wrapInt v ∧ wrapInt v < 2 ^ 63 := by
  unfold wrapInt
  omega

theorem index_eq_some (data : List Color) (n : Nat) (c : Color) (h : data[n]? = some c) :
    index data (n : Int) = some c := by
  have hlt : n < data.length := by
    rcases Nat.lt_or_ge n data.length with h1 | h1
    · exact h1
    · rw [List.getElem?_eq_none h1] at h
      cases h
  unfold index
  rw [if_pos ⟨by omega, by omega⟩]
  simpa using h

theorem loopFrom_succ_last {σ : Type} (body : Int → σ → Option σ) :
    ∀ (k : Nat) (j : Int) (s : σ),
      loopFrom body (k + 1) j s = (loopFrom body k j s).bind (body (j + k)) := by
  intro k
  induction k with
  | zero =>
    intro j s
    simp only [loopFrom, Option.some_bind, Nat.cast_zero, add_zero]
    cases body j s <;> rfl
  | succ k ih =>
    intro j s
    rw [loopFrom]
    cases hb : body j s with
    | none => simp [loopFrom, hb]
    | some t =>
      simp only []
      rw [ih (j + 1) t]
      conv_rhs => rw [loopFrom]
      simp only [hb]
      have : j + 1 + (k : Int) = j + ((k + 1 : Nat) : Int) := by push_cast; ring
      rw [this]

/-- Total-correctness rule for a counting loop: an invariant that every
iteration re-establishes, without failing, holds when the loop ends. -/
theorem forLoop_total {σ : Type} (body : Int → σ → Option σ) (Inv : Nat → σ → Prop)
    (n : Nat) (s : σ) (h0 : Inv 0 s)
    (hstep : ∀ (k : Nat) (t : σ), k < n → Inv k t → ∃ u, body (k : Int) t = some u ∧ Inv (k + 1) u) :
    ∃ t, forLoop (n : Int) body s = some t ∧ Inv n t := by
  unfold forLoop
  rw [Int.toNat_natCast]
  induction n with
  | zero => exact ⟨s, rfl, h0⟩
  | succ n ih =>
    obtain ⟨t, ht, hinv⟩ := ih (fun k t hk => hstep k t (Nat.lt_succ_of_lt hk))
    obtain ⟨u, hu, hinv2⟩ := hstep n t (Nat.lt_succ_self n) hinv
    refine ⟨u, ?_, hinv2⟩
    rw [loopFrom_succ_last, ht]
    simpa using hu

/-! ## Rendering -/

theorem String_join_concat (l : List String) (a : String) :
    String.join (l ++ [a]) = String.join l ++ a := by
  apply String.ext
  simp [String.data_join]

theorem modeCell_step (mode : AsciiMode) (picture : String) (color : Color) :
    (if mode = ASCII_MODE_PLAIN then
        some (picture ++ color.AsCharacter)
      else if mode = ASCII_MODE_BACK then
        some (picture ++ ("\x1b[48;2;" ++ toString color.r ++ ";" ++ toString color.g ++ ";"
          ++ toString color.b ++ "m" ++ color.AsCharacter ++ "\x1b[0m"))
      else if mode = ASCII_MODE_FORE then
        some (picture ++ ("\x1b[38;2;" ++ toString color.r ++ ";" ++ toString color.g ++ ";"
          ++ toString color.b ++ "m" ++ color.AsCharacter ++ "\x1b[0m"))
      else some picture) = some (picture ++ modeCell mode color) := by
  unfold modeCell
  split_ifs
  · rfl
  · rfl
  · rfl
  · congr 1
    apply String.ext
    simp

/-- In a valid buffer the pixel `(x, y)` with `x < width`, `y < height` sits at
an index below `len(data)`. -/
theorem Image.Valid.index_lt (i : Image) (hv : i.Valid) (x y : Nat)
    (hx : x < i.width.toNat) (hy : y < i.height.toNat) :
    x + y * i.width.toNat < i.data.length := by
  obtain ⟨hw, hh, hlen⟩ := hv
  have hlen2 : i.data.length = i.width.toNat * i.height.toNat := by
    have h1 : ((i.width.toNat * i.height.toNat : Nat) : Int) = i.width * i.height := by
      push_cast
      rw [Int.toNat_of_nonneg hw, Int.toNat_of_nonneg hh]
    exact_mod_cast hlen.trans h1.symm
  rw [hlen2]
  calc x + y * i.width.toNat < i.width.toNat + y * i.width.toNat := by omega
    _ = i.width.toNat * (y + 1) := by ring
    _ ≤ i.width.toNat * i.height.toNat := Nat.mul_le_mul_left _ hy

theorem ToAscii_row (i : Image) (mode : AsciiMode) (hgo : i.IsGoValue) (hv : i.Valid)
    (y : Nat) (hy : y < i.height.toNat) (p : String) :
    forLoop i.width (fun x picture =>
      match index i.data (wrapInt (x + wrapInt ((y : Int) * i.width))) with
      | none => none
      | some color =>
        if mode = ASCII_MODE_PLAIN then
          some (picture ++ color.AsCharacter)
        else if mode = ASCII_MODE_BACK then
          some (picture ++ ("\x1b[48;2;" ++ toString color.r ++ ";" ++ toString color.g ++ ";"
            ++ toString color.b ++ "m" ++ color.AsCharacter ++ "\x1b[0m"))
        else if mode = ASCII_MODE_FORE then
          some (picture ++ ("\x1b[38;2;" ++ toString color.r ++ ";" ++ toString color.g ++ ";"
            ++ toString color.b ++ "m" ++ color.AsCharacter ++ "\x1b[0m"))
        else some picture) p
      = some (p ++ String.join ((i.row y).map (modeCell mode))) := by
  have hw : i.width = (i.width.toNat : Int) := (Int.toNat_of_nonneg hv.1).symm
  obtain ⟨t, ht, hinv⟩ := forLoop_total
    (fun x picture =>
      match index i.data (wrapInt (x + wrapInt ((y : Int) * i.width))) with
      | none => none
      | some color =>
        if mode = ASCII_MODE_PLAIN then
          some (picture ++ color.AsCharacter)
        else if mode = ASCII_MODE_BACK then
          some (picture ++ ("\x1b[48;2;" ++ toString color.r ++ ";" ++ toString color.g ++ ";"
            ++ toString color.b ++ "m" ++ color.AsCharacter ++ "\x1b[0m"))
        else if mode = ASCII_MODE_FORE then
          some (picture ++ ("\x1b[38;2;" ++ toString color.r ++ ";" ++ toString color.g ++ ";"
            ++ toString color.b ++ "m" ++ color.AsCharacter ++ "\x1b[0m"))
        else some picture)
    (fun k t => t = p ++ String.join
      (((i.data.drop (y * i.width.toNat)).take k).map (modeCell mode)))
    i.width.toNat p (by simp [String.join])
    (by
      intro k t hk hinv
      have hlt := Image.Valid.index_lt i hv k y hk hy
      have hbound : ((i.data.length : Nat) : Int) < 2 ^ 63 := hgo.1
      have hidx : wrapInt ((k : Int) + wrapInt ((y : Int) * i.width))
          = ((k + y * i.width.toNat : Nat) : Int) := by
        have e1 : (y : Int) * i.width = ((y * i.width.toNat : Nat) : Int) := by
          push_cast; rw [← hw]
        rw [e1]
        generalize y * i.width.toNat = m at hlt
        rw [wrapInt_of_range (m : Int) (by omega) (by omega)]
        rw [wrapInt_of_range _ (by omega) (by omega)]
        push_cast; ring
      have hget : i.data[k + y * i.width.toNat]? = some (i.data[k + y * i.width.toNat]) :=
        List.getElem?_eq_getElem hlt
      refine ⟨t ++ modeCell mode (i.data[k + y * i.width.toNat]), ?_, ?_⟩
      · simp only []
        rw [hidx, index_eq_some _ _ _ hget]
        exact modeCell_step mode _ _
      · beta_reduce
        rw [hinv, List.take_succ, List.getElem?_drop, Nat.add_comm (y * i.width.toNat) k, hget]
        simp only [Option.toList, List.map_append, List.map_cons, List.map_nil]
        rw [String_join_concat, String.append_assoc])
  rw [← hw] at ht
  rw [ht, hinv]
  rfl

/-- The text `ToAscii` returns for a valid buffer, in every mode: the rows in
increasing `y`, each the texts of its pixels in increasing `x` and a newline. -/
theorem ToAscii_eq_renderRows (i : Image) (mode : AsciiMode) (hgo : i.IsGoValue)
    (hv : i.Valid) : i.ToAscii mode = some (renderRows (modeCell mode) i) := by
  have hh : i.height = (i.height.toNat : Int) := (Int.toNat_of_nonneg hv.2.1).symm
  obtain ⟨t, ht, hinv⟩ := forLoop_total
    (fun y picture =>
      (forLoop i.width (fun x picture =>
        match index i.data (wrapInt (x + wrapInt (y * i.width))) with
        | none => none
        | some color =>
          if mode = ASCII_MODE_PLAIN then
            some (picture ++ color.AsCharacter)
          else if mode = ASCII_MODE_BACK then
            some (picture ++ ("\x1b[48;2;" ++ toString color.r ++ ";" ++ toString color.g ++ ";"
              ++ toString color.b ++ "m" ++ color.AsCharacter ++ "\x1b[0m"))
          else if mode = ASCII_MODE_FORE then
            some (picture ++ ("\x1b[38;2;" ++ toString color.r ++ ";" ++ toString color.g ++ ";"
              ++ toString color.b ++ "m" ++ color.AsCharacter ++ "\x1b[0m"))
          else some picture) picture).map (fun picture => picture ++ "\n"))
    (fun k t => t = String.join ((List.range k).map
      (fun y => String.join ((i.row y).map (modeCell mode)) ++ "\n")))
    i.height.toNat "" (by simp [String.join])
    (by
      intro k t hk hinv
      refine ⟨t ++ (String.join ((i.row k).map (modeCell mode)) ++ "\n"), ?_, ?_⟩
      · simp only []
        rw [ToAscii_row i mode hgo hv k hk _]
        simp [String.append_assoc]
      · beta_reduce
        rw [hinv, List.range_succ, List.map_append, List.map_cons, List.map_nil,
          String_join_concat])
  rw [← hh] at ht
  unfold Image.ToAscii renderRows
  rw [ht, hinv]

/-! ## Shape of the rendered text -/

theorem AsCharacter_singleton (c : Color) :
    c.AsCharacter = String.singleton c.glyphChar ∧ c.glyphChar ≠ '\n' ∧ c.glyphChar ≠ '\x1b' := by
  unfold Color.glyphChar Color.AsCharacter
  simp only []
  split_ifs <;> exact ⟨rfl, by decide, by decide⟩

theorem Image.Valid.length_eq (i : Image) (hv : i.Valid) :
    i.data.length = i.width.toNat * i.height.toNat := by
  obtain ⟨hw, hh, hlen⟩ := hv
  have h1 : ((i.width.toNat * i.height.toNat : Nat) : Int) = i.width * i.height := by
    push_cast
    rw [Int.toNat_of_nonneg hw, Int.toNat_of_nonneg hh]
  exact_mod_cast hlen.trans h1.symm

theorem row_length (i : Image) (hv : i.Valid) (y : Nat) (hy : y < i.height.toNat) :
    (i.row y).length = i.width.toNat := by
  unfold Image.row
  rw [List.length_take, List.length_drop, Image.Valid.length_eq i hv]
  have h1 : i.width.toNat * (y + 1) ≤ i.width.toNat * i.height.toNat :=
    Nat.mul_le_mul_left _ hy
  have h2 : i.width.toNat * (y + 1) = y * i.width.toNat + i.width.toNat := by ring
  omega

theorem row_getElem? (i : Image) (x y : Nat) (hx : x < i.width.toNat) :
    (i.row y)[x]? = i.data[x + y * i.width.toNat]? := by
  unfold Image.row
  rw [List.getElem?_take_of_lt hx, List.getElem?_drop, Nat.add_comm]

theorem flatten_getElem?_uniform {α : Type} (n : Nat) :
    ∀ (L : List (List α)), (∀ l ∈ L, l.length = n) → ∀ (y x : Nat), x < n →
      L.flatten[y * n + x]? = (L[y]?).bind (fun l => l[x]?) := by
  intro L
  induction L with
  | nil => intro _ y x _; simp
  | cons l L ih =>
    intro hL y x hx
    have hl : l.length = n := hL l (List.mem_cons_self _ _)
    cases y with
    | zero =>
      simp only [List.flatten_cons, Nat.zero_mul, Nat.zero_add, List.getElem?_cons_zero,
        Option.some_bind]
      exact List.getElem?_append_left (by omega)
    | succ y =>
      simp only [List.flatten_cons, List.getElem?_cons_succ]
      rw [List.getElem?_append_right (by rw [hl]; nlinarith)]
      have e : (y + 1) * n + x - l.length = y * n + x := by
        rw [hl, Nat.succ_mul]; omega
      rw [e]
      exact ih (fun l hl => hL l (List.mem_cons_of_mem _ hl)) y x hx

theorem flatten_length_uniform {α : Type} (n : Nat) :
    ∀ (L : List (List α)), (∀ l ∈ L, l.length = n) → L.flatten.length = L.length * n := by
  intro L
  induction L with
  | nil => intro _; simp
  | cons l L ih =>
    intro hL
    rw [List.flatten_cons, List.length_append, hL l (List.mem_cons_self _ _),
      ih (fun l hl => hL l (List.mem_cons_of_mem _ hl)), List.length_cons]
    ring

theorem flatten_count_uniform {α : Type} [DecidableEq α] (a : α) (n : Nat) :
    ∀ (L : List (List α)), (∀ l ∈ L, l.count a = n) → L.flatten.count a = L.length * n := by
  intro L
  induction L with
  | nil => intro _; simp
  | cons l L ih =>
    intro hL
    rw [List.flatten_cons, List.count_append, hL l (List.mem_cons_self _ _),
      ih (fun l hl => hL l (List.mem_cons_of_mem _ hl)), List.length_cons]
    ring

/-- The characters of the PLAIN rendering: per row the glyph characters of its
pixels and a newline. -/
theorem renderRows_plain_data (i : Image) :
    (renderRows plainCell i).data =
      ((List.range i.height.toNat).map
        (fun y => (i.row y).map Color.glyphChar ++ ['\n'])).flatten := by
  unfold renderRows
  rw [String.data_join, List.map_map]
  congr 1
  apply List.map_congr_left
  intro y _
  simp only [Function.comp, String.data_append, String.data_join, List.map_map]
  congr 1
  have : ∀ l : List Color,
      (List.map (String.data ∘ plainCell) l).flatten = List.map Color.glyphChar l := by
    intro l
    induction l with
    | nil => rfl
    | cons c l ih =>
      simp only [List.map_cons, List.flatten_cons, ih, Function.comp, plainCell]
      rw [(AsCharacter_singleton c).1]
      rfl
  exact this _

/-- C6: for a valid buffer, `ToAscii` in PLAIN mode returns the rows in
increasing `y`, each row the `width` glyphs of its pixels in increasing `x`
followed by one newline; the text has `height * (width + 1)` characters and
`height` newlines, the character at `y * (width + 1) + x` is the glyph of the
pixel stored at `x + y * width`, and each row ends in a newline. -/
theorem C6_ToAscii_plain (i : Image) (hgo : i.IsGoValue) (hv : i.Valid) :
    ∃ s, i.ToAscii ASCII_MODE_PLAIN = some s ∧
      s = String.join ((List.range i.height.toNat).map
        (fun y => String.join ((i.row y).map Color.AsCharacter) ++ "\n")) ∧
      s.length = i.height.toNat * (i.width.toNat + 1) ∧
      s.data.count '\n' = i.height.toNat ∧
      (∀ y, y < i.height.toNat →
        (i.row y).length = i.width.toNat ∧
        s.data[y * (i.width.toNat + 1) + i.width.toNat]? = some '\n') ∧
      (∀ x y, x < i.width.toNat → y < i.height.toNat →
        ∃ c, i.data[x + y * i.width.toNat]? = some c ∧
          c.AsCharacter = String.singleton c.glyphChar ∧
          s.data[y * (i.width.toNat + 1) + x]? = some c.glyphChar) := by
  have hmode : modeCell ASCII_MODE_PLAIN = plainCell := by
    funext c; simp [modeCell]
  have hrows : ∀ l ∈ (List.range i.height.toNat).map
      (fun y => (i.row y).map Color.glyphChar ++ ['\n']), l.length = i.width.toNat + 1 := by
    intro l hl
    obtain ⟨y, hy, rfl⟩ := List.mem_map.1 hl
    rw [List.length_append, List.length_map, row_length i hv y (List.mem_range.1 hy)]
    rfl
  have hcount : ∀ l ∈ (List.range i.height.toNat).map
      (fun y => (i.row y).map Color.glyphChar ++ ['\n']), l.count '\n' = 1 := by
    intro l hl
    obtain ⟨y, _, rfl⟩ := List.mem_map.1 hl
    rw [List.count_append]
    have h0 : List.count '\n' (List.map Color.glyphChar (i.row y)) = 0 := by
      apply List.count_eq_zero_of_not_mem
      intro hmem
      obtain ⟨c, _, hc⟩ := List.mem_map.1 hmem
      exact (AsCharacter_singleton c).2.1 hc
    rw [h0]
    rfl
  refine ⟨renderRows plainCell i, ?_, rfl, ?_, ?_, ?_, ?_⟩
  · rw [ToAscii_eq_renderRows i _ hgo hv, hmode]
  · rw [String.length, renderRows_plain_data, flatten_length_uniform _ _ hrows]
    simp
  · rw [renderRows_plain_data, flatten_count_uniform _ _ _ hcount]
    simp
  · intro y hy
    refine ⟨row_length i hv y hy, ?_⟩
    rw [renderRows_plain_data, flatten_getElem?_uniform _ _ hrows y _ (Nat.lt_succ_self _)]
    rw [List.getElem?_map, List.getElem?_range hy]
    simp only [Option.map_some', Option.some_bind]
    rw [List.getElem?_append_right (by rw [List.length_map, row_length i hv y hy])]
    rw [List.length_map, row_length i hv y hy]
    simp
  · intro x y hx hy
    have hlt := Image.Valid.index_lt i hv x y hx hy
    refine ⟨i.data[x + y * i.width.toNat], List.getElem?_eq_getElem hlt,
      (AsCharacter_singleton _).1, ?_⟩
    rw [renderRows_plain_data, flatten_getElem?_uniform _ _ hrows y x (by omega)]
    rw [List.getElem?_map, List.getElem?_range hy]
    simp only [Option.map_some', Option.some_bind]
    rw [List.getElem?_append_left (by rw [List.length_map, row_length i hv y hy]; exact hx)]
    rw [List.getElem?_map, row_getElem? i x y hx, List.getElem?_eq_getElem hlt]
    rfl

/-- Witness for C6: the 2 by 1 buffer black, white renders as a space, an at
sign and a newline. -/
theorem C6_ToAscii_plain_witness : blackWhite.ToAscii ASCII_MODE_PLAIN = some " @\n" := by
  obtain ⟨s, hs, hrows, _⟩ := C6_ToAscii_plain blackWhite (by decide) (by decide)
  rw [hs, hrows]
  rfl

/-- C7: for a valid buffer, `ToAscii` in FOREGROUND mode returns, in the
row and column order of PLAIN mode, for each pixel the text
`ESC[38;2;R;G;Bm`, the glyph, `ESC[0m`, with `ESC` the byte `0x1B` and `R`, `G`,
`B` the channels in base 10, and a newline after each row. -/
theorem C7_ToAscii_fore (i : Image) (hgo : i.IsGoValue) (hv : i.Valid) :
    ∃ s, i.ToAscii ASCII_MODE_FORE = some s ∧
      s = String.join ((List.range i.height.toNat).map
        (fun y => String.join ((i.row y).map
          (fun c => "\x1b[38;2;" ++ toString c.r ++ ";" ++ toString c.g ++ ";" ++ toString c.b
            ++ "m" ++ c.AsCharacter ++ "\x1b[0m")) ++ "\n")) ∧
      ('\x1b').toNat = 0x1B ∧
      (∀ y, y < i.height.toNat →
        (i.row y).length = i.width.toNat ∧
        ∀ x, x < i.width.toNat → ∃ c, i.data[x + y * i.width.toNat]? = some c ∧
          (i.row y)[x]? = some c) := by
  have hmode : modeCell ASCII_MODE_FORE = foreCell := by
    funext c; simp [modeCell, ASCII_MODE_FORE, ASCII_MODE_PLAIN, ASCII_MODE_BACK]
  refine ⟨renderRows foreCell i, ?_, rfl, rfl, ?_⟩
  · rw [ToAscii_eq_renderRows i _ hgo hv, hmode]
  · intro y hy
    refine ⟨row_length i hv y hy, ?_⟩
    intro x hx
    have hlt := Image.Valid.index_lt i hv x y hx hy
    exact ⟨i.data[x + y * i.width.toNat], List.getElem?_eq_getElem hlt,
      by rw [row_getElem? i x y hx, List.getElem?_eq_getElem hlt]⟩

/-- Witness for C7: the 2 by 1 buffer black, white in FOREGROUND mode. -/
theorem C7_ToAscii_fore_witness :
    blackWhite.ToAscii ASCII_MODE_FORE
      = some "\x1b[38;2;0;0;0m \x1b[0m\x1b[38;2;255;255;255m@\x1b[0m\n" := by
  obtain ⟨s, hs, hrows, _⟩ := C7_ToAscii_fore blackWhite (by decide) (by decide)
  rw [hs, hrows]
  rfl

/-! ## Escape sequences and their removal -/

theorem digitChar_ne_m (d : Nat) (hd : d < 10) : Nat.digitChar d ≠ 'm' := by
  interval_cases d <;> decide

theorem toDigitsCore_no_m : ∀ (fuel n : Nat) (ds : List Char),
    (∀ c ∈ ds, c ≠ 'm') → ∀ c ∈ Nat.toDigitsCore 10 fuel n ds, c ≠ 'm' := by
  intro fuel
  induction fuel with
  | zero => intro n ds hds c hc; exact hds c (by simpa [Nat.toDigitsCore] using hc)
  | succ fuel ih =>
    intro n ds hds c hc
    have hcons : ∀ c ∈ Nat.digitChar (n % 10) :: ds, c ≠ 'm' := by
      intro c hc
      rcases List.mem_cons.1 hc with h | h
      · rw [h]; exact digitChar_ne_m _ (Nat.mod_lt _ (by decide))
      · exact hds c h
    rw [Nat.toDigitsCore] at hc
    split_ifs at hc with h0
    · exact hcons c hc
    · exact ih _ _ hcons c hc

theorem repr_no_m (n : Nat) : ∀ c ∈ (toString n).data, c ≠ 'm' := by
  intro c hc
  exact toDigitsCore_no_m _ _ [] (by simp) c hc

theorem stripFrom_skip (body rest : List Char) (h : ∀ c ∈ body, c ≠ 'm') :
    stripFrom true (body ++ 'm' :: rest) = stripFrom false rest := by
  induction body with
  | nil => simp [stripFrom]
  | cons c body ih =>
    have hc : c ≠ 'm' := h c (List.mem_cons_self _ _)
    simp only [List.cons_append, stripFrom, if_neg hc]
    exact ih (fun d hd => h d (List.mem_cons_of_mem _ hd))

/-- Removing the escape sequences of one coloured pixel leaves its glyph. -/
theorem stripFrom_cell (sel : List Char) (hsel : ∀ c ∈ sel, c ≠ 'm') (c : Color)
    (rest : List Char) :
    stripFrom false
      ((['\x1b', '['] ++ sel ++ [';', '2', ';'] ++ (toString c.r).data ++ [';']
        ++ (toString c.g).data ++ [';'] ++ (toString c.b).data ++ ['m']
        ++ [c.glyphChar] ++ ['\x1b', '[', '0', 'm']) ++ rest)
      = c.glyphChar :: stripFrom false rest := by
  have hbody : ∀ d ∈ ['['] ++ sel ++ [';', '2', ';'] ++ (toString c.r).data ++ [';']
      ++ (toString c.g).data ++ [';'] ++ (toString c.b).data, d ≠ 'm' := by
    intro d hd
    simp only [List.mem_append, List.mem_cons, List.mem_singleton, List.not_mem_nil,
      or_false] at hd
    rcases hd with ((((((h | h) | h) | h) | h) | h) | h) | h
    · rw [h]; decide
    · exact hsel d h
    · rcases h with h | h | h <;> rw [h] <;> decide
    · exact repr_no_m _ d h
    · rw [h]; decide
    · exact repr_no_m _ d h
    · rw [h]; decide
    · exact repr_no_m _ d h
  have e : (['\x1b', '['] ++ sel ++ [';', '2', ';'] ++ (toString c.r).data ++ [';']
        ++ (toString c.g).data ++ [';'] ++ (toString c.b).data ++ ['m']
        ++ [c.glyphChar] ++ ['\x1b', '[', '0', 'm']) ++ rest
      = '\x1b' :: ((['['] ++ sel ++ [';', '2', ';'] ++ (toString c.r).data ++ [';']
        ++ (toString c.g).data ++ [';'] ++ (toString c.b).data)
        ++ 'm' :: (c.glyphChar :: '\x1b' :: (['[', '0'] ++ 'm' :: rest))) := by
    simp
  rw [e]
  rw [stripFrom, if_pos rfl, stripFrom_skip _ _ hbody]
  rw [stripFrom, if_neg (AsCharacter_singleton c).2.2]
  rw [stripFrom, if_pos rfl, stripFrom_skip _ _ (by decide)]

theorem stripFrom_cells (cell : Color → String) (sel : List Char)
    (hsel : ∀ c ∈ sel, c ≠ 'm')
    (hcell : ∀ c, (cell c).data = ['\x1b', '['] ++ sel ++ [';', '2', ';']
      ++ (toString c.r).data ++ [';'] ++ (toString c.g).data ++ [';'] ++ (toString c.b).data
      ++ ['m'] ++ [c.glyphChar] ++ ['\x1b', '[', '0', 'm'])
    (l : List Color) (rest : List Char) :
    stripFrom false ((l.map (fun c => (cell c).data)).flatten ++ rest)
      = l.map Color.glyphChar ++ stripFrom false rest := by
  induction l with
  | nil => rfl
  | cons c l ih =>
    simp only [List.map_cons, List.flatten_cons, List.append_assoc, List.cons_append]
    rw [hcell c]
    have := stripFrom_cell sel hsel c ((l.map (fun c => (cell c).data)).flatten ++ rest)
    simp only [List.append_assoc] at this ⊢
    rw [this, ih]

theorem stripEscapes_renderRows (cell : Color → String) (sel : List Char)
    (hsel : ∀ c ∈ sel, c ≠ 'm')
    (hcell : ∀ c, (cell c).data = ['\x1b', '['] ++ sel ++ [';', '2', ';']
      ++ (toString c.r).data ++ [';'] ++ (toString c.g).data ++ [';'] ++ (toString c.b).data
      ++ ['m'] ++ [c.glyphChar] ++ ['\x1b', '[', '0', 'm'])
    (i : Image) : stripEscapes (renderRows cell i) = renderRows plainCell i := by
  apply String.ext
  rw [renderRows_plain_data]
  unfold stripEscapes renderRows
  simp only [String.data_join, List.map_map]
  generalize List.range i.height.toNat = ys
  induction ys with
  | nil => rfl
  | cons y ys ih =>
    simp only [List.map_cons, List.flatten_cons, Function.comp, String.data_append,
      String.data_join, List.map_map, List.append_assoc]
    have h1 : stripFrom false ((List.map (String.data ∘ cell) (i.row y)).flatten ++
        ("\n".data ++ (List.map (String.data ∘ fun y =>
          String.join (List.map cell (i.row y)) ++ "\n") ys).flatten)) = _ :=
      stripFrom_cells cell sel hsel hcell (i.row y) _
    rw [h1]
    congr 1
    have h2 : ∀ rest : List Char,
        stripFrom false ("\n".data ++ rest) = '\n' :: stripFrom false rest := by
      intro rest
      show stripFrom false ('\n' :: rest) = _
      rw [stripFrom, if_neg (by decide)]
    rw [h2, ih]
    rfl

theorem foreCell_data (c : Color) :
    (foreCell c).data = ['\x1b', '['] ++ ['3', '8'] ++ [';', '2', ';']
      ++ (toString c.r).data ++ [';'] ++ (toString c.g).data ++ [';'] ++ (toString c.b).data
      ++ ['m'] ++ [c.glyphChar] ++ ['\x1b', '[', '0', 'm'] := by
  unfold foreCell
  rw [(AsCharacter_singleton c).1]
  simp only [String.data_append, String.data_singleton]
  rfl

theorem backCell_data (c : Color) :
    (backCell c).data = ['\x1b', '['] ++ ['4', '8'] ++ [';', '2', ';']
      ++ (toString c.r).data ++ [';'] ++ (toString c.g).data ++ [';'] ++ (toString c.b).data
      ++ ['m'] ++ [c.glyphChar] ++ ['\x1b', '[', '0', 'm'] := by
  unfold backCell
  rw [(AsCharacter_singleton c).1]
  simp only [String.data_append, String.data_singleton]
  rfl

/-- C8: for a valid buffer, `ToAscii` in BACKGROUND mode returns, in the row
and column order of PLAIN mode and with the same newline after each row, for
each pixel the text `ESC[48;2;R;G;Bm`, the glyph, `ESC[0m`; and removing every
escape sequence from the BACKGROUND output, or from the FOREGROUND output,
gives the PLAIN output of the same buffer. -/
theorem C8_ToAscii_back (i : Image) (hgo : i.IsGoValue) (hv : i.Valid) :
    ∃ s, i.ToAscii ASCII_MODE_BACK = some s ∧
      s = String.join ((List.range i.height.toNat).map
        (fun y => String.join ((i.row y).map
          (fun c => "\x1b[48;2;" ++ toString c.r ++ ";" ++ toString c.g ++ ";" ++ toString c.b
            ++ "m" ++ c.AsCharacter ++ "\x1b[0m")) ++ "\n")) ∧
      (∀ y, y < i.height.toNat →
        (i.row y).length = i.width.toNat ∧
        ∀ x, x < i.width.toNat → ∃ c, i.data[x + y * i.width.toNat]? = some c ∧
          (i.row y)[x]? = some c) ∧
      i.ToAscii ASCII_MODE_PLAIN = some (stripEscapes s) ∧
      ∃ t, i.ToAscii ASCII_MODE_FORE = some t ∧
        i.ToAscii ASCII_MODE_PLAIN = some (stripEscapes t) := by
  have hback : modeCell ASCII_MODE_BACK = backCell := by
    funext c; simp [modeCell, ASCII_MODE_FORE, ASCII_MODE_PLAIN, ASCII_MODE_BACK]
  have hfore : modeCell ASCII_MODE_FORE = foreCell := by
    funext c; simp [modeCell, ASCII_MODE_FORE, ASCII_MODE_PLAIN, ASCII_MODE_BACK]
  have hplain : modeCell ASCII_MODE_PLAIN = plainCell := by
    funext c; simp [modeCell]
  have hP : i.ToAscii ASCII_MODE_PLAIN = some (renderRows plainCell i) := by
    rw [ToAscii_eq_renderRows i _ hgo hv, hplain]
  refine ⟨renderRows backCell i, ?_, rfl, ?_, ?_, renderRows foreCell i, ?_, ?_⟩
  · rw [ToAscii_eq_renderRows i _ hgo hv, hback]
  · intro y hy
    refine ⟨row_length i hv y hy, ?_⟩
    intro x hx
    have hlt := Image.Valid.index_lt i hv x y hx hy
    exact ⟨i.data[x + y * i.width.toNat], List.getElem?_eq_getElem hlt,
      by rw [row_getElem? i x y hx, List.getElem?_eq_getElem hlt]⟩
  · rw [hP, stripEscapes_renderRows backCell ['4', '8'] (by decide) backCell_data]
  · rw [ToAscii_eq_renderRows i _ hgo hv, hfore]
  · rw [hP, stripEscapes_renderRows foreCell ['3', '8'] (by decide) foreCell_data]

/-- Witness for C8: the 2 by 1 buffer black, white in BACKGROUND mode, and
what is left of that text without its escape sequences. -/
theorem C8_ToAscii_back_witness :
    blackWhite.ToAscii ASCII_MODE_BACK
      = some "\x1b[48;2;0;0;0m \x1b[0m\x1b[48;2;255;255;255m@\x1b[0m\n" ∧
    stripEscapes "\x1b[48;2;0;0;0m \x1b[0m\x1b[48;2;255;255;255m@\x1b[0m\n" = " @\n" := by
  obtain ⟨s, hs, hrows, _⟩ := C8_ToAscii_back blackWhite (by decide) (by decide)
  refine ⟨?_, by decide⟩
  rw [hs, hrows]
  rfl

/-- The index `ToAscii` computes for the pixel `(x, y)` of a valid buffer does
not wrap around: it is `x + y * width`. -/
theorem pixel_index_eq (i : Image) (hgo : i.IsGoValue) (hv : i.Valid) (x y : Nat)
    (hx : x < i.width.toNat) (hy : y < i.height.toNat) :
    wrapInt ((x : Int) + wrapInt ((y : Int) * i.width))
      = ((x + y * i.width.toNat : Nat) : Int) := by
  have hw : i.width = (i.width.toNat : Int) := (Int.toNat_of_nonneg hv.1).symm
  have hlt := Image.Valid.index_lt i hv x y hx hy
  have hbound : ((i.data.length : Nat) : Int) < 2 ^ 63 := hgo.1
  have e1 : (y : Int) * i.width = ((y * i.width.toNat : Nat) : Int) := by
    push_cast; rw [← hw]
  rw [e1]
  generalize y * i.width.toNat = m at hlt
  rw [wrapInt_of_range (m : Int) (by omega) (by omega)]
  rw [wrapInt_of_range _ (by omega) (by omega)]
  push_cast; ring

/-- C10: over a valid buffer `ToAscii` has no error condition: in each of the
three modes it returns a text, every index `x + y * width` it reads is
computed without wrap-around and lies in `[0, len(data))`, so the read
succeeds, and the text is determined by the buffer and the mode. -/
theorem C10_ToAscii_total (i : Image) (hgo : i.IsGoValue) (hv : i.Valid) :
    (∀ mode ∈ [ASCII_MODE_PLAIN, ASCII_MODE_FORE, ASCII_MODE_BACK],
      ∃ s, i.ToAscii mode = some s) ∧
    (∀ x y : Nat, x < i.width.toNat → y < i.height.toNat →
      wrapInt ((x : Int) + wrapInt ((y : Int) * i.width)) = (x : Int) + (y : Int) * i.width ∧
      0 ≤ (x : Int) + (y : Int) * i.width ∧
      (x : Int) + (y : Int) * i.width < (i.data.length : Int) ∧
      ∃ c, index i.data (wrapInt ((x : Int) + wrapInt ((y : Int) * i.width))) = some c) ∧
    ∀ (mode : AsciiMode) (s t : String),
      i.ToAscii mode = some s → i.ToAscii mode = some t → s = t := by
  refine ⟨fun mode _ => ⟨_, ToAscii_eq_renderRows i mode hgo hv⟩, ?_, ?_⟩
  · intro x y hx hy
    have hw : i.width = (i.width.toNat : Int) := (Int.toNat_of_nonneg hv.1).symm
    have hlt := Image.Valid.index_lt i hv x y hx hy
    have hidx := pixel_index_eq i hgo hv x y hx hy
    have e : ((x + y * i.width.toNat : Nat) : Int) = (x : Int) + (y : Int) * i.width := by
      push_cast; rw [← hw]
    refine ⟨hidx.trans e, ?_, ?_, ?_⟩
    · rw [← e]; exact Int.natCast_nonneg _
    · rw [← e]; exact_mod_cast hlt
    · rw [hidx]
      exact ⟨_, index_eq_some _ _ _ (List.getElem?_eq_getElem hlt)⟩
  · intro mode s t hs ht
    rw [hs] at ht
    exact Option.some.inj ht

/-- Witness for C10: the 2 by 1 buffer black, white in FOREGROUND mode. -/
theorem C10_ToAscii_total_witness :
    ∃ s, blackWhite.ToAscii ASCII_MODE_FORE = some s :=
  (C10_ToAscii_total blackWhite (by decide) (by decide)).1 ASCII_MODE_FORE (by decide)

/-! ## binary64 rounding -/

theorem roundHalfEven_abs_sub_le (m : ℚ) : |(roundHalfEven m : ℚ) - m| ≤ 1 / 2 := by
  have h1 : (⌊m⌋ : ℚ) ≤ m := Int.floor_le m
  have h2 : m < ⌊m⌋ + 1 := Int.lt_floor_add_one m
  unfold roundHalfEven
  rw [abs_le]
  split_ifs with ha hb hc
  · constructor <;> linarith
  · push_cast; constructor <;> linarith
  · push_neg at ha hb; constructor <;> linarith
  · push_neg at ha hb; push_cast; constructor <;> linarith

theorem roundHalfEven_intCast (z : ℤ) : roundHalfEven (z : ℚ) = z := by
  unfold roundHalfEven
  simp

theorem roundHalfEven_nonneg (m : ℚ) (h : 0 ≤ m) : 0 ≤ roundHalfEven m := by
  have h0 : 0 ≤ ⌊m⌋ := Int.floor_nonneg.2 h
  unfold roundHalfEven
  split_ifs <;> omega

theorem ulp_pos (q : ℚ) : 0 < ulp q := by
  unfold ulp
  positivity

theorem ulp_le (q : ℚ) (hq0 : q ≠ 0) :
    ulp q ≤ |q| * (2 : ℚ) ^ (-52 : ℤ) + (2 : ℚ) ^ (-1074 : ℤ) := by
  unfold ulp
  rcases le_total (Int.log 2 |q|) (-1022) with h | h
  · rw [max_eq_right h]
    have : (0 : ℚ) ≤ |q| * (2 : ℚ) ^ (-52 : ℤ) := by positivity
    have e : (-1022 : ℤ) - 52 = -1074 := by norm_num
    rw [e]
    linarith
  · rw [max_eq_left h]
    have hq : 0 < |q| := abs_pos.2 hq0
    have hle : (2 : ℚ) ^ Int.log 2 |q| ≤ |q| := by
      have := Int.zpow_log_le_self (b := 2) (r := |q|) (by norm_num) hq
      exact_mod_cast this
    rw [zpow_sub₀ (by norm_num : (2 : ℚ) ≠ 0)]
    have h52 : (0 : ℚ) < (2 : ℚ) ^ (52 : ℤ) := by positivity
    have e : |q| * (2 : ℚ) ^ (-52 : ℤ) = |q| / (2 : ℚ) ^ (52 : ℤ) := by
      rw [zpow_neg, div_eq_mul_inv]
    rw [e]
    have : (2 : ℚ) ^ Int.log 2 |q| / 2 ^ (52 : ℤ) ≤ |q| / (2 : ℚ) ^ (52 : ℤ) :=
      div_le_div_of_nonneg_right hle h52.le
    have h3 : (0 : ℚ) < (2 : ℚ) ^ (-1074 : ℤ) := by positivity
    linarith

theorem roundQ_abs_sub_le (q : ℚ) : |roundQ q - q| ≤ ulp q / 2 := by
  have hu := ulp_pos q
  have h := roundHalfEven_abs_sub_le (q / ulp q)
  unfold roundQ
  have e : (roundHalfEven (q / ulp q) : ℚ) * ulp q - q
      = ((roundHalfEven (q / ulp q) : ℚ) - q / ulp q) * ulp q := by
    field_simp
  rw [e, abs_mul, abs_of_pos hu]
  calc |(roundHalfEven (q / ulp q) : ℚ) - q / ulp q| * ulp q ≤ 1 / 2 * ulp q :=
        mul_le_mul_of_nonneg_right h hu.le
    _ = ulp q / 2 := by ring

theorem roundQ_nonneg (q : ℚ) (h : 0 ≤ q) : 0 ≤ roundQ q := by
  unfold roundQ
  have h1 : 0 ≤ q / ulp q := div_nonneg h (ulp_pos q).le
  have h2 : (0 : ℚ) ≤ (roundHalfEven (q / ulp q) : ℚ) := by
    exact_mod_cast roundHalfEven_nonneg _ h1
  exact mul_nonneg h2 (ulp_pos q).le

/-- standard model of rounding -/
theorem roundQ_le (q : ℚ) (h : 0 ≤ q) :
    roundQ q ≤ q * (1 + (2 : ℚ) ^ (-53 : ℤ)) + (2 : ℚ) ^ (-1075 : ℤ) := by
  rcases eq_or_ne q 0 with h0 | h0
  · subst h0
    have : roundQ 0 = 0 := by simp [roundQ, roundHalfEven]
    rw [this]
    positivity
  have h1 := roundQ_abs_sub_le q
  have h2 := ulp_le q h0
  rw [abs_of_nonneg h] at h2
  have h3 := (abs_le.1 h1).2
  have e1 : (2 : ℚ) ^ (-52 : ℤ) = 2 * (2 : ℚ) ^ (-53 : ℤ) := by norm_num
  have e2 : (2 : ℚ) ^ (-1074 : ℤ) = 2 * (2 : ℚ) ^ (-1075 : ℤ) := by
    rw [show (-1074 : ℤ) = 1 + (-1075) by norm_num, zpow_add₀ (by norm_num), zpow_one]
  rw [e1, e2] at h2
  nlinarith

theorem roundQ_ge (q : ℚ) (h : 0 ≤ q) :
    q * (1 - (2 : ℚ) ^ (-53 : ℤ)) - (2 : ℚ) ^ (-1075 : ℤ) ≤ roundQ q := by
  rcases eq_or_ne q 0 with h0 | h0
  · subst h0
    have : roundQ 0 = 0 := by simp [roundQ, roundHalfEven]
    rw [this]
    have : (0 : ℚ) < (2 : ℚ) ^ (-1075 : ℤ) := by positivity
    linarith
  have h1 := roundQ_abs_sub_le q
  have h2 := ulp_le q h0
  rw [abs_of_nonneg h] at h2
  have h3 := (abs_le.1 h1).1
  have e1 : (2 : ℚ) ^ (-52 : ℤ) = 2 * (2 : ℚ) ^ (-53 : ℤ) := by norm_num
  have e2 : (2 : ℚ) ^ (-1074 : ℤ) = 2 * (2 : ℚ) ^ (-1075 : ℤ) := by
    rw [show (-1074 : ℤ) = 1 + (-1075) by norm_num, zpow_add₀ (by norm_num), zpow_one]
  rw [e1, e2] at h2
  nlinarith

theorem roundQ_exact (q : ℚ) (z : ℤ) (h : q / ulp q = z) : roundQ q = q := by
  unfold roundQ
  rw [h, roundHalfEven_intCast, ← h]
  field_simp [(ulp_pos q).ne']

/-- every `n * 2 ^ k` with `|n| < 2 ^ 53` and `k ≥ -1074` is on the grid -/
theorem roundQ_dyadic (n k : ℤ) (hn : |n| < 2 ^ 53) (hk : -1074 ≤ k) :
    roundQ ((n : ℚ) * (2 : ℚ) ^ k) = (n : ℚ) * (2 : ℚ) ^ k := by
  rcases eq_or_ne n 0 with h0 | h0
  · subst h0
    apply roundQ_exact _ 0
    simp
  have hq : 0 < |(n : ℚ) * (2 : ℚ) ^ k| := by
    apply abs_pos.2
    have : (n : ℚ) ≠ 0 := by exact_mod_cast h0
    positivity
  have hlt : |(n : ℚ) * (2 : ℚ) ^ k| < (2 : ℚ) ^ (53 + k) := by
    rw [abs_mul, abs_of_pos (by positivity : (0 : ℚ) < (2 : ℚ) ^ k),
      zpow_add₀ (by norm_num : (2 : ℚ) ≠ 0)]
    apply mul_lt_mul_of_pos_right _ (by positivity)
    exact_mod_cast hn
  have hlog : Int.log 2 |(n : ℚ) * (2 : ℚ) ^ k| < 53 + k := by
    have := (Int.lt_zpow_iff_log_lt (b := 2) (x := 53 + k) (r := |(n : ℚ) * (2 : ℚ) ^ k|)
      (by norm_num) hq).1 (by exact_mod_cast hlt)
    exact this
  have hd : 0 ≤ k - (max (Int.log 2 |(n : ℚ) * (2 : ℚ) ^ k|) (-1022) - 52) := by
    rcases le_total (Int.log 2 |(n : ℚ) * (2 : ℚ) ^ k|) (-1022) with h | h
    · rw [max_eq_right h]; omega
    · rw [max_eq_left h]; omega
  apply roundQ_exact _ (n * 2 ^ (k - (max (Int.log 2 |(n : ℚ) * (2 : ℚ) ^ k|) (-1022) - 52)).toNat)
  unfold ulp
  rw [mul_div_assoc, ← zpow_sub₀ (by norm_num : (2 : ℚ) ≠ 0)]
  push_cast
  congr 1
  rw [← zpow_natCast, Int.toNat_of_nonneg hd]

theorem roundQ_intCast (n : ℤ) (hn : |n| ≤ 2 ^ 53) : roundQ (n : ℚ) = n := by
  rcases lt_or_eq_of_le hn with h | h
  · simpa using roundQ_dyadic n 0 h (by norm_num)
  · -- n = ± 2^53 = (± 2^52) * 2^1
    have hn2 : n = 2 ^ 53 ∨ n = -2 ^ 53 := by
      rcases abs_cases n with ⟨h1, _⟩ | ⟨h1, _⟩
      · left; omega
      · right; omega
    rcases hn2 with h1 | h1
    · have := roundQ_dyadic (2 ^ 52) 1 (by norm_num) (by norm_num)
      rw [h1]
      norm_num at this ⊢
      exact this
    · have := roundQ_dyadic (-2 ^ 52) 1 (by norm_num) (by norm_num)
      rw [h1]
      norm_num at this ⊢
      exact this

theorem F64.round_fin (q : ℚ) (h : |roundQ q| < (2 : ℚ) ^ 1024) :
    F64.round q = F64.fin (roundQ q) := by
  unfold F64.round
  rw [if_neg (not_le.2 h)]

theorem F64.ofInt_exact (n : ℤ) (hn : |n| ≤ 2 ^ 53) : F64.ofInt n = F64.fin n := by
  unfold F64.ofInt
  have h := roundQ_intCast n hn
  rw [F64.round_fin, h]
  rw [h]
  have h1 : |(n : ℚ)| ≤ (2 : ℚ) ^ 53 := by exact_mod_cast hn
  have h2 : (2 : ℚ) ^ 53 < (2 : ℚ) ^ 1024 := by
    apply pow_lt_pow_right₀ (by norm_num) (by norm_num)
  linarith

theorem F64.toInt_fin_nonneg (q : ℚ) (h0 : 0 ≤ q) (h : ⌊q⌋ < 2 ^ 63) :
    F64.toInt (F64.fin q) = some ⌊q⌋ := by
  unfold F64.toInt
  have hf : 0 ≤ ⌊q⌋ := Int.floor_nonneg.2 h0
  simp only [if_pos h0]
  rw [if_pos ⟨by omega, h⟩]

/-- what a successful conversion of a rounded nonnegative value tells -/
theorem F64.toInt_round_nonneg (q : ℚ) (h0 : 0 ≤ q) (n : ℤ)
    (h : F64.toInt (F64.round q) = some n) :
    n = ⌊roundQ q⌋ ∧ 0 ≤ n ∧ n < 2 ^ 63 := by
  unfold F64.round at h
  split_ifs at h with hbig
  · simp [F64.toInt] at h
  · have hr := roundQ_nonneg q h0
    unfold F64.toInt at h
    simp only [if_pos hr] at h
    split_ifs at h with hrange
    have e : ⌊roundQ q⌋ = n := Option.some.inj h
    subst e
    exact ⟨rfl, Int.floor_nonneg.2 hr, hrange.2⟩

/-- The source coordinate of a destination coordinate is inside the source:
if `nw` is the converted rounded product `w * s` and `x < nw ≤ 2 ^ 52`, the
converted rounded quotient `x / s` is below `w`. -/
theorem src_coord_lt (w : ℤ) (hw0 : 0 ≤ w) (hw : w ≤ 2 ^ 53) (s : ℚ) (hs : 0 < s) (nw : ℤ)
    (hnw : F64.toInt (F64.mul (F64.ofInt w) (F64.fin s)) = some nw) (hle : nw ≤ 2 ^ 52)
    (x : ℤ) (hx0 : 0 ≤ x) (hx : x < nw) :
    F64.toInt (F64.div (F64.ofInt x) (F64.fin s)) = some ⌊roundQ ((x : ℚ) / s)⌋ ∧
      0 ≤ ⌊roundQ ((x : ℚ) / s)⌋ ∧ ⌊roundQ ((x : ℚ) / s)⌋ < w := by
  have hwq : (0 : ℚ) ≤ (w : ℚ) := by exact_mod_cast hw0
  have hxq : (0 : ℚ) ≤ (x : ℚ) := by exact_mod_cast hx0
  rw [F64.ofInt_exact w (by rw [abs_of_nonneg hw0]; exact hw)] at hnw
  rw [F64.ofInt_exact x (by rw [abs_of_nonneg hx0]; omega)]
  have hmul : F64.mul (F64.fin w) (F64.fin s) = F64.round ((w : ℚ) * s) := rfl
  have hdiv : F64.div (F64.fin x) (F64.fin s) = F64.round ((x : ℚ) / s) := by
    show (if s = 0 then _ else _) = _
    rw [if_neg hs.ne']
  rw [hmul] at hnw
  rw [hdiv]
  obtain ⟨hnw1, -, -⟩ := F64.toInt_round_nonneg _ (mul_nonneg hwq hs.le) nw hnw
  -- the rounded product is at least x + 1
  have hA : ((x : ℚ) + 1) ≤ roundQ ((w : ℚ) * s) := by
    have h1 : x + 1 ≤ ⌊roundQ ((w : ℚ) * s)⌋ := by omega
    have h2 : ((x + 1 : ℤ) : ℚ) ≤ roundQ ((w : ℚ) * s) := Int.le_floor.1 h1
    push_cast at h2
    exact h2
  have hP := roundQ_le ((w : ℚ) * s) (mul_nonneg hwq hs.le)
  have hB := roundQ_le ((x : ℚ) / s) (div_nonneg hxq hs.le)
  have hB0 := roundQ_nonneg ((x : ℚ) / s) (div_nonneg hxq hs.le)
  -- constants
  have hu : (2 : ℚ) ^ (-53 : ℤ) = 1 / 9007199254740992 := by norm_num
  have hη0 : (0 : ℚ) < (2 : ℚ) ^ (-1075 : ℤ) := by positivity
  have hη1 : (2 : ℚ) ^ (-1075 : ℤ) ≤ (2 : ℚ) ^ (-200 : ℤ) :=
    zpow_le_zpow_right₀ (by norm_num) (by norm_num)
  have hη2 : (2 : ℚ) ^ (-200 : ℤ) = 1 / 1606938044258990275541962092341162602522202993782792835301376 := by
    norm_num
  rw [hη2] at hη1
  generalize (2 : ℚ) ^ (-1075 : ℤ) = η at hη0 hη1 hP hB
  rw [hu] at hP hB
  have hx52 : (x : ℚ) ≤ 2 ^ 52 - 1 := by
    have : x ≤ 2 ^ 52 - 1 := by omega
    exact_mod_cast this
  -- w is positive
  have hwpos : (1 : ℚ) ≤ (w : ℚ) := by
    have : 1 ≤ w := by
      by_contra hcon
      have hw0' : w = 0 := by omega
      have hz : roundQ ((w : ℚ) * s) = 0 := by
        rw [hw0']
        simp [roundQ, roundHalfEven]
      linarith
    exact_mod_cast this
  have hηx : η * (x : ℚ) ≤ 1 / 1606938044258990275541962092341162602522202993782792835301376 * (2 ^ 52 - 1) :=
    mul_le_mul hη1 hx52 hxq (by norm_num)
  -- the product dominates x (1 + u) + η s
  have hsP : s ≤ (w : ℚ) * s := by nlinarith
  have hkey : (x : ℚ) * (1 + 1 / 9007199254740992) + η * ((w : ℚ) * s) < (w : ℚ) * s := by
    have h1 : (x : ℚ) * (1 + 1 / 9007199254740992) * (1 + 1 / 9007199254740992)
        < (x + 1 - η) * (1 - η) := by
      nlinarith
    have h2 : (x + 1 - η) * (1 - η) ≤ ((w : ℚ) * s) * (1 + 1 / 9007199254740992) * (1 - η) := by
      apply mul_le_mul_of_nonneg_right _ (by linarith)
      linarith
    have h3 : (x : ℚ) * (1 + 1 / 9007199254740992) * (1 + 1 / 9007199254740992)
        < ((w : ℚ) * s) * (1 - η) * (1 + 1 / 9007199254740992) := by
      calc _ < _ := h1
        _ ≤ _ := h2
        _ = _ := by ring
    have h4 := lt_of_mul_lt_mul_right h3 (by norm_num : (0 : ℚ) ≤ 1 + 1 / 9007199254740992)
    linarith
  have hlt : roundQ ((x : ℚ) / s) < (w : ℚ) := by
    have h1 : ((x : ℚ) / s) * (1 + 1 / 9007199254740992) + η < (w : ℚ) := by
      have h2 : (((x : ℚ) / s) * (1 + 1 / 9007199254740992) + η) * s < (w : ℚ) * s := by
        have e : (((x : ℚ) / s) * (1 + 1 / 9007199254740992) + η) * s
            = (x : ℚ) * (1 + 1 / 9007199254740992) + η * s := by
          field_simp
          ring
        rw [e]
        nlinarith
      exact lt_of_mul_lt_mul_right h2 hs.le
    linarith
  have hfl : ⌊roundQ ((x : ℚ) / s)⌋ < w := Int.floor_lt.2 hlt
  have hbig : |roundQ ((x : ℚ) / s)| < (2 : ℚ) ^ 1024 := by
    rw [abs_of_nonneg hB0]
    have h1 : (w : ℚ) ≤ (2 : ℚ) ^ 53 := by exact_mod_cast hw
    have h2 : (2 : ℚ) ^ 53 < (2 : ℚ) ^ 1024 := by
      apply pow_lt_pow_right₀ (by norm_num) (by norm_num)
    linarith
  rw [F64.round_fin _ hbig, F64.toInt_fin_nonneg _ hB0 (by omega)]
  exact ⟨rfl, Int.floor_nonneg.2 hB0, hfl⟩

/-! ## The copying loops of `Resize` -/

/-- The two nested loops of `Resize` over a fresh buffer of the right length:
when every destination has a source pixel, the loops end and leave at
`x + y * nw` the source pixel of `(x, y)`. -/
theorem fill_total (P : Int → Int → Option Color) (nw nh : Nat) (fresh : List Color)
    (hlen : fresh.length = nw * nh) (hL : ((nw * nh : Nat) : Int) < 2 ^ 63)
    (hP : ∀ x y : Nat, x < nw → y < nh → ∃ c, P x y = some c) :
    ∃ d, forLoop (nh : Int) (fun y data =>
        forLoop (nw : Int) (fun x data =>
          match P x y with
          | some c => store data (wrapInt (x + wrapInt (y * (nw : Int)))) c
          | none => none) data) fresh = some d
      ∧ d.length = nw * nh
      ∧ ∀ x y : Nat, x < nw → y < nh → d[x + y * nw]? = P x y := by
  have hidx : ∀ x y : Nat, x < nw → y < nh →
      wrapInt ((x : Int) + wrapInt ((y : Int) * (nw : Int))) = ((x + y * nw : Nat) : Int)
      ∧ x + y * nw < nw * nh := by
    intro x y hx hy
    have h1 : x + y * nw < nw * nh := by
      calc x + y * nw < nw + y * nw := by omega
        _ = nw * (y + 1) := by ring
        _ ≤ nw * nh := Nat.mul_le_mul_left _ hy
    have e1 : (y : Int) * (nw : Int) = ((y * nw : Nat) : Int) := by push_cast; rfl
    refine ⟨?_, h1⟩
    rw [e1]
    generalize y * nw = m at h1
    generalize nw * nh = L at h1 hL
    rw [wrapInt_of_range (m : Int) (by omega) (by omega)]
    rw [wrapInt_of_range _ (by omega) (by omega)]
    push_cast; ring
  have hrow : ∀ (y : Nat), y < nh → ∀ d0 : List Color, d0.length = nw * nh →
      (∀ x y2 : Nat, x < nw → y2 < y → d0[x + y2 * nw]? = P x y2) →
      ∃ d, forLoop (nw : Int) (fun x data =>
          match P x y with
          | some c => store data (wrapInt (x + wrapInt ((y : Int) * (nw : Int)))) c
          | none => none) d0 = some d
        ∧ d.length = nw * nh
        ∧ ∀ x y2 : Nat, x < nw → y2 < y + 1 → d[x + y2 * nw]? = P x y2 := by
    intro y hy d0 hd0 hprev
    obtain ⟨d, hd, hinv⟩ := forLoop_total
      (fun x data =>
        match P x y with
        | some c => store data (wrapInt (x + wrapInt ((y : Int) * (nw : Int)))) c
        | none => none)
      (fun k d => d.length = nw * nh
        ∧ (∀ x y2 : Nat, x < nw → y2 < y → d[x + y2 * nw]? = P x y2)
        ∧ ∀ x : Nat, x < k → d[x + y * nw]? = P x y)
      nw d0 ⟨hd0, hprev, fun x hx => absurd hx (Nat.not_lt_zero x)⟩
      (by
        intro k t hk ⟨htl, htprev, htrow⟩
        obtain ⟨c, hc⟩ := hP k y hk hy
        obtain ⟨hw, hlt⟩ := hidx k y hk hy
        have hst : store t (wrapInt ((k : Int) + wrapInt ((y : Int) * (nw : Int)))) c
            = some (t.set (k + y * nw) c) := by
          rw [hw]
          unfold store
          rw [if_pos ⟨Int.natCast_nonneg _, by rw [htl]; exact_mod_cast hlt⟩, Int.toNat_natCast]
        refine ⟨t.set (k + y * nw) c, ?_, ?_, ?_, ?_⟩
        · beta_reduce
          rw [hc]
          exact hst
        · rw [List.length_set, htl]
        · intro x y2 hx hy2
          have hne : k + y * nw ≠ x + y2 * nw := by
            have : (y2 + 1) * nw ≤ y * nw := Nat.mul_le_mul_right _ hy2
            rw [Nat.succ_mul] at this
            omega
          rw [List.getElem?_set_ne hne]
          exact htprev x y2 hx hy2
        · intro x hx
          rcases Nat.lt_succ_iff_lt_or_eq.1 hx with h | h
          · rw [List.getElem?_set_ne (by omega)]
            exact htrow x h
          · rw [h, List.getElem?_set_self (by rw [htl]; exact hlt), hc])
    obtain ⟨h1, h2, h3⟩ := hinv
    refine ⟨d, hd, h1, ?_⟩
    intro x y2 hx hy2
    rcases Nat.lt_succ_iff_lt_or_eq.1 hy2 with h | h
    · exact h2 x y2 hx h
    · rw [h]; exact h3 x hx
  obtain ⟨d, hd, hinv⟩ := forLoop_total
    (fun y data =>
      forLoop (nw : Int) (fun x data =>
        match P x y with
        | some c => store data (wrapInt (x + wrapInt (y * (nw : Int)))) c
        | none => none) data)
    (fun k d => d.length = nw * nh
      ∧ ∀ x y2 : Nat, x < nw → y2 < k → d[x + y2 * nw]? = P x y2)
    nh fresh ⟨hlen, fun x y2 _ hy2 => absurd hy2 (Nat.not_lt_zero y2)⟩
    (by
      intro k t hk ⟨htl, htprev⟩
      obtain ⟨d, hd, h1, h2⟩ := hrow k hk t htl htprev
      exact ⟨d, hd, h1, h2⟩)
  exact ⟨d, hd, hinv.1, fun x y hx hy => hinv.2 x y hx hy⟩

/-- A conversion `int(f)` that Go specifies has the specified value on every
platform. -/
theorem F64.toIntOn_of_some (p : Platform) (f : F64) (n : Int) (h : F64.toInt f = some n) :
    F64.toIntOn p f = n := by
  unfold F64.toIntOn
  rw [h]

/-- `Resize` once its allocation has succeeded: the two copying loops over the
fresh buffer. -/
theorem Resize_unfold_on (i : Image) (p : Platform) (xs ys : F64) (nw nh : Int)
    (fresh : List Color)
    (hw : F64.toIntOn p (F64.mul (F64.ofInt i.width) xs) = nw)
    (hh : F64.toIntOn p (F64.mul (F64.ofInt i.height) ys) = nh)
    (hmake : make p (wrapInt (nw * nh)) = some fresh) :
    i.Resize p xs ys =
      (forLoop nh (fun y data =>
        forLoop nw (fun x data =>
          match i.source p xs ys x y with
          | some c => store data (wrapInt (x + wrapInt (y * nw))) c
          | none => none) data) fresh).map
        (fun data => { data := data, width := nw, height := nh }) := by
  subst hw hh
  unfold Image.Resize
  simp only [hmake]

/-- `Resize` once its two conversions are specified and its allocation has
succeeded: the two copying loops over the fresh buffer. -/
theorem Resize_unfold (i : Image) (p : Platform) (xs ys : F64) (nw nh : Int) (fresh : List Color)
    (hw : F64.toInt (F64.mul (F64.ofInt i.width) xs) = some nw)
    (hh : F64.toInt (F64.mul (F64.ofInt i.height) ys) = some nh)
    (hmake : make p (wrapInt (nw * nh)) = some fresh) :
    i.Resize p xs ys =
      (forLoop nh (fun y data =>
        forLoop nw (fun x data =>
          match i.source p xs ys x y with
          | some c => store data (wrapInt (x + wrapInt (y * nw))) c
          | none => none) data) fresh).map
        (fun data => { data := data, width := nw, height := nh }) :=
  Resize_unfold_on i p xs ys nw nh fresh (F64.toIntOn_of_some p _ nw hw)
    (F64.toIntOn_of_some p _ nh hh) hmake

/-- No platform hands out a slice of more than `2 ^ 44` pixels. -/
theorem maxLen_le_pow (p : Platform) : (p.maxLen : Int) ≤ 2 ^ 44 := by
  have h := p.maxLen_le
  unfold sizeofColor maxAlloc at h
  omega

/-- `make` returns a slice of every length from 0 to the longest the platform
hands out. -/
theorem make_natCast (p : Platform) (n : Nat) (h : (n : Int) ≤ (p.maxLen : Int)) :
    make p ((n : Nat) : Int) = some (List.replicate n ⟨0, 0, 0, 0⟩) := by
  unfold make
  rw [if_pos ⟨Int.natCast_nonneg _, h⟩, Int.toNat_natCast]

/-- `make` panics for every length above the longest the platform hands out,
and so for every length above `2 ^ 44`. -/
theorem make_too_long (p : Platform) (n : Int) (h : (p.maxLen : Int) < n) : make p n = none := by
  unfold make
  rw [if_neg (by omega)]

/-- What a slice that `make` has returned is: its length is the one asked for,
between 0 and the longest the platform hands out, and so at most `2 ^ 44`. -/
theorem make_some (p : Platform) (n : Int) (fresh : List Color) (h : make p n = some fresh) :
    0 ≤ n ∧ n ≤ 2 ^ 44 ∧ (fresh.length : Int) = n ∧ n ≤ (p.maxLen : Int) := by
  have hp := maxLen_le_pow p
  unfold make at h
  split_ifs at h with h0
  have e := Option.some.inj h
  rw [← e, List.length_replicate, Int.toNat_of_nonneg h0.1]
  exact ⟨h0.1, by omega, rfl, h0.2⟩

/-- `Resize` ends with the new buffer as soon as both new dimensions are
non-negative, `make` allocates their product, and every destination has a
source pixel. -/
theorem Resize_of_sources (i : Image) (p : Platform) (xs ys : F64) (nw nh : Nat)
    (hw : F64.toInt (F64.mul (F64.ofInt i.width) xs) = some (nw : Int))
    (hh : F64.toInt (F64.mul (F64.ofInt i.height) ys) = some (nh : Int))
    (hL : ((nw * nh : Nat) : Int) ≤ (p.maxLen : Int))
    (hsrc : ∀ x y : Nat, x < nw → y < nh → ∃ c, i.source p xs ys x y = some c) :
    ∃ d, i.Resize p xs ys = some { data := d, width := nw, height := nh }
      ∧ d.length = nw * nh
      ∧ ∀ x y : Nat, x < nw → y < nh → d[x + y * nw]? = i.source p xs ys x y := by
  have hp := maxLen_le_pow p
  obtain ⟨d, hd, hlen, hpix⟩ := fill_total (fun x y => i.source p xs ys x y) nw nh
    (List.replicate (nw * nh) ⟨0, 0, 0, 0⟩) (List.length_replicate _ _) (by omega) hsrc
  refine ⟨d, ?_, hlen, hpix⟩
  have hmake : make p (wrapInt ((nw : Int) * (nh : Int)))
      = some (List.replicate (nw * nh) ⟨0, 0, 0, 0⟩) := by
    have e : (nw : Int) * (nh : Int) = ((nw * nh : Nat) : Int) := by push_cast; rfl
    rw [e, wrapInt_of_range _ (by omega) (by omega)]
    exact make_natCast p _ hL
  rw [Resize_unfold i p xs ys nw nh _ hw hh hmake]
  rw [hd]
  simp only [Option.map_some']

/-- The pixel `Resize` copies to a destination whose source coordinates are
inside the source buffer. -/
theorem source_eq (i : Image) (p : Platform) (hgo : i.IsGoValue) (hv : i.Valid) (xs ys : F64)
    (x y ax ay : Int)
    (hx : F64.toInt (F64.div (F64.ofInt x) xs) = some ax)
    (hy : F64.toInt (F64.div (F64.ofInt y) ys) = some ay)
    (hax0 : 0 ≤ ax) (hax : ax < i.width) (hay0 : 0 ≤ ay) (hay : ay < i.height) :
    i.source p xs ys x y = i.data[ax.toNat + ay.toNat * i.width.toNat]?
      ∧ ax.toNat + ay.toNat * i.width.toNat < i.data.length := by
  have hlt := Image.Valid.index_lt i hv ax.toNat ay.toNat (by omega) (by omega)
  have hidx := pixel_index_eq i hgo hv ax.toNat ay.toNat (by omega) (by omega)
  rw [Int.toNat_of_nonneg hax0, Int.toNat_of_nonneg hay0] at hidx
  refine ⟨?_, hlt⟩
  unfold Image.source
  rw [F64.toIntOn_of_some p _ _ hx, F64.toIntOn_of_some p _ _ hy, hidx]
  rw [List.getElem?_eq_getElem hlt]
  exact index_eq_some _ _ _ (List.getElem?_eq_getElem hlt)

theorem F64.div_fin (x y : ℚ) (hy : y ≠ 0) :
    F64.div (F64.fin x) (F64.fin y) = F64.round (x / y) := by
  show (if y = 0 then _ else _) = _
  rw [if_neg hy]

theorem F64.toInt_round_exact (q : ℚ) (hq : roundQ q = q) (h0 : 0 ≤ q)
    (hlt : q < (2 : ℚ) ^ 63) : F64.toInt (F64.round q) = some ⌊q⌋ := by
  have hbig : |roundQ q| < (2 : ℚ) ^ 1024 := by
    rw [hq, abs_of_nonneg h0]
    have h2 : (2 : ℚ) ^ 63 < (2 : ℚ) ^ 1024 :=
      pow_lt_pow_right₀ (by norm_num) (by norm_num)
    linarith
  rw [F64.round_fin _ hbig, hq]
  apply F64.toInt_fin_nonneg _ h0
  apply Int.floor_lt.2
  exact_mod_cast hlt

/-- Scaling an `int` of at most 53 bits by a factor that makes the product an
integer of at most 53 bits is exact. -/
theorem F64.toInt_mul_exact (w : ℤ) (s : ℚ) (n : ℤ) (hw : |w| ≤ 2 ^ 53)
    (hn0 : 0 ≤ n) (hn : n ≤ 2 ^ 53) (hprod : (w : ℚ) * s = n) :
    F64.toInt (F64.mul (F64.ofInt w) (F64.fin s)) = some n := by
  rw [F64.ofInt_exact w hw]
  show F64.toInt (F64.round ((w : ℚ) * s)) = some n
  rw [hprod, F64.toInt_round_exact _ (roundQ_intCast n (by rw [abs_of_nonneg hn0]; exact hn))
    (by exact_mod_cast hn0)
    (by
      have h1 : (n : ℚ) ≤ (2 : ℚ) ^ 53 := by exact_mod_cast hn
      have h2 : (2 : ℚ) ^ 53 < (2 : ℚ) ^ 63 := pow_lt_pow_right₀ (by norm_num) (by norm_num)
      linarith)]
  rw [Int.floor_intCast]

/-- Dividing an `int` below `2 ^ 53` by one is exact. -/
theorem F64.toInt_div_one (x : ℤ) (hx0 : 0 ≤ x) (hx : x ≤ 2 ^ 53) :
    F64.toInt (F64.div (F64.ofInt x) (F64.fin 1)) = some x := by
  rw [F64.ofInt_exact x (by rw [abs_of_nonneg hx0]; exact hx)]
  rw [F64.div_fin _ _ one_ne_zero, div_one,
    F64.toInt_round_exact _ (roundQ_intCast x (by rw [abs_of_nonneg hx0]; exact hx))
    (by exact_mod_cast hx0)
    (by
      have h1 : (x : ℚ) ≤ (2 : ℚ) ^ 53 := by exact_mod_cast hx
      have h2 : (2 : ℚ) ^ 53 < (2 : ℚ) ^ 63 := pow_lt_pow_right₀ (by norm_num) (by norm_num)
      linarith)]
  rw [Int.floor_intCast]

/-- Dividing an `int` below `2 ^ 53` by two is exact, and the conversion
truncates the half. -/
theorem F64.toInt_div_two (x : ℤ) (hx0 : 0 ≤ x) (hx : x < 2 ^ 53) :
    F64.toInt (F64.div (F64.ofInt x) (F64.fin 2)) = some (x / 2) := by
  rw [F64.ofInt_exact x (by rw [abs_of_nonneg hx0]; omega)]
  rw [F64.div_fin _ _ two_ne_zero]
  have hx0q : (0 : ℚ) ≤ (x : ℚ) := by exact_mod_cast hx0
  have hexact : roundQ ((x : ℚ) / 2) = (x : ℚ) / 2 := by
    have h := roundQ_dyadic x (-1) (by rw [abs_of_nonneg hx0]; exact hx) (by norm_num)
    have e : (x : ℚ) * (2 : ℚ) ^ (-1 : ℤ) = (x : ℚ) / 2 := by
      rw [zpow_neg, zpow_one, div_eq_mul_inv]
    rwa [e] at h
  rw [F64.toInt_round_exact _ hexact (by positivity)
    (by
      have h1 : (x : ℚ) < (2 : ℚ) ^ 53 := by exact_mod_cast hx
      have h2 : (2 : ℚ) ^ 53 < (2 : ℚ) ^ 63 := pow_lt_pow_right₀ (by norm_num) (by norm_num)
      linarith)]
  congr 1
  rw [Int.floor_eq_iff]
  have h2 : x = 2 * (x / 2) + x % 2 := (Int.ediv_add_emod x 2).symm
  have h3 : 0 ≤ x % 2 := Int.emod_nonneg x (by norm_num)
  have h4 : x % 2 < 2 := Int.emod_lt_of_pos x (by norm_num)
  have h5 : (x : ℚ) = 2 * ((x / 2 : ℤ) : ℚ) + ((x % 2 : ℤ) : ℚ) := by exact_mod_cast h2
  have h6 : (0 : ℚ) ≤ ((x % 2 : ℤ) : ℚ) := by exact_mod_cast h3
  have h7 : ((x % 2 : ℤ) : ℚ) < 2 := by exact_mod_cast h4
  constructor <;> linarith

/-! ## Theorems about `Resize` -/

/-- Source pixels within the exact range of `float64`: for a valid buffer with
dimensions at most `2 ^ 53`, positive finite scale factors and new dimensions
at most `2 ^ 52`, the new dimensions are the floors of the rounded products,
and every destination has a source pixel, at the coordinate the floors of the
rounded quotients give, inside the source. -/
theorem source_of_range (i : Image) (p : Platform) (sx sy : ℚ) (nw nh : Int)
    (hgo : i.IsGoValue) (hv : i.Valid) (hsx : 0 < sx) (hsy : 0 < sy)
    (hw53 : i.width ≤ 2 ^ 53) (hh53 : i.height ≤ 2 ^ 53)
    (hnw : F64.toInt (F64.mul (F64.ofInt i.width) (F64.fin sx)) = some nw)
    (hnh : F64.toInt (F64.mul (F64.ofInt i.height) (F64.fin sy)) = some nh)
    (hnw52 : nw ≤ 2 ^ 52) (hnh52 : nh ≤ 2 ^ 52) :
    (0 ≤ nw ∧ nw = ⌊roundQ ((i.width : ℚ) * sx)⌋) ∧
    (0 ≤ nh ∧ nh = ⌊roundQ ((i.height : ℚ) * sy)⌋) ∧
    ∀ x y : Nat, x < nw.toNat → y < nh.toNat →
      (0 ≤ ⌊roundQ ((x : ℚ) / sx)⌋ ∧ ⌊roundQ ((x : ℚ) / sx)⌋ < i.width) ∧
      (0 ≤ ⌊roundQ ((y : ℚ) / sy)⌋ ∧ ⌊roundQ ((y : ℚ) / sy)⌋ < i.height) ∧
      ∃ c, i.data[(⌊roundQ ((x : ℚ) / sx)⌋
            + ⌊roundQ ((y : ℚ) / sy)⌋ * i.width).toNat]? = some c ∧
        i.source p (F64.fin sx) (F64.fin sy) x y = some c := by
  have hw0 : 0 ≤ i.width := hv.1
  have hh0 : 0 ≤ i.height := hv.2.1
  have hwq : (0 : ℚ) ≤ (i.width : ℚ) := by exact_mod_cast hw0
  have hhq : (0 : ℚ) ≤ (i.height : ℚ) := by exact_mod_cast hh0
  -- the new dimensions
  have hnw' := hnw
  have hnh' := hnh
  rw [F64.ofInt_exact _ (by rw [abs_of_nonneg hw0]; exact hw53)] at hnw'
  rw [F64.ofInt_exact _ (by rw [abs_of_nonneg hh0]; exact hh53)] at hnh'
  obtain ⟨enw, hnw0, -⟩ := F64.toInt_round_nonneg _ (mul_nonneg hwq hsx.le) nw hnw'
  obtain ⟨enh, hnh0, -⟩ := F64.toInt_round_nonneg _ (mul_nonneg hhq hsy.le) nh hnh'
  have cnw : ((nw.toNat : Nat) : Int) = nw := Int.toNat_of_nonneg hnw0
  have cnh : ((nh.toNat : Nat) : Int) = nh := Int.toNat_of_nonneg hnh0
  refine ⟨⟨hnw0, enw⟩, ⟨hnh0, enh⟩, ?_⟩
  intro x y hx hy
  obtain ⟨hax, hax0, haxw⟩ := src_coord_lt i.width hw0 hw53 sx hsx nw hnw hnw52 (x : Int)
    (Int.natCast_nonneg _) (by omega)
  obtain ⟨hay, hay0, hayh⟩ := src_coord_lt i.height hh0 hh53 sy hsy nh hnh hnh52 (y : Int)
    (Int.natCast_nonneg _) (by omega)
  rw [Int.cast_natCast] at hax hax0 haxw hay hay0 hayh
  obtain ⟨hs, hlt⟩ := source_eq i p hgo hv _ _ _ _ _ _ hax hay hax0 haxw hay0 hayh
  have e : (⌊roundQ ((x : ℚ) / sx)⌋ + ⌊roundQ ((y : ℚ) / sy)⌋ * i.width).toNat
      = ⌊roundQ ((x : ℚ) / sx)⌋.toNat + ⌊roundQ ((y : ℚ) / sy)⌋.toNat * i.width.toNat := by
    apply Int.ofNat_inj.1
    rw [Int.toNat_of_nonneg (add_nonneg hax0 (mul_nonneg hay0 hw0))]
    push_cast
    rw [Int.toNat_of_nonneg hax0, Int.toNat_of_nonneg hay0, Int.toNat_of_nonneg hw0]
  obtain ⟨c, hc⟩ : ∃ c, i.data[⌊roundQ ((x : ℚ) / sx)⌋.toNat
      + ⌊roundQ ((y : ℚ) / sy)⌋.toNat * i.width.toNat]? = some c :=
    ⟨_, List.getElem?_eq_getElem hlt⟩
  refine ⟨⟨hax0, haxw⟩, ⟨hay0, hayh⟩, c, ?_, ?_⟩
  · rw [e]; exact hc
  · rw [hs]; exact hc

/-- C3 (amended): for every valid buffer whose dimensions are at most `2 ^ 53`
and all positive finite scale factors for which the new dimensions
`nw = int(float64(width) * xScale)` and `nh = int(float64(height) * yScale)`
are at most `2 ^ 52` with `nw * nh` at most the longest slice `make` allocates
on the platform (never more than `2 ^ 44` pixels), `Resize` ends with a valid
buffer
of width `nw = floor(fl(width * xScale))` and height
`nh = floor(fl(height * yScale))` whose pixel at every destination `(x, y)` is
the source pixel at `(floor(fl(x / xScale)), floor(fl(y / yScale)))`, a
coordinate inside the source; `fl` is rounding to `float64`. -/
theorem C3_Resize_nearest (i : Image) (p : Platform) (sx sy : ℚ) (nw nh : Int)
    (hgo : i.IsGoValue) (hv : i.Valid) (hsx : 0 < sx) (hsy : 0 < sy)
    (hw53 : i.width ≤ 2 ^ 53) (hh53 : i.height ≤ 2 ^ 53)
    (hnw : F64.toInt (F64.mul (F64.ofInt i.width) (F64.fin sx)) = some nw)
    (hnh : F64.toInt (F64.mul (F64.ofInt i.height) (F64.fin sy)) = some nh)
    (hnw52 : nw ≤ 2 ^ 52) (hnh52 : nh ≤ 2 ^ 52) (hprod : nw * nh ≤ (p.maxLen : Int)) :
    nw = ⌊roundQ ((i.width : ℚ) * sx)⌋ ∧ nh = ⌊roundQ ((i.height : ℚ) * sy)⌋ ∧
    ∃ r, i.Resize p (F64.fin sx) (F64.fin sy) = some r ∧ r.width = nw ∧ r.height = nh ∧
      r.Valid ∧
      ∀ x y : Nat, (x : Int) < nw → (y : Int) < nh →
        (0 ≤ ⌊roundQ ((x : ℚ) / sx)⌋ ∧ ⌊roundQ ((x : ℚ) / sx)⌋ < i.width) ∧
        (0 ≤ ⌊roundQ ((y : ℚ) / sy)⌋ ∧ ⌊roundQ ((y : ℚ) / sy)⌋ < i.height) ∧
        ∃ c, i.data[(⌊roundQ ((x : ℚ) / sx)⌋
              + ⌊roundQ ((y : ℚ) / sy)⌋ * i.width).toNat]? = some c ∧
          r.data[x + y * nw.toNat]? = some c := by
  obtain ⟨⟨hnw0, enw⟩, ⟨hnh0, enh⟩, hsrc⟩ := source_of_range i p sx sy nw nh hgo hv hsx hsy
    hw53 hh53 hnw hnh hnw52 hnh52
  have cnw : ((nw.toNat : Nat) : Int) = nw := Int.toNat_of_nonneg hnw0
  have cnh : ((nh.toNat : Nat) : Int) = nh := Int.toNat_of_nonneg hnh0
  have hL : ((nw.toNat * nh.toNat : Nat) : Int) ≤ (p.maxLen : Int) := by
    push_cast; rw [cnw, cnh]; exact hprod
  obtain ⟨d, hd, hlen, hpix⟩ := Resize_of_sources i p (F64.fin sx) (F64.fin sy) nw.toNat nh.toNat
    (by rw [cnw]; exact hnw) (by rw [cnh]; exact hnh) hL
    (fun x y hx hy => by
      obtain ⟨-, -, c, -, hc⟩ := hsrc x y hx hy
      exact ⟨c, hc⟩)
  rw [cnw, cnh] at hd
  refine ⟨enw, enh, _, hd, rfl, rfl, ⟨hnw0, hnh0, ?_⟩, ?_⟩
  · show ((d.length : Nat) : Int) = nw * nh
    rw [hlen]; push_cast; rw [cnw, cnh]
  · intro x y hx hy
    obtain ⟨h1, h2, c, hc1, hc2⟩ := hsrc x y (by omega) (by omega)
    refine ⟨h1, h2, c, hc1, ?_⟩
    show d[x + y * nw.toNat]? = some c
    rw [hpix x y (by omega) (by omega)]
    exact hc2

/-- Witness for C3: the 2 by 1 buffer black, white scaled by 3/2 and by 2
becomes a valid 3 by 2 buffer. -/
theorem C3_Resize_nearest_witness :
    ∃ r, blackWhite.Resize amd64 (F64.fin (3 / 2)) (F64.fin 2) = some r ∧ r.width = 3 ∧
      r.height = 2 ∧ r.Valid := by
  obtain ⟨-, -, r, hr, hw, hh, hv, -⟩ := C3_Resize_nearest blackWhite amd64 (3 / 2) 2 3 2
    (by decide) (by decide) (by norm_num) (by norm_num) (by decide) (by decide)
    (F64.toInt_mul_exact 2 (3 / 2) 3 (by norm_num) (by norm_num) (by norm_num) (by norm_num))
    (F64.toInt_mul_exact 1 2 2 (by norm_num) (by norm_num) (by norm_num) (by norm_num))
    (by norm_num) (by norm_num) (by decide)
  exact ⟨r, hr, hw, hh, hv⟩

/-- A counting loop whose first iteration panics, panics. -/
theorem forLoop_first_none {σ : Type} (n : Int) (body : Int → σ → Option σ) (s : σ)
    (hn : 0 < n) (h : body 0 s = none) : forLoop n body s = none := by
  unfold forLoop
  obtain ⟨k, hk⟩ : ∃ k, n.toNat = k + 1 := ⟨n.toNat - 1, by omega⟩
  rw [hk, loopFrom, h]

/-- C3 (as stated, refuted): the valid 1 by 1 buffer and the positive scale
factors `2 ^ 40`, `2 ^ 40`. The new dimensions are `2 ^ 40` each, their product
wraps around to 0 in `int`, `make` returns an empty slice and the first
assignment is out of range: `Resize` produces no buffer. -/
theorem C3_Resize_overflow :
    onePixel.IsGoValue ∧ onePixel.Valid ∧ (0 : ℚ) < 2 ^ 40 ∧
    F64.toInt (F64.mul (F64.ofInt onePixel.width) (F64.fin (2 ^ 40))) = some (2 ^ 40) ∧
    F64.toInt (F64.mul (F64.ofInt onePixel.height) (F64.fin (2 ^ 40))) = some (2 ^ 40) ∧
    make amd64 (wrapInt (2 ^ 40 * 2 ^ 40)) = some [] ∧
    onePixel.Resize amd64 (F64.fin (2 ^ 40)) (F64.fin (2 ^ 40)) = none := by
  have hdim : F64.toInt (F64.mul (F64.ofInt 1) (F64.fin (2 ^ 40))) = some (2 ^ 40) :=
    F64.toInt_mul_exact 1 (2 ^ 40) (2 ^ 40) (by norm_num) (by norm_num) (by norm_num)
      (by norm_num)
  have hmake : make amd64 (wrapInt (2 ^ 40 * 2 ^ 40)) = some [] := by decide
  have hzero : F64.toInt (F64.div (F64.ofInt 0) (F64.fin (2 ^ 40))) = some 0 := by
    rw [F64.ofInt_exact 0 (by norm_num), F64.div_fin _ _ (by norm_num)]
    have e : ((0 : ℤ) : ℚ) / 2 ^ 40 = ((0 : ℤ) : ℚ) := by norm_num
    rw [e, F64.toInt_round_exact _ (roundQ_intCast 0 (by norm_num)) (by norm_num)
      (by norm_num)]
    norm_num
  have hsrc : onePixel.source amd64 (F64.fin (2 ^ 40)) (F64.fin (2 ^ 40)) 0 0
      = some ⟨0, 0, 0, 255⟩ := by
    unfold Image.source
    rw [F64.toIntOn_of_some amd64 _ _ hzero]
    decide
  refine ⟨by decide, by decide, by norm_num, hdim, hdim, hmake, ?_⟩
  rw [Resize_unfold onePixel amd64 _ _ (2 ^ 40) (2 ^ 40) [] hdim hdim hmake]
  rw [forLoop_first_none _ _ _ (by norm_num)]
  · rfl
  · apply forLoop_first_none _ _ _ (by norm_num)
    beta_reduce
    rw [hsrc]
    decide

/-- The grid spacing at a value whose binade is known. -/
theorem ulp_eq (q : ℚ) (e : ℤ) (he : -1022 ≤ e) (h1 : (2 : ℚ) ^ e ≤ |q|)
    (h2 : |q| < (2 : ℚ) ^ (e + 1)) : ulp q = (2 : ℚ) ^ (e - 52) := by
  have hq : 0 < |q| := lt_of_lt_of_le (by positivity) h1
  have hlog : Int.log 2 |q| = e := by
    apply le_antisymm
    · have := (Int.lt_zpow_iff_log_lt (b := 2) (x := e + 1) (r := |q|) (by norm_num) hq).1
        (by exact_mod_cast h2)
      omega
    · exact (Int.zpow_le_iff_le_log (b := 2) (x := e) (r := |q|) (by norm_num) hq).1
        (by exact_mod_cast h1)
  unfold ulp
  rw [hlog, max_eq_left he]

/-- The integer `2 ^ 53 + 1` lies halfway between two `float64`s and rounds to
the even one, `2 ^ 53`. -/
theorem roundQ_two_pow_53_add_one : roundQ (((2 ^ 53 + 1 : ℤ) : ℚ)) = ((2 ^ 53 : ℤ) : ℚ) := by
  have hu : ulp (((2 ^ 53 + 1 : ℤ) : ℚ)) = (2 : ℚ) ^ ((53 : ℤ) - 52) :=
    ulp_eq _ 53 (by norm_num) (by norm_num [abs_of_nonneg]) (by norm_num [abs_of_nonneg])
  have hfloor : ⌊(((2 ^ 53 + 1 : ℤ) : ℚ)) / 2⌋ = 2 ^ 52 := by
    rw [Int.floor_eq_iff]
    constructor <;> norm_num
  unfold roundQ
  rw [hu]
  have e1 : (2 : ℚ) ^ ((53 : ℤ) - 52) = 2 := by norm_num
  rw [e1]
  unfold roundHalfEven
  rw [hfloor]
  norm_num

theorem F64.ofInt_two_pow_53_add_one : F64.ofInt (2 ^ 53 + 1) = F64.fin ((2 ^ 53 : ℤ) : ℚ) := by
  unfold F64.ofInt
  rw [F64.round_fin, roundQ_two_pow_53_add_one]
  rw [roundQ_two_pow_53_add_one]
  norm_num

/-- C4 (as stated, refuted): the valid buffer of width `2 ^ 53 + 1` and height 0
does not come back identical from `Resize(1.0, 1.0)`: `float64(width)` rounds to
`2 ^ 53`, which becomes the new width. -/
theorem C4_Resize_identity_fails :
    wideEmpty.IsGoValue ∧ wideEmpty.Valid ∧
    wideEmpty.Resize amd64 (F64.fin 1) (F64.fin 1)
      = some { data := [], width := 2 ^ 53, height := 0 } ∧
    wideEmpty.Resize amd64 (F64.fin 1) (F64.fin 1) ≠ some wideEmpty := by
  have hw : F64.toInt (F64.mul (F64.ofInt wideEmpty.width) (F64.fin 1)) = some (2 ^ 53) := by
    show F64.toInt (F64.mul (F64.ofInt (2 ^ 53 + 1)) (F64.fin 1)) = some (2 ^ 53)
    rw [F64.ofInt_two_pow_53_add_one]
    show F64.toInt (F64.round (((2 ^ 53 : ℤ) : ℚ) * 1)) = some (2 ^ 53)
    rw [mul_one, F64.toInt_round_exact _ (roundQ_intCast _ (by norm_num)) (by norm_num)
      (by norm_num), Int.floor_intCast]
  have hh : F64.toInt (F64.mul (F64.ofInt wideEmpty.height) (F64.fin 1)) = some 0 :=
    F64.toInt_mul_exact 0 1 0 (by norm_num) (by norm_num) (by norm_num) (by norm_num)
  have hmake : make amd64 (wrapInt (2 ^ 53 * 0)) = some [] := by decide
  have hres : wideEmpty.Resize amd64 (F64.fin 1) (F64.fin 1)
      = some { data := [], width := 2 ^ 53, height := 0 } := by
    rw [Resize_unfold wideEmpty amd64 _ _ (2 ^ 53) 0 [] hw hh hmake]
    rfl
  refine ⟨by decide, by decide, hres, ?_⟩
  rw [hres]
  decide

/-- C4 (amended): for every valid buffer whose width and height are at most
`2 ^ 53`, and whose pixels are held in a slice that `make` allocates on the
platform, `Resize` with both scale factors 1.0 leaves an identical buffer: the
same width, height and pixel sequence. -/
theorem C4_Resize_identity (i : Image) (p : Platform) (hgo : i.IsGoValue) (hv : i.Valid)
    (hslice : (i.data.length : Int) ≤ (p.maxLen : Int))
    (hw53 : i.width ≤ 2 ^ 53) (hh53 : i.height ≤ 2 ^ 53) :
    i.Resize p (F64.fin 1) (F64.fin 1) = some i := by
  have hw0 : 0 ≤ i.width := hv.1
  have hh0 : 0 ≤ i.height := hv.2.1
  have cw : ((i.width.toNat : Nat) : Int) = i.width := Int.toNat_of_nonneg hw0
  have ch : ((i.height.toNat : Nat) : Int) = i.height := Int.toNat_of_nonneg hh0
  have hlen := Image.Valid.length_eq i hv
  have hsrc : ∀ x y : Nat, x < i.width.toNat → y < i.height.toNat →
      i.source p (F64.fin 1) (F64.fin 1) x y = i.data[x + y * i.width.toNat]?
      ∧ x + y * i.width.toNat < i.data.length := by
    intro x y hx hy
    have h := source_eq i p hgo hv (F64.fin 1) (F64.fin 1) x y x y
      (F64.toInt_div_one x (Int.natCast_nonneg _) (by omega))
      (F64.toInt_div_one y (Int.natCast_nonneg _) (by omega))
      (Int.natCast_nonneg _) (by omega) (Int.natCast_nonneg _) (by omega)
    simpa using h
  have hL : ((i.width.toNat * i.height.toNat : Nat) : Int) ≤ (p.maxLen : Int) := by
    rw [← hlen]; exact hslice
  obtain ⟨d, hd, hdlen, hpix⟩ := Resize_of_sources i p (F64.fin 1) (F64.fin 1)
    i.width.toNat i.height.toNat
    (by rw [cw]; exact F64.toInt_mul_exact _ 1 _ (by rw [abs_of_nonneg hw0]; exact hw53) hw0
          hw53 (by simp))
    (by rw [ch]; exact F64.toInt_mul_exact _ 1 _ (by rw [abs_of_nonneg hh0]; exact hh53) hh0
          hh53 (by simp))
    hL
    (fun x y hx hy => ⟨_, (hsrc x y hx hy).1.trans (List.getElem?_eq_getElem (hsrc x y hx hy).2)⟩)
  have hdata : d = i.data := by
    apply List.ext_getElem?
    intro j
    rcases Nat.lt_or_ge j i.data.length with hj | hj
    · have hwpos : 0 < i.width.toNat := by
        rcases Nat.eq_zero_or_pos i.width.toNat with h0 | h0
        · rw [hlen, h0, Nat.zero_mul] at hj
          exact absurd hj (Nat.not_lt_zero _)
        · exact h0
      have hx : j % i.width.toNat < i.width.toNat := Nat.mod_lt _ hwpos
      have hy : j / i.width.toNat < i.height.toNat := by
        apply Nat.div_lt_of_lt_mul
        rw [← hlen]; exact hj
      have ej : j % i.width.toNat + j / i.width.toNat * i.width.toNat = j := by
        rw [Nat.mul_comm]; exact Nat.mod_add_div j i.width.toNat
      have h1 := hpix _ _ hx hy
      rw [(hsrc _ _ hx hy).1, ej] at h1
      exact h1
    · rw [List.getElem?_eq_none hj, List.getElem?_eq_none (by rw [hdlen, ← hlen]; exact hj)]
  rw [hd, hdata, cw, ch]

/-- Witness for C4: the 2 by 1 buffer black, white is unchanged by
`Resize(1.0, 1.0)`. -/
theorem C4_Resize_identity_witness :
    blackWhite.Resize amd64 (F64.fin 1) (F64.fin 1) = some blackWhite :=
  C4_Resize_identity blackWhite amd64 (by decide) (by decide) (by decide) (by decide)
    (by decide)

/-- C5 (as stated, refuted): the valid buffer of width `W = 2 ^ 53 + 1` and
height 0 is given the width `2 ^ 54` by `Resize(2.0, 2.0)`, not `2 * W`. -/
theorem C5_Resize_double_fails :
    wideEmpty.IsGoValue ∧ wideEmpty.Valid ∧
    wideEmpty.Resize amd64 (F64.fin 2) (F64.fin 2)
      = some { data := [], width := 2 ^ 54, height := 0 } ∧
    (2 ^ 54 : Int) ≠ 2 * wideEmpty.width := by
  have hw : F64.toInt (F64.mul (F64.ofInt wideEmpty.width) (F64.fin 2)) = some (2 ^ 54) := by
    show F64.toInt (F64.mul (F64.ofInt (2 ^ 53 + 1)) (F64.fin 2)) = some (2 ^ 54)
    rw [F64.ofInt_two_pow_53_add_one]
    show F64.toInt (F64.round (((2 ^ 53 : ℤ) : ℚ) * 2)) = some (2 ^ 54)
    have e : ((2 ^ 53 : ℤ) : ℚ) * 2 = ((2 ^ 52 : ℤ) : ℚ) * (2 : ℚ) ^ (2 : ℤ) := by norm_num
    have hx := roundQ_dyadic (2 ^ 52) 2 (by norm_num) (by norm_num)
    rw [e, F64.toInt_round_exact _ hx (by norm_num) (by norm_num)]
    congr 1
    rw [Int.floor_eq_iff]
    constructor <;> norm_num
  have hh : F64.toInt (F64.mul (F64.ofInt wideEmpty.height) (F64.fin 2)) = some 0 :=
    F64.toInt_mul_exact 0 2 0 (by norm_num) (by norm_num) (by norm_num) (by norm_num)
  have hmake : make amd64 (wrapInt (2 ^ 54 * 0)) = some [] := by decide
  refine ⟨by decide, by decide, ?_, by decide⟩
  rw [Resize_unfold wideEmpty amd64 _ _ (2 ^ 54) 0 [] hw hh hmake]
  rfl

/-- C5 (amended): for every valid `W` by `H` buffer with `W`, `H` at most
`2 ^ 52` and `4 * W * H` at most the longest slice `make` allocates on the
platform (never more than `2 ^ 44` pixels), `Resize` with both scale factors
2.0 ends with a valid buffer of width `2 * W` and height `2 * H` in which, for every source
coordinate `(x, y)`, the four pixels `(2x, 2y)`, `(2x+1, 2y)`, `(2x, 2y+1)`,
`(2x+1, 2y+1)` all equal the source pixel `(x, y)`. -/
theorem C5_Resize_double (i : Image) (p : Platform) (hgo : i.IsGoValue) (hv : i.Valid)
    (hw52 : i.width ≤ 2 ^ 52) (hh52 : i.height ≤ 2 ^ 52)
    (hprod : 4 * (i.width * i.height) ≤ (p.maxLen : Int)) :
    ∃ r, i.Resize p (F64.fin 2) (F64.fin 2) = some r ∧
      r.width = 2 * i.width ∧ r.height = 2 * i.height ∧ r.Valid ∧
      ∀ x y : Nat, x < i.width.toNat → y < i.height.toNat →
        ∃ c, i.data[x + y * i.width.toNat]? = some c ∧
          r.data[2 * x + (2 * y) * (2 * i.width.toNat)]? = some c ∧
          r.data[(2 * x + 1) + (2 * y) * (2 * i.width.toNat)]? = some c ∧
          r.data[2 * x + (2 * y + 1) * (2 * i.width.toNat)]? = some c ∧
          r.data[(2 * x + 1) + (2 * y + 1) * (2 * i.width.toNat)]? = some c := by
  have hw0 : 0 ≤ i.width := hv.1
  have hh0 : 0 ≤ i.height := hv.2.1
  have cw : ((i.width.toNat : Nat) : Int) = i.width := Int.toNat_of_nonneg hw0
  have ch : ((i.height.toNat : Nat) : Int) = i.height := Int.toNat_of_nonneg hh0
  have cw2 : ((2 * i.width.toNat : Nat) : Int) = 2 * i.width := by push_cast; rw [cw]
  have ch2 : ((2 * i.height.toNat : Nat) : Int) = 2 * i.height := by push_cast; rw [ch]
  have hsrc : ∀ X Y : Nat, X < 2 * i.width.toNat → Y < 2 * i.height.toNat →
      i.source p (F64.fin 2) (F64.fin 2) X Y = i.data[X / 2 + Y / 2 * i.width.toNat]?
      ∧ X / 2 + Y / 2 * i.width.toNat < i.data.length := by
    intro X Y hX hY
    have hx : F64.toInt (F64.div (F64.ofInt (X : Int)) (F64.fin 2)) = some ((X / 2 : Nat) : Int) := by
      rw [F64.toInt_div_two X (Int.natCast_nonneg _) (by omega)]
      congr 1
    have hy : F64.toInt (F64.div (F64.ofInt (Y : Int)) (F64.fin 2)) = some ((Y / 2 : Nat) : Int) := by
      rw [F64.toInt_div_two Y (Int.natCast_nonneg _) (by omega)]
      congr 1
    have h := source_eq i p hgo hv (F64.fin 2) (F64.fin 2) X Y _ _ hx hy
      (Int.natCast_nonneg _) (by omega) (Int.natCast_nonneg _) (by omega)
    simpa using h
  have hL : (((2 * i.width.toNat) * (2 * i.height.toNat) : Nat) : Int)
      ≤ (p.maxLen : Int) := by
    push_cast; rw [cw, ch]
    have e : 2 * i.width * (2 * i.height) = 4 * (i.width * i.height) := by ring
    rw [e]; exact hprod
  obtain ⟨d, hd, hdlen, hpix⟩ := Resize_of_sources i p (F64.fin 2) (F64.fin 2)
    (2 * i.width.toNat) (2 * i.height.toNat)
    (by rw [cw2]; exact F64.toInt_mul_exact _ 2 _ (by rw [abs_of_nonneg hw0]; omega)
          (by omega) (by omega) (by push_cast; ring))
    (by rw [ch2]; exact F64.toInt_mul_exact _ 2 _ (by rw [abs_of_nonneg hh0]; omega)
          (by omega) (by omega) (by push_cast; ring))
    hL
    (fun X Y hX hY => ⟨_, (hsrc X Y hX hY).1.trans (List.getElem?_eq_getElem (hsrc X Y hX hY).2)⟩)
  rw [cw2, ch2] at hd
  refine ⟨_, hd, rfl, rfl, ⟨by show 0 ≤ 2 * i.width; omega, by show 0 ≤ 2 * i.height; omega, ?_⟩, ?_⟩
  · show ((d.length : Nat) : Int) = 2 * i.width * (2 * i.height)
    rw [hdlen]; push_cast; rw [cw, ch]
  · intro x y hx hy
    have hlt := Image.Valid.index_lt i hv x y hx hy
    refine ⟨i.data[x + y * i.width.toNat], List.getElem?_eq_getElem hlt, ?_, ?_, ?_, ?_⟩
    · show d[2 * x + (2 * y) * (2 * i.width.toNat)]? = _
      rw [hpix _ _ (by omega) (by omega), (hsrc _ _ (by omega) (by omega)).1]
      have e1 : 2 * x / 2 = x := by omega
      have e2 : 2 * y / 2 = y := by omega
      rw [e1, e2, List.getElem?_eq_getElem hlt]
    · show d[(2 * x + 1) + (2 * y) * (2 * i.width.toNat)]? = _
      rw [hpix _ _ (by omega) (by omega), (hsrc _ _ (by omega) (by omega)).1]
      have e1 : (2 * x + 1) / 2 = x := by omega
      have e2 : 2 * y / 2 = y := by omega
      rw [e1, e2, List.getElem?_eq_getElem hlt]
    · show d[2 * x + (2 * y + 1) * (2 * i.width.toNat)]? = _
      rw [hpix _ _ (by omega) (by omega), (hsrc _ _ (by omega) (by omega)).1]
      have e1 : 2 * x / 2 = x := by omega
      have e2 : (2 * y + 1) / 2 = y := by omega
      rw [e1, e2, List.getElem?_eq_getElem hlt]
    · show d[(2 * x + 1) + (2 * y + 1) * (2 * i.width.toNat)]? = _
      rw [hpix _ _ (by omega) (by omega), (hsrc _ _ (by omega) (by omega)).1]
      have e1 : (2 * x + 1) / 2 = x := by omega
      have e2 : (2 * y + 1) / 2 = y := by omega
      rw [e1, e2, List.getElem?_eq_getElem hlt]

/-- Witness for C5: the 2 by 1 buffer black, white doubled is the 4 by 2 buffer
black, black, white, white in both rows. -/
theorem C5_Resize_double_witness :
    ∃ r, blackWhite.Resize amd64 (F64.fin 2) (F64.fin 2) = some r ∧ r.width = 4 ∧ r.height = 2 ∧
      r.data[0]? = some ⟨0, 0, 0, 255⟩ ∧ r.data[1]? = some ⟨0, 0, 0, 255⟩ ∧
      r.data[4]? = some ⟨0, 0, 0, 255⟩ ∧ r.data[5]? = some ⟨0, 0, 0, 255⟩ := by
  obtain ⟨r, hr, hw, hh, -, hpix⟩ := C5_Resize_double blackWhite amd64 (by decide) (by decide)
    (by decide) (by decide) (by decide)
  obtain ⟨c, hc, h1, h2, h3, h4⟩ := hpix 0 0 (by decide) (by decide)
  have hc0 : c = ⟨0, 0, 0, 255⟩ := by
    have : blackWhite.data[0]? = some c := hc
    exact (Option.some.inj this).symm
  subst hc0
  exact ⟨r, hr, hw, hh, h1, h2, h3, h4⟩

/-! ## The buffer invariant under `Resize` -/

/-- What a normal return of `Resize` consists of. -/
theorem Resize_some_inv (i : Image) (p : Platform) (xs ys : F64) (r : Image)
    (h : i.Resize p xs ys = some r) :
    ∃ (nw nh : Int) (fresh d : List Color),
      F64.toIntOn p (F64.mul (F64.ofInt i.width) xs) = nw ∧
      F64.toIntOn p (F64.mul (F64.ofInt i.height) ys) = nh ∧
      make p (wrapInt (nw * nh)) = some fresh ∧
      forLoop nh (fun y data =>
        forLoop nw (fun x data =>
          match i.source p xs ys x y with
          | some c => store data (wrapInt (x + wrapInt (y * nw))) c
          | none => none) data) fresh = some d ∧
      r = { data := d, width := nw, height := nh } := by
  cases hm : make p (wrapInt (F64.toIntOn p (F64.mul (F64.ofInt i.width) xs)
      * F64.toIntOn p (F64.mul (F64.ofInt i.height) ys))) with
  | none =>
    unfold Image.Resize at h
    simp [hm] at h
  | some fresh =>
    rw [Resize_unfold_on i p xs ys _ _ fresh rfl rfl hm] at h
    cases hl : forLoop (F64.toIntOn p (F64.mul (F64.ofInt i.height) ys)) (fun y data =>
        forLoop (F64.toIntOn p (F64.mul (F64.ofInt i.width) xs)) (fun x data =>
          match i.source p xs ys x y with
          | some c => store data (wrapInt (x + wrapInt
              (y * F64.toIntOn p (F64.mul (F64.ofInt i.width) xs)))) c
          | none => none) data) fresh with
    | none =>
      rw [hl] at h
      simp at h
    | some d =>
      rw [hl] at h
      exact ⟨_, _, fresh, d, rfl, rfl, hm, hl, (Option.some.inj h).symm⟩

/-- Partial-correctness rule for a counting loop that has returned: an
invariant kept by every iteration holds at the end, and every iteration ran
without panic on a state satisfying the invariant. -/
theorem forLoop_some_iter {σ : Type} (body : Int → σ → Option σ) (Inv : σ → Prop)
    (n : Nat) (s t : σ) (h : forLoop (n : Int) body s = some t) (h0 : Inv s)
    (hpres : ∀ (k : Nat) (u v : σ), k < n → Inv u → body (k : Int) u = some v → Inv v) :
    Inv t ∧ ∀ k : Nat, k < n → ∃ u v, Inv u ∧ body (k : Int) u = some v := by
  unfold forLoop at h
  rw [Int.toNat_natCast] at h
  induction n generalizing t with
  | zero =>
    have e : s = t := Option.some.inj h
    subst e
    exact ⟨h0, fun k hk => absurd hk (Nat.not_lt_zero k)⟩
  | succ n ih =>
    rw [loopFrom_succ_last] at h
    cases hl : loopFrom body n 0 s with
    | none => rw [hl] at h; simp at h
    | some u =>
      rw [hl] at h
      have hb : body (n : Int) u = some t := by simpa using h
      obtain ⟨hu, hiter⟩ := ih u hl (fun k a b hk => hpres k a b (Nat.lt_succ_of_lt hk))
      refine ⟨hpres n u t (Nat.lt_succ_self n) hu hb, ?_⟩
      intro k hk
      rcases Nat.lt_succ_iff_lt_or_eq.1 hk with h1 | h1
      · exact hiter k h1
      · rw [h1]; exact ⟨u, t, hu, hb⟩

theorem store_length (data : List Color) (j : Int) (c : Color) (v : List Color)
    (h : store data j c = some v) : v.length = data.length ∧ 0 ≤ j ∧ j < data.length := by
  unfold store at h
  split_ifs at h with hj
  have e := Option.some.inj h
  rw [← e, List.length_set]
  exact ⟨rfl, hj.1, hj.2⟩

/-- A new dimension that `Resize` obtains from a non-negative dimension and a
positive scale factor is non-negative. -/
theorem toInt_mul_nonneg (w : Int) (hw : 0 ≤ w) (xs : F64) (hpos : xs.IsPositive) (n : Int)
    (h : F64.toInt (F64.mul (F64.ofInt w) xs) = some n) : 0 ≤ n ∧ n < 2 ^ 63 := by
  have hwq : (0 : ℚ) ≤ (w : ℚ) := by exact_mod_cast hw
  have ha := roundQ_nonneg (w : ℚ) hwq
  unfold F64.ofInt F64.round at h
  split_ifs at h with hbig
  · cases xs with
    | fin s =>
      simp only [F64.mul] at h
      split_ifs at h <;> simp [F64.toInt] at h
    | inf neg => simp [F64.mul, F64.toInt] at h
    | nan => exact absurd hpos (by simp [F64.IsPositive])
  · cases xs with
    | fin s =>
      have hs : 0 < s := hpos
      have h2 : F64.toInt (F64.round (roundQ (w : ℚ) * s)) = some n := h
      obtain ⟨-, h0, h63⟩ := F64.toInt_round_nonneg _ (mul_nonneg ha hs.le) n h2
      exact ⟨h0, h63⟩
    | inf neg =>
      simp only [F64.mul] at h
      split_ifs at h <;> simp [F64.toInt] at h
    | nan => exact absurd hpos (by simp [F64.IsPositive])

/-- When the two copying loops of `Resize` return, the buffer has kept its
length and every destination index was inside it. -/
theorem fill_returned (P : Int → Int → Option Color) (nw nh : Nat) (fresh d : List Color)
    (h : forLoop (nh : Int) (fun y data =>
        forLoop (nw : Int) (fun x data =>
          match P x y with
          | some c => store data (wrapInt (x + wrapInt (y * (nw : Int)))) c
          | none => none) data) fresh = some d) :
    d.length = fresh.length ∧
    ∀ x y : Nat, x < nw → y < nh →
      0 ≤ wrapInt ((x : Int) + wrapInt ((y : Int) * (nw : Int))) ∧
      wrapInt ((x : Int) + wrapInt ((y : Int) * (nw : Int))) < (fresh.length : Int) := by
  have hbody : ∀ (y : Int) (x : Nat) (u v : List Color), u.length = fresh.length →
      (match P x y with
        | some c => store u (wrapInt (x + wrapInt (y * (nw : Int)))) c
        | none => none) = some v →
      v.length = fresh.length ∧ 0 ≤ wrapInt ((x : Int) + wrapInt (y * (nw : Int))) ∧
        wrapInt ((x : Int) + wrapInt (y * (nw : Int))) < (fresh.length : Int) := by
    intro y x u v hu hb
    cases hp : P x y with
    | none => rw [hp] at hb; simp at hb
    | some c =>
      rw [hp] at hb
      obtain ⟨h1, h2, h3⟩ := store_length _ _ _ _ hb
      rw [hu] at h1 h3
      exact ⟨h1, h2, h3⟩
  have hinner : ∀ (y : Int) (u v : List Color), u.length = fresh.length →
      forLoop (nw : Int) (fun x data =>
          match P x y with
          | some c => store data (wrapInt (x + wrapInt (y * (nw : Int)))) c
          | none => none) u = some v →
      v.length = fresh.length ∧ ∀ x : Nat, x < nw →
        0 ≤ wrapInt ((x : Int) + wrapInt (y * (nw : Int))) ∧
        wrapInt ((x : Int) + wrapInt (y * (nw : Int))) < (fresh.length : Int) := by
    intro y u v hu hloop
    obtain ⟨hv, hiter⟩ := forLoop_some_iter _ (fun t => t.length = fresh.length) nw u v hloop hu
      (fun k a b _ ha hb => (hbody y k a b ha hb).1)
    refine ⟨hv, ?_⟩
    intro x hx
    obtain ⟨a, b, ha, hb⟩ := hiter x hx
    exact (hbody y x a b ha hb).2
  obtain ⟨hd, hiter⟩ := forLoop_some_iter _ (fun t => t.length = fresh.length) nh fresh d h rfl
    (fun k a b _ ha hb => (hinner k a b ha hb).1)
  refine ⟨hd, ?_⟩
  intro x y hx hy
  obtain ⟨a, b, ha, hb⟩ := hiter y hy
  exact (hinner y a b ha hb).2 x hx

/-- When `Resize` returns for non-negative new dimensions, their product has
not wrapped around: a wrapped length would be too short for the destination
`(len % nw, len / nw)`. -/
theorem fill_no_wrap (P : Int → Int → Option Color) (nw nh : Nat) (fresh d : List Color)
    (hfresh : (fresh.length : Int) = wrapInt ((nw : Int) * (nh : Int)))
    (h : forLoop (nh : Int) (fun y data =>
        forLoop (nw : Int) (fun x data =>
          match P x y with
          | some c => store data (wrapInt (x + wrapInt (y * (nw : Int)))) c
          | none => none) data) fresh = some d) :
    d.length = nw * nh := by
  obtain ⟨hd, hidx⟩ := fill_returned P nw nh fresh d h
  rw [hd]
  have hrange := wrapInt_range ((nw : Int) * (nh : Int))
  rcases Nat.lt_or_ge (fresh.length) (nw * nh) with hlt | hge
  · -- the length is below the product: the destination at index `len` is outside
    exfalso
    have hnw : 0 < nw := by
      rcases Nat.eq_zero_or_pos nw with h0 | h0
      · rw [h0, Nat.zero_mul] at hlt; exact absurd hlt (Nat.not_lt_zero _)
      · exact h0
    have hy : fresh.length / nw < nh := by
      apply Nat.div_lt_of_lt_mul
      exact hlt
    have hx : fresh.length % nw < nw := Nat.mod_lt _ hnw
    obtain ⟨-, h2⟩ := hidx _ _ hx hy
    have e : fresh.length % nw + fresh.length / nw * nw = fresh.length := by
      rw [Nat.mul_comm]; exact Nat.mod_add_div _ _
    have hle : fresh.length / nw * nw ≤ fresh.length := by omega
    have e1 : ((fresh.length / nw : Nat) : Int) * (nw : Int)
        = ((fresh.length / nw * nw : Nat) : Int) := by push_cast; rfl
    have hL63 : (fresh.length : Int) < 2 ^ 63 := by rw [hfresh]; exact hrange.2
    rw [e1] at h2
    generalize fresh.length / nw * nw = m at h2 e hle
    generalize fresh.length % nw = x0 at h2 e
    rw [wrapInt_of_range (m : Int) (by omega) (by omega)] at h2
    rw [wrapInt_of_range _ (by omega) (by omega)] at h2
    omega
  · -- the length is at least the product: then the product did not wrap
    have e : (nw : Int) * (nh : Int) = ((nw * nh : Nat) : Int) := by push_cast; rfl
    rw [e] at hfresh hrange
    have h63 : ((nw * nh : Nat) : Int) < 2 ^ 63 := by
      have hL63 : (fresh.length : Int) < 2 ^ 63 := by rw [hfresh]; exact hrange.2
      have : ((nw * nh : Nat) : Int) ≤ (fresh.length : Int) := by exact_mod_cast hge
      omega
    rw [wrapInt_of_range _ (by omega) h63] at hfresh
    exact_mod_cast hfresh

/-- A counting loop with a non-positive bound runs no iteration. -/
theorem forLoop_nonpos {σ : Type} (n : Int) (body : Int → σ → Option σ) (s : σ)
    (hn : n ≤ 0) : forLoop n body s = some s := by
  unfold forLoop
  rw [Int.toNat_of_nonpos hn]
  rfl

/-- C9 (as stated, refuted): for the valid 1 by 1 buffer and the positive scale
factors `2 ^ 63`, `2 ^ 63` the new dimensions `int(float64(1) * 2 ^ 63)` are
outside the `int` range, so Go leaves them to the implementation. On amd64
both are `-2 ^ 63`: their product wraps to 0, no loop runs and `Resize` leaves
the buffer with no pixel, width `-2 ^ 63` and height `-2 ^ 63`, which does not
satisfy the invariant. -/
theorem C9_Resize_out_of_range :
    onePixel.IsGoValue ∧ onePixel.Valid ∧
    (F64.fin (2 ^ 63)).IsPositive ∧
    F64.mul (F64.ofInt onePixel.width) (F64.fin (2 ^ 63)) = F64.fin (2 ^ 63) ∧
    F64.toInt (F64.fin (2 ^ 63)) = none ∧
    onePixel.Resize amd64 (F64.fin (2 ^ 63)) (F64.fin (2 ^ 63))
      = some { data := [], width := -2 ^ 63, height := -2 ^ 63 } ∧
    ¬ (Image.mk [] (-2 ^ 63) (-2 ^ 63)).Valid := by
  have hmul : F64.mul (F64.ofInt onePixel.width) (F64.fin (2 ^ 63)) = F64.fin (2 ^ 63) := by
    show F64.mul (F64.ofInt 1) (F64.fin (2 ^ 63)) = F64.fin (2 ^ 63)
    rw [F64.ofInt_exact 1 (by norm_num)]
    show F64.round (((1 : ℤ) : ℚ) * 2 ^ 63) = _
    have hx := roundQ_dyadic 1 63 (by norm_num) (by norm_num)
    have e : ((1 : ℤ) : ℚ) * 2 ^ 63 = ((1 : ℤ) : ℚ) * (2 : ℚ) ^ (63 : ℤ) := by norm_num
    rw [e, F64.round_fin _ (by rw [hx]; norm_num), hx]
    norm_num
  have hmulh : F64.mul (F64.ofInt onePixel.height) (F64.fin (2 ^ 63)) = F64.fin (2 ^ 63) :=
    hmul
  have hto : F64.toInt (F64.fin (2 ^ 63)) = none := by
    have e : ((2 : ℚ) ^ 63) = (((2 ^ 63 : ℤ)) : ℚ) := by norm_num
    unfold F64.toInt
    rw [e]
    simp only [Int.floor_intCast, Int.ceil_intCast]
    norm_num
  have hon : F64.toIntOn amd64 (F64.fin (2 ^ 63)) = -2 ^ 63 := by
    unfold F64.toIntOn
    rw [hto]
    decide
  have hmake : make amd64 (wrapInt (-2 ^ 63 * -2 ^ 63)) = some [] := by decide
  refine ⟨by decide, by decide, ?_, hmul, hto, ?_, by decide⟩
  · show (0 : ℚ) < 2 ^ 63
    norm_num
  · rw [Resize_unfold_on onePixel amd64 _ _ (-2 ^ 63) (-2 ^ 63) []
      (by rw [hmul]; exact hon) (by rw [hmulh]; exact hon) hmake]
    rw [forLoop_nonpos _ _ _ (by norm_num)]
    rfl

/-- C9 (amended): for every valid buffer and every pair of positive scale
factors, on every platform, whenever `Resize` returns (no panic) and both new
dimensions were converted within the `int` range, the buffer it leaves again
satisfies `len(data) = width * height` with non-negative width and height; and
`Resize` does return such a buffer when the dimensions are at most `2 ^ 53`,
the scale factors are finite and the new dimensions `nw`, `nh` are at most
`2 ^ 52` with `nw * nh` at most the longest slice `make` allocates on the
platform (never more than `2 ^ 44` pixels). -/
theorem C9_Resize_invariant (i : Image) (p : Platform) (xs ys : F64) (hgo : i.IsGoValue)
    (hv : i.Valid) (hxs : xs.IsPositive) (hys : ys.IsPositive) :
    (∀ (r : Image) (nw nh : Int),
      F64.toInt (F64.mul (F64.ofInt i.width) xs) = some nw →
      F64.toInt (F64.mul (F64.ofInt i.height) ys) = some nh →
      i.Resize p xs ys = some r →
      r.Valid ∧ r.IsGoValue ∧ r.width = nw ∧ r.height = nh) ∧
    (∀ (sx sy : ℚ) (nw nh : Int), xs = F64.fin sx → ys = F64.fin sy →
      i.width ≤ 2 ^ 53 → i.height ≤ 2 ^ 53 →
      F64.toInt (F64.mul (F64.ofInt i.width) xs) = some nw →
      F64.toInt (F64.mul (F64.ofInt i.height) ys) = some nh →
      nw ≤ 2 ^ 52 → nh ≤ 2 ^ 52 → nw * nh ≤ (p.maxLen : Int) →
      ∃ r, i.Resize p xs ys = some r ∧ r.Valid ∧ r.width = nw ∧ r.height = nh) := by
  constructor
  · intro r nw nh hw hh hr
    obtain ⟨nw2, nh2, fresh, d, hw2, hh2, hm, hl, rfl⟩ := Resize_some_inv i p xs ys r hr
    rw [F64.toIntOn_of_some p _ nw hw] at hw2
    rw [F64.toIntOn_of_some p _ nh hh] at hh2
    subst hw2 hh2
    obtain ⟨hnw0, hnw63⟩ := toInt_mul_nonneg i.width hv.1 xs hxs nw hw
    obtain ⟨hnh0, hnh63⟩ := toInt_mul_nonneg i.height hv.2.1 ys hys nh hh
    have cnw : ((nw.toNat : Nat) : Int) = nw := Int.toNat_of_nonneg hnw0
    have cnh : ((nh.toNat : Nat) : Int) = nh := Int.toNat_of_nonneg hnh0
    have hfresh : (fresh.length : Int) = wrapInt (nw * nh) := (make_some _ _ _ hm).2.2.1
    rw [← cnw, ← cnh] at hl hfresh
    have hd := fill_no_wrap (fun x y => i.source p xs ys x y) nw.toNat nh.toNat fresh d hfresh hl
    have hlen : ((d.length : Nat) : Int) = nw * nh := by
      rw [hd]; push_cast; rw [cnw, cnh]
    have hlen63 : ((d.length : Nat) : Int) < 2 ^ 63 := by
      have h1 := (fill_returned (fun x y => i.source p xs ys x y) nw.toNat nh.toNat fresh d hl).1
      rw [h1, hfresh]
      exact (wrapInt_range _).2
    exact ⟨⟨hnw0, hnh0, hlen⟩, ⟨hlen63, ⟨by show -2 ^ 63 ≤ nw; omega, hnw63⟩,
      ⟨by show -2 ^ 63 ≤ nh; omega, hnh63⟩⟩, rfl, rfl⟩
  · intro sx sy nw nh hx hy hw53 hh53 hnw hnh hnw52 hnh52 hprod
    subst hx hy
    obtain ⟨⟨hnw0, -⟩, ⟨hnh0, -⟩, hsrc⟩ := source_of_range i p sx sy nw nh hgo hv hxs hys
      hw53 hh53 hnw hnh hnw52 hnh52
    have cnw : ((nw.toNat : Nat) : Int) = nw := Int.toNat_of_nonneg hnw0
    have cnh : ((nh.toNat : Nat) : Int) = nh := Int.toNat_of_nonneg hnh0
    have hL : ((nw.toNat * nh.toNat : Nat) : Int) ≤ (p.maxLen : Int) := by
      push_cast; rw [cnw, cnh]; exact hprod
    obtain ⟨d, hd, hlen, -⟩ := Resize_of_sources i p (F64.fin sx) (F64.fin sy) nw.toNat
      nh.toNat (by rw [cnw]; exact hnw) (by rw [cnh]; exact hnh) hL
      (fun x y hx hy => by
        obtain ⟨-, -, c, -, hc⟩ := hsrc x y hx hy
        exact ⟨c, hc⟩)
    rw [cnw, cnh] at hd
    refine ⟨_, hd, ⟨hnw0, hnh0, ?_⟩, rfl, rfl⟩
    show ((d.length : Nat) : Int) = nw * nh
    rw [hlen]; push_cast; rw [cnw, cnh]

/-- Witness for C9: the 2 by 1 buffer black, white scaled by 3/2 and by 2 is
left as a valid buffer. -/
theorem C9_Resize_invariant_witness :
    ∃ r, blackWhite.Resize amd64 (F64.fin (3 / 2)) (F64.fin 2) = some r ∧ r.Valid ∧
      r.IsGoValue := by
  have h := C9_Resize_invariant blackWhite amd64 (F64.fin (3 / 2)) (F64.fin 2) (by decide)
    (by decide) (by show (0 : ℚ) < 3 / 2; norm_num) (by show (0 : ℚ) < 2; norm_num)
  have hw := F64.toInt_mul_exact 2 (3 / 2) 3 (by norm_num) (by norm_num) (by norm_num)
    (by norm_num)
  have hh := F64.toInt_mul_exact 1 2 2 (by norm_num) (by norm_num) (by norm_num)
    (by norm_num)
  obtain ⟨r, hr, -⟩ := h.2 (3 / 2) 2 3 2 rfl rfl (by decide) (by decide) hw hh
    (by norm_num) (by norm_num) (by decide)
  obtain ⟨h1, h2, -⟩ := h.1 r 3 2 hw hh hr
  exact ⟨r, hr, h1, h2⟩

/-! ## Modes outside the three constants -/

theorem join_empty_cells (l : List Color) :
    String.join (l.map (fun _ => "")) = "" := by
  apply String.ext
  rw [String.data_join]
  induction l with
  | nil => rfl
  | cons c l ih => simp

/-- C20: `AsciiMode` is an integer type and `ToAscii` has no default branch:
for every valid buffer of height `h` and every mode other than the three
constants 0, 1 and 2, `ToAscii` emits no glyph and returns exactly `h` newline
characters. -/
theorem C20_ToAscii_other_mode (i : Image) (mode : AsciiMode) (hgo : i.IsGoValue)
    (hv : i.Valid) (h0 : mode ≠ ASCII_MODE_PLAIN) (h1 : mode ≠ ASCII_MODE_FORE)
    (h2 : mode ≠ ASCII_MODE_BACK) :
    i.ToAscii mode = some (String.mk (List.replicate i.height.toNat '\n')) ∧
    ASCII_MODE_PLAIN = 0 ∧ ASCII_MODE_FORE = 1 ∧ ASCII_MODE_BACK = 2 := by
  refine ⟨?_, rfl, rfl, rfl⟩
  have hcell : modeCell mode = fun _ => "" := by
    funext c
    unfold modeCell
    rw [if_neg h0, if_neg h2, if_neg h1]
  rw [ToAscii_eq_renderRows i mode hgo hv, hcell]
  congr 1
  apply String.ext
  unfold renderRows
  simp only [join_empty_cells, String.data_join, List.map_map]
  generalize i.height.toNat = h
  induction h with
  | zero => rfl
  | succ h ih =>
    rw [List.range_succ, List.map_append, List.flatten_append, ih, List.replicate_succ']
    rfl

/-- Witness for C20: in mode 7 the 2 by 1 buffer black, white renders as one
newline. -/
theorem C20_ToAscii_other_mode_witness : blackWhite.ToAscii 7 = some "\n" :=
  (C20_ToAscii_other_mode blackWhite 7 (by decide) (by decide) (by decide) (by decide)
    (by decide)).1

/-! ## Brightness of 8-bit pixels -/

/-- C18: for every pixel whose red, green and blue channels are in 0..255 the
weighted sum does not wrap around in `uint32`, and `GetBrightness` is its
sixth, a value in 0..255; black has brightness 0 and white 255; and every
glyph of the ramp is the glyph of some 8-bit pixel. -/
theorem C18_GetBrightness_range (c : Color) (hr : c.r ≤ 255) (hg : c.g ≤ 255)
    (hb : c.b ≤ 255) :
    2 * c.r + 3 * c.g + c.b < 2 ^ 32 ∧
    c.GetBrightness = (2 * c.r + 3 * c.g + c.b) / 6 ∧
    c.GetBrightness ≤ 255 ∧
    (Color.mk 0 0 0 c.a).GetBrightness = 0 ∧
    (Color.mk 255 255 255 c.a).GetBrightness = 255 ∧
    ∀ g ∈ [" ", ".", ":", "-", "=", "+", "*", "#", "%", "@"],
      ∃ d : Color, d.r ≤ 255 ∧ d.g ≤ 255 ∧ d.b ≤ 255 ∧ d.AsCharacter = g := by
  have hfit : 2 * c.r + 3 * c.g + c.b < 2 ^ 32 := by
    have : 2 * c.r + 3 * c.g + c.b ≤ 1530 := by omega
    exact lt_of_le_of_lt this (by norm_num)
  have hval : c.GetBrightness = (2 * c.r + 3 * c.g + c.b) / 6 := by
    simp only [Color.GetBrightness]
    rw [Nat.mod_eq_of_lt hfit]
  refine ⟨hfit, hval, ?_, by norm_num [Color.GetBrightness], by norm_num [Color.GetBrightness], ?_⟩
  · rw [hval]
    omega
  · intro g hmem
    simp only [List.mem_cons, List.mem_singleton, List.not_mem_nil, or_false] at hmem
    rcases hmem with h | h | h | h | h | h | h | h | h | h <;> subst h
    · exact ⟨⟨0, 0, 0, 255⟩, by decide, by decide, by decide, by decide⟩
    · exact ⟨⟨26, 26, 26, 255⟩, by decide, by decide, by decide, by decide⟩
    · exact ⟨⟨51, 51, 51, 255⟩, by decide, by decide, by decide, by decide⟩
    · exact ⟨⟨76, 76, 76, 255⟩, by decide, by decide, by decide, by decide⟩
    · exact ⟨⟨101, 101, 101, 255⟩, by decide, by decide, by decide, by decide⟩
    · exact ⟨⟨126, 126, 126, 255⟩, by decide, by decide, by decide, by decide⟩
    · exact ⟨⟨151, 151, 151, 255⟩, by decide, by decide, by decide, by decide⟩
    · exact ⟨⟨176, 176, 176, 255⟩, by decide, by decide, by decide, by decide⟩
    · exact ⟨⟨201, 201, 201, 255⟩, by decide, by decide, by decide, by decide⟩
    · exact ⟨⟨255, 255, 255, 255⟩, by decide, by decide, by decide, by decide⟩

/-- Witness for C18: the brightness of the pixel (255, 0, 0) is 85. -/
theorem C18_GetBrightness_range_witness : (Color.mk 255 0 0 255).GetBrightness = 85 :=
  ((C18_GetBrightness_range ⟨255, 0, 0, 255⟩ (by decide) (by decide) (by decide)).2.1).trans
    (by decide)

/-- The position of a pixel's glyph in the ramp, by brightness. -/
theorem rampPosition_eq (c : Color) :
    c.rampPosition =
      if c.GetBrightness ≤ 25 then 0
      else if c.GetBrightness ≤ 50 then 1
      else if c.GetBrightness ≤ 75 then 2
      else if c.GetBrightness ≤ 100 then 3
      else if c.GetBrightness ≤ 125 then 4
      else if c.GetBrightness ≤ 150 then 5
      else if c.GetBrightness ≤ 175 then 6
      else if c.GetBrightness ≤ 200 then 7
      else if c.GetBrightness ≤ 225 then 8
      else 9 := by
  unfold Color.rampPosition Color.glyphChar Color.AsCharacter
  simp only []
  split_ifs <;> decide

/-- The character a pixel is drawn with, by brightness. -/
theorem glyphChar_eq (c : Color) :
    c.glyphChar =
      if c.GetBrightness ≤ 25 then ' '
      else if c.GetBrightness ≤ 50 then '.'
      else if c.GetBrightness ≤ 75 then ':'
      else if c.GetBrightness ≤ 100 then '-'
      else if c.GetBrightness ≤ 125 then '='
      else if c.GetBrightness ≤ 150 then '+'
      else if c.GetBrightness ≤ 175 then '*'
      else if c.GetBrightness ≤ 200 then '#'
      else if c.GetBrightness ≤ 225 then '%'
      else '@' := by
  unfold Color.glyphChar Color.AsCharacter
  simp only []
  split_ifs <;> rfl

/-- The glyph of a pixel stands in the ramp at the pixel's ramp position. -/
theorem rampChars_rampPosition (c : Color) :
    rampChars[c.rampPosition]? = some c.glyphChar := by
  rw [rampPosition_eq, glyphChar_eq]
  split_ifs <;> rfl

/-- A glyph stands at position `k` or earlier exactly when the brightness is
at most the `k`-th bound of the ramp. -/
theorem rampPosition_le_iff (c : Color) (k : Nat) (hk : k < 9) :
    c.rampPosition ≤ k ↔ c.GetBrightness ≤ 25 * (k + 1) := by
  rw [rampPosition_eq]
  split_ifs <;> omega

theorem rampPosition_le_nine (c : Color) : c.rampPosition ≤ 9 := by
  rw [rampPosition_eq]
  split_ifs <;> omega

/-- C19: the pixel-to-glyph mapping is monotone: for two pixels with 8-bit
channels, the first channel-wise at most the second, the brightness of the
first is at most that of the second, and its glyph stands at the same or an
earlier position of the dark-to-bright ramp `" .:-=+*#%@"`. -/
theorem C19_glyph_monotone (c d : Color)
    (hc : c.r ≤ 255 ∧ c.g ≤ 255 ∧ c.b ≤ 255) (hd : d.r ≤ 255 ∧ d.g ≤ 255 ∧ d.b ≤ 255)
    (hr : c.r ≤ d.r) (hg : c.g ≤ d.g) (hb : c.b ≤ d.b) :
    c.GetBrightness ≤ d.GetBrightness ∧ c.rampPosition ≤ d.rampPosition ∧
    String.mk rampChars = " .:-=+*#%@" ∧
    rampChars[c.rampPosition]? = some c.glyphChar ∧
    rampChars[d.rampPosition]? = some d.glyphChar := by
  have hb1 : c.GetBrightness = (2 * c.r + 3 * c.g + c.b) / 6 := by
    simp only [Color.GetBrightness]
    rw [Nat.mod_eq_of_lt (by have : 2 * c.r + 3 * c.g + c.b ≤ 1530 := by omega
                             exact lt_of_le_of_lt this (by norm_num))]
  have hb2 : d.GetBrightness = (2 * d.r + 3 * d.g + d.b) / 6 := by
    simp only [Color.GetBrightness]
    rw [Nat.mod_eq_of_lt (by have : 2 * d.r + 3 * d.g + d.b ≤ 1530 := by omega
                             exact lt_of_le_of_lt this (by norm_num))]
  have hle : c.GetBrightness ≤ d.GetBrightness := by
    rw [hb1, hb2]
    omega
  refine ⟨hle, ?_, rfl, rampChars_rampPosition c, rampChars_rampPosition d⟩
  rcases Nat.lt_or_ge d.rampPosition 9 with h9 | h9
  · have h1 := (rampPosition_le_iff d d.rampPosition h9).1 (le_refl _)
    exact (rampPosition_le_iff c d.rampPosition h9).2 (le_trans hle h1)
  · exact le_trans (rampPosition_le_nine c) h9

/-- Witness for C19: dark red against bright yellow. -/
theorem C19_glyph_monotone_witness :
    (Color.mk 100 0 0 255).rampPosition ≤ (Color.mk 255 255 0 255).rampPosition :=
  (C19_glyph_monotone ⟨100, 0, 0, 255⟩ ⟨255, 255, 0, 255⟩ (by decide) (by decide) (by decide)
    (by decide) (by decide)).2.1

/-! ## Channel values in the rendered text and in `At` -/

/-- C11 (as stated, refuted): the valid 1 by 1 buffer whose pixel has the
`uint32` red channel 300 is rendered in FOREGROUND mode with the number 300 in
its escape sequence, and in BACKGROUND mode likewise: `ToAscii` writes the
stored channel, neither clamped nor truncated. -/
theorem C11_ToAscii_writes_300 :
    overBright.IsGoValue ∧ overBright.Valid ∧ (Color.mk 300 0 0 255).IsGoValue ∧
    overBright.ToAscii ASCII_MODE_FORE = some "\x1b[38;2;300;0;0m-\x1b[0m\n" ∧
    overBright.ToAscii ASCII_MODE_BACK = some "\x1b[48;2;300;0;0m-\x1b[0m\n" ∧
    ¬ (300 ≤ 255) := by
  refine ⟨by decide, by decide, by decide, by rfl, by rfl, by decide⟩

theorem mem_row (i : Image) (y : Nat) (c : Color) (h : c ∈ i.row y) : c ∈ i.data := by
  unfold Image.row at h
  exact List.mem_of_mem_drop (List.mem_of_mem_take h)

/-- C11 (amended): for every valid buffer whose stored red, green and blue
channels are in 0..255 (as `LoadImage` stores them), in both coloured modes
`ToAscii` writes into each colour escape sequence the three stored channels of
the pixel unchanged, and each of these numbers lies in 0..255. -/
theorem C11_ToAscii_channels (i : Image) (hgo : i.IsGoValue) (hv : i.Valid)
    (h8 : ∀ c ∈ i.data, c.r ≤ 255 ∧ c.g ≤ 255 ∧ c.b ≤ 255) :
    i.ToAscii ASCII_MODE_FORE = some (String.join ((List.range i.height.toNat).map
      (fun y => String.join ((i.row y).map
        (fun c => "\x1b[38;2;" ++ toString c.r ++ ";" ++ toString c.g ++ ";" ++ toString c.b
          ++ "m" ++ c.AsCharacter ++ "\x1b[0m")) ++ "\n"))) ∧
    i.ToAscii ASCII_MODE_BACK = some (String.join ((List.range i.height.toNat).map
      (fun y => String.join ((i.row y).map
        (fun c => "\x1b[48;2;" ++ toString c.r ++ ";" ++ toString c.g ++ ";" ++ toString c.b
          ++ "m" ++ c.AsCharacter ++ "\x1b[0m")) ++ "\n"))) ∧
    ∀ y, y < i.height.toNat → ∀ c ∈ i.row y, c.r ≤ 255 ∧ c.g ≤ 255 ∧ c.b ≤ 255 := by
  have hback : modeCell ASCII_MODE_BACK = backCell := by
    funext c; simp [modeCell, ASCII_MODE_FORE, ASCII_MODE_PLAIN, ASCII_MODE_BACK]
  have hfore : modeCell ASCII_MODE_FORE = foreCell := by
    funext c; simp [modeCell, ASCII_MODE_FORE, ASCII_MODE_PLAIN, ASCII_MODE_BACK]
  refine ⟨?_, ?_, ?_⟩
  · rw [ToAscii_eq_renderRows i _ hgo hv, hfore]
    rfl
  · rw [ToAscii_eq_renderRows i _ hgo hv, hback]
    rfl
  · intro y _ c hc
    exact h8 c (mem_row i y c hc)

/-- Witness for C11: the 2 by 1 buffer black, white, whose channels are 8-bit,
in BACKGROUND mode. -/
theorem C11_ToAscii_channels_witness :
    blackWhite.ToAscii ASCII_MODE_BACK
      = some "\x1b[48;2;0;0;0m \x1b[0m\x1b[48;2;255;255;255m@\x1b[0m\n" := by
  rw [(C11_ToAscii_channels blackWhite (by decide) (by decide) (by decide)).2.1]
  rfl

/-- C12: for every valid buffer and every coordinate inside it, `At(x, y)`
reads the pixel stored at the linear index `x + y * width`, which is in range,
and returns its four channels truncated to 8 bits (the value modulo 256); when
every channel of that pixel is already in 0..255 the returned channels are the
stored ones. -/
theorem C12_At_pixel (i : Image) (hgo : i.IsGoValue) (hv : i.Valid) (x y : Nat)
    (hx : (x : Int) < i.width) (hy : (y : Int) < i.height) :
    x + y * i.width.toNat < i.data.length ∧
    ∃ c, i.data[x + y * i.width.toNat]? = some c ∧
      i.At x y = some ⟨c.r % 256, c.g % 256, c.b % 256, c.a % 256⟩ ∧
      (c.r ≤ 255 → c.g ≤ 255 → c.b ≤ 255 → c.a ≤ 255 →
        i.At x y = some ⟨c.r, c.g, c.b, c.a⟩) := by
  have hx2 : x < i.width.toNat := by omega
  have hy2 : y < i.height.toNat := by omega
  have hlt := Image.Valid.index_lt i hv x y hx2 hy2
  have hidx := pixel_index_eq i hgo hv x y hx2 hy2
  have hget : i.data[x + y * i.width.toNat]? = some (i.data[x + y * i.width.toNat]) :=
    List.getElem?_eq_getElem hlt
  have hat : i.At x y = some ⟨i.data[x + y * i.width.toNat].r % 256,
      i.data[x + y * i.width.toNat].g % 256, i.data[x + y * i.width.toNat].b % 256,
      i.data[x + y * i.width.toNat].a % 256⟩ := by
    unfold Image.At
    rw [hidx, index_eq_some _ _ _ hget]
  refine ⟨hlt, _, hget, hat, ?_⟩
  intro h1 h2 h3 h4
  rw [hat, Nat.mod_eq_of_lt (by omega), Nat.mod_eq_of_lt (by omega),
    Nat.mod_eq_of_lt (by omega), Nat.mod_eq_of_lt (by omega)]

/-- Witness for C12: the white pixel of the 2 by 1 buffer black, white. -/
theorem C12_At_pixel_witness : blackWhite.At 1 0 = some ⟨255, 255, 255, 255⟩ := by
  obtain ⟨-, c, hc, -, h⟩ := C12_At_pixel blackWhite (by decide) (by decide) 1 0 (by decide)
    (by decide)
  have e : c = ⟨255, 255, 255, 255⟩ := (Option.some.inj hc).symm
  subst e
  exact h (by decide) (by decide) (by decide) (by decide)

/-! ## A scale factor of zero -/

/-- A loop whose iterations leave the state as it is returns the state. -/
theorem loopFrom_skip {σ : Type} (body : Int → σ → Option σ)
    (hbody : ∀ (j : Int) (s : σ), body j s = some s) :
    ∀ (k : Nat) (j : Int) (s : σ), loopFrom body k j s = some s := by
  intro k
  induction k with
  | zero => intro j s; rfl
  | succ k ih =>
    intro j s
    rw [loopFrom, hbody j s]
    exact ih (j + 1) s

/-- A loop that appends one newline per iteration returns that many newlines. -/
theorem loopFrom_newlines (body : Int → String → Option String)
    (hbody : ∀ (j : Int) (s : String), body j s = some (s ++ "\n")) :
    ∀ (k : Nat) (j : Int) (s : String),
      loopFrom body k j s = some (s ++ String.mk (List.replicate k '\n')) := by
  intro k
  induction k with
  | zero =>
    intro j s
    rw [loopFrom]
    congr 1
    apply String.ext
    simp
  | succ k ih =>
    intro j s
    rw [loopFrom, hbody j s]
    simp only []
    rw [ih (j + 1) (s ++ "\n")]
    congr 1
    apply String.ext
    simp [List.replicate_succ]

/-- The conversion `float64(n)` of an `int` is finite. -/
theorem F64.ofInt_fin (n : Int) (h0 : 0 ≤ n) (h : n < 2 ^ 63) :
    F64.ofInt n = F64.fin (roundQ n) := by
  unfold F64.ofInt
  apply F64.round_fin
  have hq : (0 : ℚ) ≤ (n : ℚ) := by exact_mod_cast h0
  rw [abs_of_nonneg (roundQ_nonneg _ hq)]
  have h1 := roundQ_le (n : ℚ) hq
  have h2 : (n : ℚ) < (2 : ℚ) ^ 63 := by exact_mod_cast h
  have h3 : (2 : ℚ) ^ (-53 : ℤ) ≤ 1 := by norm_num
  have h4 : (2 : ℚ) ^ (-1075 : ℤ) ≤ (2 : ℚ) ^ (0 : ℤ) :=
    zpow_le_zpow_right₀ (by norm_num) (by norm_num)
  rw [zpow_zero] at h4
  have h5 : (2 : ℚ) ^ 65 < (2 : ℚ) ^ 1024 := pow_lt_pow_right₀ (by norm_num) (by norm_num)
  have h6 : (2 : ℚ) ^ 65 = 4 * (2 : ℚ) ^ 63 := by norm_num
  nlinarith

/-- A dimension scaled by the factor zero is zero on every platform. -/
theorem toIntOn_mul_zero (p : Platform) (n : Int) (h0 : 0 ≤ n) (h : n < 2 ^ 63) :
    F64.toIntOn p (F64.mul (F64.ofInt n) (F64.fin 0)) = 0 := by
  apply F64.toIntOn_of_some
  rw [F64.ofInt_fin n h0 h]
  show F64.toInt (F64.round (roundQ (n : ℚ) * 0)) = some 0
  rw [mul_zero]
  have e : (0 : ℚ) = ((0 : ℤ) : ℚ) := by norm_num
  rw [e, F64.toInt_round_exact _ (roundQ_intCast 0 (by norm_num)) (by norm_num) (by norm_num)]
  norm_num

/-- What `ToAscii` returns for a buffer without pixels: the newlines of its
rows. -/
theorem ToAscii_no_pixels (mode : AsciiMode) (k : Int) :
    (Image.mk [] 0 k).ToAscii mode = some (String.mk (List.replicate k.toNat '\n')) ∧
    (Image.mk [] k 0).ToAscii mode = some "" := by
  constructor
  · unfold Image.ToAscii forLoop
    refine (loopFrom_newlines _ ?_ _ _ _).trans ?_
    · intro j s
      rfl
    · congr 1
  · rfl

/-- C15: a scale factor of zero gives an empty buffer rather than a failure.
For every valid buffer, on every platform and whatever the other scale factor
is (non-negative or not), `Resize` with `xScale = 0` returns the buffer with no
pixel, width 0 and the converted height, and with `yScale = 0` the buffer with
no pixel, the converted width and height 0; in both `len(data) = 0` and
`width * height = 0`, the copying loops run no assignment (they return the empty
buffer whatever their body is), and `ToAscii` of the result consists of
newlines only. -/
theorem C15_Resize_zero_scale (i : Image) (p : Platform) (other : F64) (hgo : i.IsGoValue)
    (hv : i.Valid) :
    (∃ k : Int, i.Resize p (F64.fin 0) other = some { data := [], width := 0, height := k } ∧
      k = F64.toIntOn p (F64.mul (F64.ofInt i.height) other) ∧
      ([] : List Color).length = 0 ∧ 0 * k = 0 ∧
      (∀ body : Int → Int → List Color → Option (List Color),
        forLoop k (fun y data => forLoop 0 (fun x data => body x y data) data) [] = some []) ∧
      ∀ mode, ∃ s, (Image.mk [] 0 k).ToAscii mode = some s ∧ ∀ ch ∈ s.data, ch = '\n') ∧
    (∃ k : Int, i.Resize p other (F64.fin 0) = some { data := [], width := k, height := 0 } ∧
      k = F64.toIntOn p (F64.mul (F64.ofInt i.width) other) ∧
      ([] : List Color).length = 0 ∧ k * 0 = 0 ∧
      (∀ body : Int → Int → List Color → Option (List Color),
        forLoop 0 (fun y data => forLoop k (fun x data => body x y data) data) [] = some []) ∧
      ∀ mode, (Image.mk [] k 0).ToAscii mode = some "") := by
  have hw0 := toIntOn_mul_zero p i.width hv.1 hgo.2.1.2
  have hh0 := toIntOn_mul_zero p i.height hv.2.1 hgo.2.2.2
  have hloop : ∀ (k : Int) (body : Int → Int → List Color → Option (List Color)),
      forLoop k (fun y data => forLoop 0 (fun x data => body x y data) data) [] = some [] := by
    intro k body
    unfold forLoop
    exact loopFrom_skip _ (fun j s => rfl) _ _ _
  constructor
  · refine ⟨F64.toIntOn p (F64.mul (F64.ofInt i.height) other), ?_, rfl, rfl, zero_mul _,
      hloop _, ?_⟩
    · rw [Resize_unfold_on i p _ _ 0 _ [] hw0 rfl (by rw [zero_mul]; rfl)]
      rw [hloop]
      rfl
    · intro mode
      refine ⟨_, (ToAscii_no_pixels mode _).1, ?_⟩
      intro ch hch
      exact List.eq_of_mem_replicate hch
  · refine ⟨F64.toIntOn p (F64.mul (F64.ofInt i.width) other), ?_, rfl, rfl, mul_zero _,
      fun body => rfl, fun mode => (ToAscii_no_pixels mode _).2⟩
    rw [Resize_unfold_on i p _ _ _ 0 [] rfl hh0 (by rw [mul_zero]; rfl)]
    rfl

/-- Witness for C15: the 2 by 1 buffer black, white with `xScale = 0` and
`yScale = 3` becomes the buffer with no pixel, width 0 and height 3. -/
theorem C15_Resize_zero_scale_witness :
    ∃ k : Int, blackWhite.Resize amd64 (F64.fin 0) (F64.fin 3)
      = some { data := [], width := 0, height := k } := by
  obtain ⟨⟨k, hk, -⟩, -⟩ := C15_Resize_zero_scale blackWhite amd64 (F64.fin 3) (by decide)
    (by decide)
  exact ⟨k, hk⟩

/-! ## Runs of `Resize` with the cause of a panic -/

/-- Forgetting the cause of a panic in a loop gives the loop of the bodies
that forget it. -/
theorem loopFromE_toOption {σ : Type} (bodyE : Int → σ → Except Fault σ)
    (body : Int → σ → Option σ) (h : ∀ j s, (bodyE j s).toOption = body j s) :
    ∀ (k : Nat) (j : Int) (s : σ),
      (loopFromE bodyE k j s).toOption = loopFrom body k j s := by
  intro k
  induction k with
  | zero => intro j s; rfl
  | succ k ih =>
    intro j s
    rw [loopFromE, loopFrom]
    have hb := h j s
    cases hE : bodyE j s with
    | error f =>
      rw [hE] at hb
      rw [← hb]
      rfl
    | ok t =>
      rw [hE] at hb
      rw [← hb]
      exact ih (j + 1) t

theorem toOption_map {α β : Type} (f : α → β) (x : Except Fault α) :
    (Except.map f x).toOption = Option.map f x.toOption := by
  cases x <;> rfl

/-- `ResizeE` once its allocation has succeeded: the two copying loops over
the fresh buffer. -/
theorem ResizeE_of_make (i : Image) (p : Platform) (xs ys : F64) (nw nh : Int)
    (fresh : List Color)
    (hw : F64.toIntOn p (F64.mul (F64.ofInt i.width) xs) = nw)
    (hh : F64.toIntOn p (F64.mul (F64.ofInt i.height) ys) = nh)
    (hmake : make p (wrapInt (nw * nh)) = some fresh) :
    i.ResizeE p xs ys =
      (forLoopE nh (fun y data =>
        forLoopE nw (fun x data =>
          match i.source p xs ys x y with
          | none => .error .read
          | some c =>
            match store data (wrapInt (x + wrapInt (y * nw))) c with
            | none => .error .write
            | some data => .ok data) data) fresh).map
        (fun data => { data := data, width := nw, height := nh }) := by
  subst hw hh
  unfold Image.ResizeE
  simp only [hmake]

/-- `ResizeE` when `make` panics. -/
theorem ResizeE_of_make_none (i : Image) (p : Platform) (xs ys : F64)
    (hmake : make p (wrapInt (F64.toIntOn p (F64.mul (F64.ofInt i.width) xs)
      * F64.toIntOn p (F64.mul (F64.ofInt i.height) ys))) = none) :
    i.ResizeE p xs ys = .error .length ∧ i.Resize p xs ys = none := by
  constructor
  · unfold Image.ResizeE
    simp only [hmake]
  · unfold Image.Resize
    simp only [hmake]

/-- `ResizeE` is `Resize` with the cause of a panic kept: forgetting the cause
gives `Resize`. -/
theorem ResizeE_toOption (i : Image) (p : Platform) (xs ys : F64) :
    (i.ResizeE p xs ys).toOption = i.Resize p xs ys := by
  cases hm : make p (wrapInt (F64.toIntOn p (F64.mul (F64.ofInt i.width) xs)
      * F64.toIntOn p (F64.mul (F64.ofInt i.height) ys))) with
  | none =>
    obtain ⟨h1, h2⟩ := ResizeE_of_make_none i p xs ys hm
    rw [h1, h2]
    rfl
  | some fresh =>
    rw [ResizeE_of_make i p xs ys _ _ fresh rfl rfl hm,
      Resize_unfold_on i p xs ys _ _ fresh rfl rfl hm]
    have hinner : ∀ (y : Int) (d : List Color),
        (forLoopE (F64.toIntOn p (F64.mul (F64.ofInt i.width) xs)) (fun x data =>
          match i.source p xs ys x y with
          | none => Except.error Fault.read
          | some c =>
            match store data (wrapInt (x + wrapInt
                (y * F64.toIntOn p (F64.mul (F64.ofInt i.width) xs)))) c with
            | none => Except.error Fault.write
            | some data => Except.ok data) d).toOption
        = forLoop (F64.toIntOn p (F64.mul (F64.ofInt i.width) xs)) (fun x data =>
          match i.source p xs ys x y with
          | some c => store data (wrapInt (x + wrapInt
              (y * F64.toIntOn p (F64.mul (F64.ofInt i.width) xs)))) c
          | none => none) d := by
      intro y d
      unfold forLoopE forLoop
      apply loopFromE_toOption
      intro x u
      cases i.source p xs ys x y with
      | none => rfl
      | some c =>
        show (match store u _ c with
          | none => Except.error Fault.write
          | some data => Except.ok data).toOption = store u _ c
        cases store u (wrapInt (x + wrapInt
            (y * F64.toIntOn p (F64.mul (F64.ofInt i.width) xs)))) c <;> rfl
    have houter : (forLoopE (F64.toIntOn p (F64.mul (F64.ofInt i.height) ys)) (fun y data =>
        forLoopE (F64.toIntOn p (F64.mul (F64.ofInt i.width) xs)) (fun x data =>
          match i.source p xs ys x y with
          | none => Except.error Fault.read
          | some c =>
            match store data (wrapInt (x + wrapInt
                (y * F64.toIntOn p (F64.mul (F64.ofInt i.width) xs)))) c with
            | none => Except.error Fault.write
            | some data => Except.ok data) data) fresh).toOption
        = forLoop (F64.toIntOn p (F64.mul (F64.ofInt i.height) ys)) (fun y data =>
          forLoop (F64.toIntOn p (F64.mul (F64.ofInt i.width) xs)) (fun x data =>
            match i.source p xs ys x y with
            | some c => store data (wrapInt (x + wrapInt
                (y * F64.toIntOn p (F64.mul (F64.ofInt i.width) xs)))) c
            | none => none) data) fresh :=
      loopFromE_toOption _ _ hinner _ 0 fresh
    rw [toOption_map, houter]

/-- Safety rule for a counting loop with the cause of a panic kept: when every
iteration that starts from the invariant either re-establishes it or panics
for an admitted cause, the loop ends in the invariant or panics for an
admitted cause. -/
theorem loopFromE_safe {σ : Type} (body : Int → σ → Except Fault σ) (Inv : Int → σ → Prop)
    (Good : Fault → Prop) (n : Int)
    (hstep : ∀ (j : Int) (u : σ), j < n → Inv j u →
      (∀ v, body j u = .ok v → Inv (j + 1) v) ∧ (∀ f, body j u = .error f → Good f)) :
    ∀ (k : Nat) (j : Int) (s : σ), j + k ≤ n → Inv j s →
      (∀ t, loopFromE body k j s = .ok t → Inv (j + k) t) ∧
      (∀ f, loopFromE body k j s = .error f → Good f) := by
  intro k
  induction k with
  | zero =>
    intro j s _ hinv
    constructor
    · intro t ht
      have e : s = t := Except.ok.inj ht
      subst e
      simpa using hinv
    · intro f hf
      cases hf
  | succ k ih =>
    intro j s hle hinv
    have hj : j < n := by push_cast at hle; omega
    obtain ⟨hok, herr⟩ := hstep j s hj hinv
    rw [loopFromE]
    cases hb : body j s with
    | error f =>
      constructor
      · intro t ht
        cases ht
      · intro g hg
        have e : f = g := Except.error.inj hg
        subst e
        exact herr f hb
    | ok u =>
      obtain ⟨h1, h2⟩ := ih (j + 1) u (by push_cast at hle ⊢; omega) (hok u hb)
      constructor
      · intro t ht
        have h3 := h1 t ht
        have e : j + 1 + (k : Int) = j + ((k + 1 : Nat) : Int) := by push_cast; ring
        rw [← e]
        exact h3
      · exact h2

/-- Safety rule for the loop `for j := 0; j < n; j++`. -/
theorem forLoopE_safe {σ : Type} (n : Int) (body : Int → σ → Except Fault σ)
    (Inv : Int → σ → Prop) (Good : Fault → Prop) (s : σ) (h0 : Inv 0 s)
    (hstep : ∀ (j : Int) (u : σ), 0 ≤ j → j < n → Inv j u →
      (∀ v, body j u = .ok v → Inv (j + 1) v) ∧ (∀ f, body j u = .error f → Good f)) :
    (∀ t, forLoopE n body s = .ok t → Inv (n.toNat : Int) t) ∧
    (∀ f, forLoopE n body s = .error f → Good f) := by
  unfold forLoopE
  obtain ⟨h1, h2⟩ := loopFromE_safe body (fun j u => 0 ≤ j ∧ Inv j u) Good (n.toNat : Int)
    (fun j u hj hinv =>
      ⟨fun v hv => ⟨by omega, (hstep j u hinv.1 (by omega) hinv.2).1 v hv⟩,
        (hstep j u hinv.1 (by omega) hinv.2).2⟩)
    n.toNat 0 s (by omega) ⟨le_refl 0, h0⟩
  refine ⟨fun t ht => ?_, h2⟩
  have := (h1 t ht).2
  simpa using this

/-! ## Source coordinates of the destinations a run reaches -/

/-- The source coordinate of a destination coordinate that a run of `Resize`
can reach, on every platform: for a positive scale factor `s`, a dimension
`w ≤ 2 ^ 53` and `0 ≤ x ≤ 2 ^ 44` below the new dimension `int(float64(w) * s)`,
the conversion `int(float64(x) / s)` is one Go specifies, and its value is in
`[0, w)`: the floor of the rounded quotient when `s` is finite. A NaN arises
only from `w = 0` and `s = +Inf`; its conversion is assumed not to be
positive. -/
theorem coord_reached (p : Platform) (w : Int) (hw0 : 0 ≤ w) (hw : w ≤ 2 ^ 53) (s : F64)
    (hs : s.IsPositive) (hnan : s = F64.inf false → wrapInt (p.convert F64.nan) ≤ 0)
    (x : Int) (hx0 : 0 ≤ x) (hx : x < F64.toIntOn p (F64.mul (F64.ofInt w) s))
    (hx44 : x ≤ 2 ^ 44) :
    ∃ c, F64.toInt (F64.div (F64.ofInt x) s) = some c ∧ 0 ≤ c ∧ c < w ∧
      ∀ q, s = F64.fin q → c = ⌊roundQ ((x : ℚ) / q)⌋ := by
  have hwq : (0 : ℚ) ≤ (w : ℚ) := by exact_mod_cast hw0
  have hxq : (0 : ℚ) ≤ (x : ℚ) := by exact_mod_cast hx0
  have hx44q : (x : ℚ) ≤ 2 ^ 44 := by exact_mod_cast hx44
  have hw53q : (w : ℚ) ≤ 2 ^ 53 := by exact_mod_cast hw
  have hofx : F64.ofInt x = F64.fin x :=
    F64.ofInt_exact x (by rw [abs_of_nonneg hx0]; omega)
  have hofw : F64.ofInt w = F64.fin w :=
    F64.ofInt_exact w (by rw [abs_of_nonneg hw0]; exact hw)
  cases s with
  | nan => exact absurd hs (by simp [F64.IsPositive])
  | inf neg =>
    have hneg : neg = false := hs
    subst hneg
    rcases eq_or_lt_of_le hw0 with h0 | h0
    · -- the width 0 times +Inf is a NaN
      exfalso
      have hn : F64.toIntOn p (F64.mul (F64.ofInt w) (F64.inf false)) = wrapInt (p.convert F64.nan) := by
        rw [hofw, ← h0]
        rfl
      rw [hn] at hx
      have := hnan rfl
      omega
    · refine ⟨0, ?_, le_refl 0, h0, fun q h => by cases h⟩
      rw [hofx]
      show F64.toInt (F64.fin 0) = some 0
      rw [F64.toInt_fin_nonneg 0 (le_refl 0) (by norm_num)]
      norm_num
  | fin q =>
    have hq : 0 < q := hs
    have hu : (2 : ℚ) ^ (-53 : ℤ) = 1 / 9007199254740992 := by norm_num
    have hη0 : (0 : ℚ) < (2 : ℚ) ^ (-1075 : ℤ) := by positivity
    have hη1 : (2 : ℚ) ^ (-1075 : ℤ) ≤ (2 : ℚ) ^ (-10 : ℤ) :=
      zpow_le_zpow_right₀ (by norm_num) (by norm_num)
    have hη2 : (2 : ℚ) ^ (-10 : ℤ) = 1 / 1024 := by norm_num
    rw [hη2] at hη1
    by_cases hsmall : (w : ℚ) * q < 2 ^ 51
    · -- the new dimension is specified and at most 2 ^ 52
      have hP := roundQ_le ((w : ℚ) * q) (mul_nonneg hwq hq.le)
      have hP0 := roundQ_nonneg ((w : ℚ) * q) (mul_nonneg hwq hq.le)
      rw [hu] at hP
      have hlt52 : roundQ ((w : ℚ) * q) < 2 ^ 52 := by
        generalize (2 : ℚ) ^ (-1075 : ℤ) = η at hη0 hη1 hP
        nlinarith
      have hfl52 : ⌊roundQ ((w : ℚ) * q)⌋ < 2 ^ 52 := by
        apply Int.floor_lt.2
        exact_mod_cast hlt52
      have hbig : |roundQ ((w : ℚ) * q)| < (2 : ℚ) ^ 1024 := by
        rw [abs_of_nonneg hP0]
        have h2 : (2 : ℚ) ^ 52 < (2 : ℚ) ^ 1024 :=
          pow_lt_pow_right₀ (by norm_num) (by norm_num)
        linarith
      have hnw : F64.toInt (F64.mul (F64.ofInt w) (F64.fin q))
          = some ⌊roundQ ((w : ℚ) * q)⌋ := by
        rw [hofw]
        show F64.toInt (F64.round ((w : ℚ) * q)) = _
        rw [F64.round_fin _ hbig, F64.toInt_fin_nonneg _ hP0 (by omega)]
      rw [F64.toIntOn_of_some p _ _ hnw] at hx
      obtain ⟨h1, h2, h3⟩ := src_coord_lt w hw0 hw q hq _ hnw (by omega) x hx0 hx
      exact ⟨_, h1, h2, h3, fun q2 h => by cases h; rfl⟩
    · -- the new dimension is large: the quotient is below a 128th of the width
      have hlarge : (2 : ℚ) ^ 51 ≤ (w : ℚ) * q := not_lt.1 hsmall
      have hw1 : (1 : ℚ) ≤ (w : ℚ) := by
        have : 1 ≤ w := by
          by_contra hcon
          have hw0' : w = 0 := by omega
          rw [hw0'] at hlarge
          norm_num at hlarge
        exact_mod_cast this
      have hquot : (x : ℚ) / q ≤ (w : ℚ) / 128 := by
        rw [div_le_iff₀ hq]
        have e : (w : ℚ) / 128 * q = (w : ℚ) * q / 128 := by ring
        rw [e]
        have : (2 : ℚ) ^ 51 / 128 = 2 ^ 44 := by norm_num
        linarith [div_le_div_of_nonneg_right hlarge (by norm_num : (0 : ℚ) ≤ 128)]
      have hB := roundQ_le ((x : ℚ) / q) (div_nonneg hxq hq.le)
      have hB0 := roundQ_nonneg ((x : ℚ) / q) (div_nonneg hxq hq.le)
      rw [hu] at hB
      have hlt : roundQ ((x : ℚ) / q) < (w : ℚ) := by
        generalize (2 : ℚ) ^ (-1075 : ℤ) = η at hη0 hη1 hB
        nlinarith
      have hfl : ⌊roundQ ((x : ℚ) / q)⌋ < w := Int.floor_lt.2 hlt
      have hbig : |roundQ ((x : ℚ) / q)| < (2 : ℚ) ^ 1024 := by
        rw [abs_of_nonneg hB0]
        have h2 : (2 : ℚ) ^ 53 < (2 : ℚ) ^ 1024 :=
          pow_lt_pow_right₀ (by norm_num) (by norm_num)
        linarith
      refine ⟨⌊roundQ ((x : ℚ) / q)⌋, ?_, Int.floor_nonneg.2 hB0, hfl,
        fun q2 h => by cases h; rfl⟩
      rw [hofx, F64.div_fin _ _ hq.ne', F64.round_fin _ hbig,
        F64.toInt_fin_nonneg _ hB0 (by omega)]

/-- The read of a destination that a run of `Resize` can reach is inside the
source: for a valid buffer held in a slice, positive scale factors, and a
destination `(x, y)` inside the new dimensions with `x, y ≤ 2 ^ 44`, both
conversions are ones Go specifies, the source column is in `[0, width)`, the
source row in `[0, height)`, the linear index is computed without wrap-around
and lies in `[0, len(data))`, and the read succeeds. -/
theorem source_reached (i : Image) (p : Platform) (xs ys : F64) (hgo : i.IsGoValue)
    (hv : i.Valid) (hslice : (i.data.length : Int) ≤ 2 ^ 44)
    (hxs : xs.IsPositive) (hys : ys.IsPositive)
    (hnan : xs = F64.inf false ∨ ys = F64.inf false → wrapInt (p.convert F64.nan) ≤ 0)
    (x y : Int) (hx0 : 0 ≤ x) (hx : x < F64.toIntOn p (F64.mul (F64.ofInt i.width) xs))
    (hx44 : x ≤ 2 ^ 44)
    (hy0 : 0 ≤ y) (hy : y < F64.toIntOn p (F64.mul (F64.ofInt i.height) ys))
    (hy44 : y ≤ 2 ^ 44) :
    ∃ col row : Int,
      F64.toInt (F64.div (F64.ofInt x) xs) = some col ∧
      F64.toInt (F64.div (F64.ofInt y) ys) = some row ∧
      (∀ q, xs = F64.fin q → col = ⌊roundQ ((x : ℚ) / q)⌋) ∧
      (∀ q, ys = F64.fin q → row = ⌊roundQ ((y : ℚ) / q)⌋) ∧
      (0 ≤ col ∧ col < i.width) ∧ (0 ≤ row ∧ row < i.height) ∧
      wrapInt (col + wrapInt (row * i.width)) = col + row * i.width ∧
      (0 ≤ col + row * i.width ∧ col + row * i.width < (i.data.length : Int)) ∧
      ∃ c, index i.data (wrapInt (col + wrapInt (row * i.width))) = some c ∧
        i.source p xs ys x y = some c := by
  have hw0 : 0 ≤ i.width := hv.1
  have hh0 : 0 ≤ i.height := hv.2.1
  have hlen : (i.data.length : Int) = i.width * i.height := hv.2.2
  have hw1 : 1 ≤ i.width := by
    by_contra hcon
    have e : i.width = 0 := by omega
    obtain ⟨c, -, h1, h2, -⟩ := coord_reached p i.width hw0 (by omega) xs hxs
      (fun h => hnan (Or.inl h)) x hx0 hx hx44
    omega
  have hh1 : 1 ≤ i.height := by
    by_contra hcon
    have e : i.height = 0 := by omega
    obtain ⟨c, -, h1, h2, -⟩ := coord_reached p i.height hh0 (by omega) ys hys
      (fun h => hnan (Or.inr h)) y hy0 hy hy44
    omega
  have hwle : i.width ≤ 2 ^ 44 := by
    have := le_mul_of_one_le_right hw0 hh1
    linarith
  have hhle : i.height ≤ 2 ^ 44 := by
    have := le_mul_of_one_le_left hh0 hw1
    linarith
  obtain ⟨col, hcol, hcol0, hcolw, hcolq⟩ := coord_reached p i.width hw0 (by omega) xs hxs
    (fun h => hnan (Or.inl h)) x hx0 hx hx44
  obtain ⟨row, hrow, hrow0, hrowh, hrowq⟩ := coord_reached p i.height hh0 (by omega) ys hys
    (fun h => hnan (Or.inr h)) y hy0 hy hy44
  have hlt := Image.Valid.index_lt i hv col.toNat row.toNat (by omega) (by omega)
  have hidx := pixel_index_eq i hgo hv col.toNat row.toNat (by omega) (by omega)
  rw [Int.toNat_of_nonneg hcol0, Int.toNat_of_nonneg hrow0] at hidx
  have e : ((col.toNat + row.toNat * i.width.toNat : Nat) : Int) = col + row * i.width := by
    push_cast
    rw [Int.toNat_of_nonneg hcol0, Int.toNat_of_nonneg hrow0, Int.toNat_of_nonneg hw0]
  have hread : index i.data (wrapInt (col + wrapInt (row * i.width)))
      = some (i.data[col.toNat + row.toNat * i.width.toNat]) := by
    rw [hidx]
    exact index_eq_some _ _ _ (List.getElem?_eq_getElem hlt)
  refine ⟨col, row, hcol, hrow, hcolq, hrowq, ⟨hcol0, hcolw⟩, ⟨hrow0, hrowh⟩, hidx.trans e,
    ?_, _, hread, ?_⟩
  · rw [← e]
    exact ⟨Int.natCast_nonneg _, by exact_mod_cast hlt⟩
  · unfold Image.source
    rw [F64.toIntOn_of_some p _ _ hcol, F64.toIntOn_of_some p _ _ hrow]
    exact hread

/-- The two copying loops of `Resize` over a slice that `make` has returned
never panic in the read: every destination they reach has its source pixel
inside the source buffer, so the only panic left is an assignment outside the
new slice. -/
theorem fillE_safe (i : Image) (p : Platform) (xs ys : F64) (hgo : i.IsGoValue)
    (hv : i.Valid) (hslice : (i.data.length : Int) ≤ 2 ^ 44)
    (hxs : xs.IsPositive) (hys : ys.IsPositive)
    (hnan : xs = F64.inf false ∨ ys = F64.inf false → wrapInt (p.convert F64.nan) ≤ 0)
    (nw nh : Int)
    (hw : F64.toIntOn p (F64.mul (F64.ofInt i.width) xs) = nw)
    (hh : F64.toIntOn p (F64.mul (F64.ofInt i.height) ys) = nh)
    (fresh : List Color) (hfresh : (fresh.length : Int) ≤ 2 ^ 44) :
    ∀ f, forLoopE nh (fun y data =>
        forLoopE nw (fun x data =>
          match i.source p xs ys x y with
          | none => .error .read
          | some c =>
            match store data (wrapInt (x + wrapInt (y * nw))) c with
            | none => .error .write
            | some data => .ok data) data) fresh = .error f → f = Fault.write := by
  have key : ∀ x m : Int, 0 ≤ x → 0 ≤ m → x + m ≤ 2 ^ 44 →
      wrapInt (x + wrapInt m) = x + m := by
    intro x m h0 h1 h2
    rw [wrapInt_of_range m (by omega) (by omega), wrapInt_of_range _ (by omega) (by omega)]
  have hinnerstep : ∀ (y : Int), 0 ≤ y → y < nh → ∀ (x : Int) (d : List Color), 0 ≤ x → x < nw →
      d.length = fresh.length ∧ x + y * (nw.toNat : Int) ≤ (fresh.length : Int) →
      (∀ v, (match i.source p xs ys x y with
          | none => Except.error Fault.read
          | some c =>
            match store d (wrapInt (x + wrapInt (y * nw))) c with
            | none => Except.error Fault.write
            | some data => Except.ok data) = Except.ok v →
        v.length = fresh.length ∧ x + 1 + y * (nw.toNat : Int) ≤ (fresh.length : Int)) ∧
      (∀ f, (match i.source p xs ys x y with
          | none => Except.error Fault.read
          | some c =>
            match store d (wrapInt (x + wrapInt (y * nw))) c with
            | none => Except.error Fault.write
            | some data => Except.ok data) = Except.error f → f = Fault.write) := by
    intro y hy0 hy x d hx0 hx ⟨hdl, hinv⟩
    have eN : (nw.toNat : Int) = nw := Int.toNat_of_nonneg (by omega)
    rw [eN] at hinv ⊢
    have hm0 : 0 ≤ y * nw := mul_nonneg hy0 (by omega)
    have hym : y ≤ y * nw := le_mul_of_one_le_right hy0 (by omega)
    have hwrap : wrapInt (x + wrapInt (y * nw)) = x + y * nw :=
      key x (y * nw) hx0 hm0 (by linarith)
    obtain ⟨col, row, -, -, -, -, -, -, -, -, c, -, hc⟩ := source_reached i p xs ys hgo hv
      hslice hxs hys hnan x y hx0 (by rw [hw]; exact hx) (by linarith) hy0
      (by rw [hh]; exact hy) (by linarith)
    rw [hc, hwrap]
    dsimp only
    cases hst : store d (x + y * nw) c with
    | none =>
      constructor
      · intro v hv2
        cases hv2
      · intro f hf
        exact (Except.error.inj hf).symm
    | some d2 =>
      constructor
      · intro v hv2
        have e : d2 = v := Except.ok.inj hv2
        subst e
        obtain ⟨h1, -, h3⟩ := store_length _ _ _ _ hst
        rw [hdl] at h1 h3
        exact ⟨h1, by linarith⟩
      · intro f hf
        cases hf
  have houter := forLoopE_safe nh (fun y data =>
      forLoopE nw (fun x data =>
        match i.source p xs ys x y with
        | none => Except.error Fault.read
        | some c =>
          match store data (wrapInt (x + wrapInt (y * nw))) c with
          | none => Except.error Fault.write
          | some data => Except.ok data) data)
    (fun y d => d.length = fresh.length ∧ y * (nw.toNat : Int) ≤ (fresh.length : Int))
    (fun f => f = Fault.write) fresh ⟨rfl, by simp⟩
    (by
      intro y u hy0 hy hinv
      have hinner := forLoopE_safe nw (fun x data =>
          match i.source p xs ys x y with
          | none => Except.error Fault.read
          | some c =>
            match store data (wrapInt (x + wrapInt (y * nw))) c with
            | none => Except.error Fault.write
            | some data => Except.ok data)
        (fun x d => d.length = fresh.length ∧ x + y * (nw.toNat : Int) ≤ (fresh.length : Int))
        (fun f => f = Fault.write) u ⟨hinv.1, by simpa using hinv.2⟩
        (fun x d hx0 hx hi => hinnerstep y hy0 hy x d hx0 hx hi)
      refine ⟨?_, hinner.2⟩
      intro v hv2
      obtain ⟨h1, h2⟩ := hinner.1 v hv2
      refine ⟨h1, ?_⟩
      have e : (y + 1) * (nw.toNat : Int) = (nw.toNat : Int) + y * (nw.toNat : Int) := by ring
      rw [e]
      exact h2)
  exact houter.2

/-- A run of `Resize` over a valid buffer held in a slice, with positive scale
factors, never panics in the read of a source pixel. -/
theorem ResizeE_no_read_fault (i : Image) (p : Platform) (xs ys : F64) (hgo : i.IsGoValue)
    (hv : i.Valid) (hslice : (i.data.length : Int) ≤ 2 ^ 44)
    (hxs : xs.IsPositive) (hys : ys.IsPositive)
    (hnan : xs = F64.inf false ∨ ys = F64.inf false → wrapInt (p.convert F64.nan) ≤ 0) :
    i.ResizeE p xs ys ≠ .error .read := by
  cases hm : make p (wrapInt (F64.toIntOn p (F64.mul (F64.ofInt i.width) xs)
      * F64.toIntOn p (F64.mul (F64.ofInt i.height) ys))) with
  | none =>
    rw [(ResizeE_of_make_none i p xs ys hm).1]
    intro h
    cases h
  | some fresh =>
    rw [ResizeE_of_make i p xs ys _ _ fresh rfl rfl hm]
    obtain ⟨-, hL44, hflen, -⟩ := make_some _ _ _ hm
    have hsafe := fillE_safe i p xs ys hgo hv hslice hxs hys hnan _ _ rfl rfl fresh
      (by rw [hflen]; exact hL44)
    intro h
    cases hl : forLoopE (F64.toIntOn p (F64.mul (F64.ofInt i.height) ys)) (fun y data =>
        forLoopE (F64.toIntOn p (F64.mul (F64.ofInt i.width) xs)) (fun x data =>
          match i.source p xs ys x y with
          | none => Except.error Fault.read
          | some c =>
            match store data (wrapInt (x + wrapInt
                (y * F64.toIntOn p (F64.mul (F64.ofInt i.width) xs)))) c with
            | none => Except.error Fault.write
            | some data => Except.ok data) data) fresh with
    | ok d =>
      rw [hl] at h
      cases h
    | error f =>
      rw [hl] at h
      have e1 : f = Fault.write := hsafe f hl
      have e2 : f = Fault.read := Except.error.inj h
      rw [e1] at e2
      cases e2

/-- C16: `Resize` never reads outside the source buffer for positive scale
factors, although it does not clamp. For every valid buffer held in a slice
(of at most `2 ^ 44` pixels, as every slice is), all positive scale factors
and every platform (one that does not convert a NaN to a positive `int`, when
a scale factor is infinite):
no run of `Resize` panics in the read `i.data[...]`, where `ResizeE` is
`Resize` with the cause of a panic kept; a run with non-negative new
dimensions `nw`, `nh` whose product exceeds the longest slice `make` allocates
does not complete; and when `nw * nh` is at most `2 ^ 44`, as it is whenever
the new slice holds all destinations, for every destination
`(x, y)` with `0 <= x < nw` and `0 <= y < nh` both conversions are ones Go
specifies, the source column `floor(fl(x / xScale))` is in `[0, width)`, the
source row `floor(fl(y / yScale))` is in `[0, height)`, the linear index is
computed without wrap-around and lies in `[0, len(data))`, and the read
succeeds; `fl` is rounding to `float64`. -/
theorem C16_Resize_reads_in_range (i : Image) (p : Platform) (xScale yScale : F64)
    (hgo : i.IsGoValue) (hv : i.Valid) (hslice : (i.data.length : Int) ≤ 2 ^ 44)
    (hxs : xScale.IsPositive) (hys : yScale.IsPositive)
    (hnan : xScale = F64.inf false ∨ yScale = F64.inf false →
      wrapInt (p.convert F64.nan) ≤ 0) :
    (i.ResizeE p xScale yScale).toOption = i.Resize p xScale yScale ∧
    i.ResizeE p xScale yScale ≠ .error .read ∧
    ∀ nw nh : Int,
      F64.toIntOn p (F64.mul (F64.ofInt i.width) xScale) = nw →
      F64.toIntOn p (F64.mul (F64.ofInt i.height) yScale) = nh →
      (0 ≤ nw → 0 ≤ nh → (p.maxLen : Int) < nw * nh → i.Resize p xScale yScale = none) ∧
      (nw * nh ≤ 2 ^ 44 →
        ∀ x y : Nat, (x : Int) < nw → (y : Int) < nh →
          ∃ col row : Int,
            F64.toInt (F64.div (F64.ofInt x) xScale) = some col ∧
            F64.toInt (F64.div (F64.ofInt y) yScale) = some row ∧
            (∀ q, xScale = F64.fin q → col = ⌊roundQ ((x : ℚ) / q)⌋) ∧
            (∀ q, yScale = F64.fin q → row = ⌊roundQ ((y : ℚ) / q)⌋) ∧
            (0 ≤ col ∧ col < i.width) ∧ (0 ≤ row ∧ row < i.height) ∧
            wrapInt (col + wrapInt (row * i.width)) = col + row * i.width ∧
            (0 ≤ col + row * i.width ∧ col + row * i.width < (i.data.length : Int)) ∧
            ∃ c, index i.data (wrapInt (col + wrapInt (row * i.width))) = some c ∧
              i.source p xScale yScale x y = some c) := by
  refine ⟨ResizeE_toOption i p xScale yScale,
    ResizeE_no_read_fault i p xScale yScale hgo hv hslice hxs hys hnan, ?_⟩
  intro nw nh hw hh
  constructor
  · intro hnw0 hnh0 hbig
    by_contra hne
    obtain ⟨r, hr⟩ := Option.ne_none_iff_exists'.1 hne
    obtain ⟨nw2, nh2, fresh, d, hw2, hh2, hm, hl, -⟩ := Resize_some_inv i p xScale yScale r hr
    rw [hw] at hw2
    rw [hh] at hh2
    subst hw2 hh2
    obtain ⟨-, -, hflen, h44⟩ := make_some _ _ _ hm
    have cnw : ((nw.toNat : Nat) : Int) = nw := Int.toNat_of_nonneg hnw0
    have cnh : ((nh.toNat : Nat) : Int) = nh := Int.toNat_of_nonneg hnh0
    rw [← cnw, ← cnh] at hl hflen
    have hd := fill_no_wrap (fun x y => i.source p xScale yScale x y) nw.toNat nh.toNat fresh d
      hflen hl
    have hd2 := (fill_returned (fun x y => i.source p xScale yScale x y) nw.toNat nh.toNat
      fresh d hl).1
    have e : ((fresh.length : Nat) : Int) = nw * nh := by
      rw [← hd2, hd]; push_cast; rw [cnw, cnh]
    rw [cnw, cnh] at hflen
    rw [hflen] at e
    rw [e] at h44
    exact absurd hbig (not_lt.2 h44)
  · intro hprod x y hx hy
    have hnw1 : 1 ≤ nw := by omega
    have hnh1 : 1 ≤ nh := by omega
    have h1 : nw ≤ nw * nh := le_mul_of_one_le_right (by omega) hnh1
    have h2 : nh ≤ nw * nh := le_mul_of_one_le_left (by omega) hnw1
    exact source_reached i p xScale yScale hgo hv hslice hxs hys hnan x y
      (Int.natCast_nonneg _) (by rw [hw]; exact hx) (by linarith)
      (Int.natCast_nonneg _) (by rw [hh]; exact hy) (by linarith)

/-- Witness for C16: the 2 by 1 buffer black, white scaled by 3/2 and by 2
does not panic in a read, and the destination `(2, 1)` reads a source pixel. -/
theorem C16_Resize_reads_in_range_witness :
    blackWhite.ResizeE amd64 (F64.fin (3 / 2)) (F64.fin 2) ≠ .error .read ∧
    ∃ c, blackWhite.source amd64 (F64.fin (3 / 2)) (F64.fin 2) 2 1 = some c := by
  obtain ⟨-, h1, h2⟩ := C16_Resize_reads_in_range blackWhite amd64 (F64.fin (3 / 2)) (F64.fin 2)
    (by decide) (by decide) (by decide) (by show (0 : ℚ) < 3 / 2; norm_num)
    (by show (0 : ℚ) < 2; norm_num) (fun h => by rcases h with h | h <;> cases h)
  obtain ⟨-, h3⟩ := h2 3 2
    (F64.toIntOn_of_some amd64 _ _
      (F64.toInt_mul_exact 2 (3 / 2) 3 (by norm_num) (by norm_num) (by norm_num) (by norm_num)))
    (F64.toIntOn_of_some amd64 _ _
      (F64.toInt_mul_exact 1 2 2 (by norm_num) (by norm_num) (by norm_num) (by norm_num)))
  obtain ⟨col, row, -, -, -, -, -, -, -, -, c, -, hc⟩ := h3 (by norm_num) 2 1 (by norm_num)
    (by norm_num)
  exact ⟨h1, c, hc⟩

/-! ## Enlarging, then shrinking -/

/-- Dividing an `int` of at most `2 ^ 52` by one half is exact. -/
theorem F64.toInt_div_half (x : ℤ) (hx0 : 0 ≤ x) (hx : x ≤ 2 ^ 52) :
    F64.toInt (F64.div (F64.ofInt x) (F64.fin (1 / 2))) = some (2 * x) := by
  rw [F64.ofInt_exact x (by rw [abs_of_nonneg hx0]; omega), F64.div_fin _ _ (by norm_num)]
  have e : (x : ℚ) / (1 / 2) = ((2 * x : ℤ) : ℚ) := by push_cast; ring
  rw [e, F64.toInt_round_exact _ (roundQ_intCast _ (by rw [abs_of_nonneg (by omega)]; omega))
    (by exact_mod_cast (by omega : (0 : ℤ) ≤ 2 * x))
    (by
      have h1 : ((2 * x : ℤ) : ℚ) ≤ (2 : ℚ) ^ 53 := by exact_mod_cast (by omega : 2 * x ≤ 2 ^ 53)
      have h2 : (2 : ℚ) ^ 53 < (2 : ℚ) ^ 63 := pow_lt_pow_right₀ (by norm_num) (by norm_num)
      linarith)]
  rw [Int.floor_intCast]

/-- A pixel sequence that agrees with a valid buffer at every coordinate, and
has its length, is the buffer's pixel sequence. -/
theorem data_eq_of_pixels (i : Image) (hv : i.Valid) (d : List Color)
    (hdlen : d.length = i.width.toNat * i.height.toNat)
    (hpix : ∀ x y : Nat, x < i.width.toNat → y < i.height.toNat →
      d[x + y * i.width.toNat]? = i.data[x + y * i.width.toNat]?) : d = i.data := by
  have hlen := Image.Valid.length_eq i hv
  apply List.ext_getElem?
  intro j
  rcases Nat.lt_or_ge j i.data.length with hj | hj
  · have hwpos : 0 < i.width.toNat := by
      rcases Nat.eq_zero_or_pos i.width.toNat with h0 | h0
      · rw [hlen, h0, Nat.zero_mul] at hj
        exact absurd hj (Nat.not_lt_zero _)
      · exact h0
    have hx : j % i.width.toNat < i.width.toNat := Nat.mod_lt _ hwpos
    have hy : j / i.width.toNat < i.height.toNat := by
      apply Nat.div_lt_of_lt_mul
      rw [← hlen]; exact hj
    have ej : j % i.width.toNat + j / i.width.toNat * i.width.toNat = j := by
      rw [Nat.mul_comm]; exact Nat.mod_add_div j i.width.toNat
    have h1 := hpix _ _ hx hy
    rw [ej] at h1
    exact h1
  · rw [List.getElem?_eq_none hj, List.getElem?_eq_none (by rw [hdlen, ← hlen]; exact hj)]

/-- The pixel sequence `Resize(2.0, 2.0)` leaves, within the exact range of
`float64` and the longest slice `make` allocates. -/
theorem Resize_double_data (i : Image) (p : Platform) (hgo : i.IsGoValue) (hv : i.Valid)
    (hw52 : i.width ≤ 2 ^ 52) (hh52 : i.height ≤ 2 ^ 52)
    (hprod : 4 * (i.width * i.height) ≤ (p.maxLen : Int)) :
    ∃ d, i.Resize p (F64.fin 2) (F64.fin 2)
        = some { data := d, width := 2 * i.width, height := 2 * i.height } ∧
      d.length = (2 * i.width.toNat) * (2 * i.height.toNat) ∧
      ∀ X Y : Nat, X < 2 * i.width.toNat → Y < 2 * i.height.toNat →
        d[X + Y * (2 * i.width.toNat)]? = i.data[X / 2 + Y / 2 * i.width.toNat]? := by
  have hw0 : 0 ≤ i.width := hv.1
  have hh0 : 0 ≤ i.height := hv.2.1
  have cw : ((i.width.toNat : Nat) : Int) = i.width := Int.toNat_of_nonneg hw0
  have ch : ((i.height.toNat : Nat) : Int) = i.height := Int.toNat_of_nonneg hh0
  have cw2 : ((2 * i.width.toNat : Nat) : Int) = 2 * i.width := by push_cast; rw [cw]
  have ch2 : ((2 * i.height.toNat : Nat) : Int) = 2 * i.height := by push_cast; rw [ch]
  have hsrc : ∀ X Y : Nat, X < 2 * i.width.toNat → Y < 2 * i.height.toNat →
      i.source p (F64.fin 2) (F64.fin 2) X Y = i.data[X / 2 + Y / 2 * i.width.toNat]?
      ∧ X / 2 + Y / 2 * i.width.toNat < i.data.length := by
    intro X Y hX hY
    have hx : F64.toInt (F64.div (F64.ofInt (X : Int)) (F64.fin 2))
        = some ((X / 2 : Nat) : Int) := by
      rw [F64.toInt_div_two X (Int.natCast_nonneg _) (by omega)]
      congr 1
    have hy : F64.toInt (F64.div (F64.ofInt (Y : Int)) (F64.fin 2))
        = some ((Y / 2 : Nat) : Int) := by
      rw [F64.toInt_div_two Y (Int.natCast_nonneg _) (by omega)]
      congr 1
    have h := source_eq i p hgo hv (F64.fin 2) (F64.fin 2) X Y _ _ hx hy
      (Int.natCast_nonneg _) (by omega) (Int.natCast_nonneg _) (by omega)
    simpa using h
  have hL : (((2 * i.width.toNat) * (2 * i.height.toNat) : Nat) : Int)
      ≤ (p.maxLen : Int) := by
    push_cast; rw [cw, ch]
    have e : 2 * i.width * (2 * i.height) = 4 * (i.width * i.height) := by ring
    rw [e]; exact hprod
  obtain ⟨d, hd, hdlen, hpix⟩ := Resize_of_sources i p (F64.fin 2) (F64.fin 2)
    (2 * i.width.toNat) (2 * i.height.toNat)
    (by rw [cw2]; exact F64.toInt_mul_exact _ 2 _ (by rw [abs_of_nonneg hw0]; omega)
          (by omega) (by omega) (by push_cast; ring))
    (by rw [ch2]; exact F64.toInt_mul_exact _ 2 _ (by rw [abs_of_nonneg hh0]; omega)
          (by omega) (by omega) (by push_cast; ring))
    hL
    (fun X Y hX hY => ⟨_, (hsrc X Y hX hY).1.trans (List.getElem?_eq_getElem (hsrc X Y hX hY).2)⟩)
  rw [cw2, ch2] at hd
  refine ⟨d, hd, hdlen, ?_⟩
  intro X Y hX hY
  rw [hpix X Y hX hY, (hsrc X Y hX hY).1]

/-- C17 (amended): enlarging then shrinking is a round trip within the exact
range of `float64` and the longest slice `make` allocates: for every valid `W`
by `H` buffer with `W`, `H` at most `2 ^ 52` and `4 * W * H` at most the longest
slice `make` allocates on the platform (never more than `2 ^ 44` pixels),
`Resize(2.0, 2.0)` followed by
`Resize(0.5, 0.5)` leaves a buffer with the original width, height and pixel
sequence. -/
theorem C17_Resize_round_trip (i : Image) (p : Platform) (hgo : i.IsGoValue) (hv : i.Valid)
    (hw52 : i.width ≤ 2 ^ 52) (hh52 : i.height ≤ 2 ^ 52)
    (hprod : 4 * (i.width * i.height) ≤ (p.maxLen : Int)) :
    ∃ r, i.Resize p (F64.fin 2) (F64.fin 2) = some r ∧
      r.width = 2 * i.width ∧ r.height = 2 * i.height ∧
      r.Resize p (F64.fin (1 / 2)) (F64.fin (1 / 2)) = some i := by
  have hw0 : 0 ≤ i.width := hv.1
  have hh0 : 0 ≤ i.height := hv.2.1
  have cw : ((i.width.toNat : Nat) : Int) = i.width := Int.toNat_of_nonneg hw0
  have ch : ((i.height.toNat : Nat) : Int) = i.height := Int.toNat_of_nonneg hh0
  obtain ⟨d, hd, hdlen, hpix⟩ := Resize_double_data i p hgo hv hw52 hh52 hprod
  have hdlen2 : ((d.length : Nat) : Int) = 2 * i.width * (2 * i.height) := by
    rw [hdlen]; push_cast; rw [cw, ch]
  have hrv : (Image.mk d (2 * i.width) (2 * i.height)).Valid :=
    ⟨by show 0 ≤ 2 * i.width; omega, by show 0 ≤ 2 * i.height; omega, hdlen2⟩
  have hrgo : (Image.mk d (2 * i.width) (2 * i.height)).IsGoValue := by
    refine ⟨?_, ⟨?_, ?_⟩, ⟨?_, ?_⟩⟩
    · show ((d.length : Nat) : Int) < 2 ^ 63
      rw [hdlen2]
      have e : 2 * i.width * (2 * i.height) = 4 * (i.width * i.height) := by ring
      have hp := maxLen_le_pow p
      rw [e]; omega
    · show -2 ^ 63 ≤ 2 * i.width
      omega
    · show 2 * i.width < 2 ^ 63
      omega
    · show -2 ^ 63 ≤ 2 * i.height
      omega
    · show 2 * i.height < 2 ^ 63
      omega
  have hrw : (Image.mk d (2 * i.width) (2 * i.height)).width.toNat = 2 * i.width.toNat := by
    show (2 * i.width).toNat = 2 * i.width.toNat
    omega
  have hsrc : ∀ x y : Nat, x < i.width.toNat → y < i.height.toNat →
      (Image.mk d (2 * i.width) (2 * i.height)).source p (F64.fin (1 / 2)) (F64.fin (1 / 2)) x y
        = i.data[x + y * i.width.toNat]?
      ∧ x + y * i.width.toNat < i.data.length := by
    intro x y hx hy
    have hlt := Image.Valid.index_lt i hv x y hx hy
    have h := source_eq (Image.mk d (2 * i.width) (2 * i.height)) p hrgo hrv
      (F64.fin (1 / 2)) (F64.fin (1 / 2)) x y (2 * x) (2 * y)
      (F64.toInt_div_half x (Int.natCast_nonneg _) (by omega))
      (F64.toInt_div_half y (Int.natCast_nonneg _) (by omega))
      (by omega) (by show 2 * (x : Int) < 2 * i.width; omega)
      (by omega) (by show 2 * (y : Int) < 2 * i.height; omega)
    refine ⟨?_, hlt⟩
    rw [h.1, hrw]
    have e1 : (2 * (x : Int)).toNat = 2 * x := by omega
    have e2 : (2 * (y : Int)).toNat = 2 * y := by omega
    rw [e1, e2]
    show d[2 * x + 2 * y * (2 * i.width.toNat)]? = _
    rw [hpix (2 * x) (2 * y) (by omega) (by omega)]
    have e3 : 2 * x / 2 = x := by omega
    have e4 : 2 * y / 2 = y := by omega
    rw [e3, e4]
  have hL : ((i.width.toNat * i.height.toNat : Nat) : Int) ≤ (p.maxLen : Int) := by
    push_cast; rw [cw, ch]
    have h0 : 0 ≤ i.width * i.height := mul_nonneg hw0 hh0
    omega
  obtain ⟨d2, hd2, hd2len, hpix2⟩ := Resize_of_sources (Image.mk d (2 * i.width) (2 * i.height))
    p (F64.fin (1 / 2)) (F64.fin (1 / 2)) i.width.toNat i.height.toNat
    (by
      rw [cw]
      exact F64.toInt_mul_exact (2 * i.width) (1 / 2) i.width
        (by rw [abs_of_nonneg (by omega)]; omega) hw0 (by omega) (by push_cast; ring))
    (by
      rw [ch]
      exact F64.toInt_mul_exact (2 * i.height) (1 / 2) i.height
        (by rw [abs_of_nonneg (by omega)]; omega) hh0 (by omega) (by push_cast; ring))
    hL
    (fun x y hx hy => ⟨_, (hsrc x y hx hy).1.trans (List.getElem?_eq_getElem (hsrc x y hx hy).2)⟩)
  have hdata : d2 = i.data := by
    apply data_eq_of_pixels i hv d2 hd2len
    intro x y hx hy
    rw [hpix2 x y hx hy, (hsrc x y hx hy).1]
  refine ⟨_, hd, rfl, rfl, ?_⟩
  rw [hd2, hdata, cw, ch]

/-- Witness for C17: the 2 by 1 buffer black, white survives the round trip. -/
theorem C17_Resize_round_trip_witness :
    ∃ r, blackWhite.Resize amd64 (F64.fin 2) (F64.fin 2) = some r ∧
      r.Resize amd64 (F64.fin (1 / 2)) (F64.fin (1 / 2)) = some blackWhite := by
  obtain ⟨r, h1, -, -, h2⟩ := C17_Resize_round_trip blackWhite amd64 (by decide) (by decide)
    (by decide) (by decide) (by decide)
  exact ⟨r, h1, h2⟩

/-- C17 (as stated, refuted): the valid buffer of width `2 ^ 53 + 1` and height
0 is given the width `2 ^ 54` by `Resize(2.0, 2.0)` and then the width `2 ^ 53`
by `Resize(0.5, 0.5)`: the round trip does not restore the original width. -/
theorem C17_Resize_round_trip_fails :
    wideEmpty.IsGoValue ∧ wideEmpty.Valid ∧
    wideEmpty.Resize amd64 (F64.fin 2) (F64.fin 2)
      = some { data := [], width := 2 ^ 54, height := 0 } ∧
    (Image.mk [] (2 ^ 54) 0).Resize amd64 (F64.fin (1 / 2)) (F64.fin (1 / 2))
      = some { data := [], width := 2 ^ 53, height := 0 } ∧
    (Image.mk [] (2 ^ 53) 0) ≠ wideEmpty := by
  have hw : F64.toInt (F64.mul (F64.ofInt wideEmpty.width) (F64.fin 2)) = some (2 ^ 54) := by
    show F64.toInt (F64.mul (F64.ofInt (2 ^ 53 + 1)) (F64.fin 2)) = some (2 ^ 54)
    rw [F64.ofInt_two_pow_53_add_one]
    show F64.toInt (F64.round (((2 ^ 53 : ℤ) : ℚ) * 2)) = some (2 ^ 54)
    have e : ((2 ^ 53 : ℤ) : ℚ) * 2 = ((2 ^ 52 : ℤ) : ℚ) * (2 : ℚ) ^ (2 : ℤ) := by norm_num
    have hx := roundQ_dyadic (2 ^ 52) 2 (by norm_num) (by norm_num)
    rw [e, F64.toInt_round_exact _ hx (by norm_num) (by norm_num)]
    congr 1
    rw [Int.floor_eq_iff]
    constructor <;> norm_num
  have hh : F64.toInt (F64.mul (F64.ofInt wideEmpty.height) (F64.fin 2)) = some 0 :=
    F64.toInt_mul_exact 0 2 0 (by norm_num) (by norm_num) (by norm_num) (by norm_num)
  have hw2 : F64.toInt (F64.mul (F64.ofInt (Image.mk [] (2 ^ 54) 0).width) (F64.fin (1 / 2)))
      = some (2 ^ 53) := by
    show F64.toInt (F64.mul (F64.ofInt (2 ^ 54)) (F64.fin (1 / 2))) = some (2 ^ 53)
    have hx := roundQ_dyadic (2 ^ 52) 2 (by norm_num) (by norm_num)
    have e0 : (((2 ^ 54 : ℤ)) : ℚ) = ((2 ^ 52 : ℤ) : ℚ) * (2 : ℚ) ^ (2 : ℤ) := by norm_num
    have h54 : F64.ofInt (2 ^ 54) = F64.fin ((2 ^ 54 : ℤ) : ℚ) := by
      unfold F64.ofInt
      rw [e0, F64.round_fin _ (by rw [hx]; norm_num), hx]
    rw [h54]
    show F64.toInt (F64.round (((2 ^ 54 : ℤ) : ℚ) * (1 / 2))) = some (2 ^ 53)
    have e : ((2 ^ 54 : ℤ) : ℚ) * (1 / 2) = ((2 ^ 53 : ℤ) : ℚ) := by norm_num
    rw [e, F64.toInt_round_exact _ (roundQ_intCast _ (by norm_num)) (by norm_num)
      (by norm_num), Int.floor_intCast]
  have hh2 : F64.toInt (F64.mul (F64.ofInt (Image.mk [] (2 ^ 54) 0).height) (F64.fin (1 / 2)))
      = some 0 :=
    F64.toInt_mul_exact 0 (1 / 2) 0 (by norm_num) (by norm_num) (by norm_num) (by norm_num)
  refine ⟨by decide, by decide, ?_, ?_, by decide⟩
  · rw [Resize_unfold wideEmpty amd64 _ _ (2 ^ 54) 0 [] hw hh (by decide)]
    rfl
  · rw [Resize_unfold (Image.mk [] (2 ^ 54) 0) amd64 _ _ (2 ^ 53) 0 [] hw2 hh2 (by decide)]
    rfl

/-! ## Loading -/

/-- C13: `LoadImage` downscales every decoded channel by integer division by
256. For a decoded image of non-negative extent whose pixel count is an `int`,
on every platform: when the pixel count is at most the longest slice `make`
allocates (never more than `2 ^ 44` pixels), `LoadImage` returns a buffer that
has the decoded width and height and `width * height` pixels, the pixel
decoded at `(x, y)` is stored at index `x + y * width` with each channel `v`
replaced by `floor(v / 256)`, and every stored channel lies in 0..255; for a
larger pixel count `make` panics before anything is stored. For every 16-bit channel value `v` the quotient
`floor(v / 256)` lies in 0..255. -/
theorem C13_LoadImage_pixels (p : Platform) (image : Decoded) (hwf : image.WellFormed) :
    (∀ v : Nat, v ≤ 65535 → v / 256 ≤ 255) ∧
    ((p.maxLen : Int) < image.width * image.height →
      LoadImage.pixels p image = none ∧
      ∀ (env : Env) (filepath file : String) (e : Effects),
        env.open_ filepath = .ok file → env.decode file = .ok image →
        LoadImage env p filepath e = (e, .error .panic)) ∧
    (image.width * image.height ≤ (p.maxLen : Int) →
      ∃ i, LoadImage.pixels p image = some i ∧
        i.width = image.width ∧ i.height = image.height ∧
        (i.data.length : Int) = image.width * image.height ∧ i.Valid ∧
        (∀ x y : Nat, (x : Int) < image.width → (y : Int) < image.height →
          x + y * image.width.toNat < i.data.length ∧
          i.data[x + y * image.width.toNat]? =
            some ⟨(image.rgba x y).r / 256, (image.rgba x y).g / 256,
                  (image.rgba x y).b / 256, (image.rgba x y).a / 256⟩) ∧
        (∀ c ∈ i.data, c.r ≤ 255 ∧ c.g ≤ 255 ∧ c.b ≤ 255 ∧ c.a ≤ 255) ∧
        ∀ (env : Env) (filepath file : String) (e : Effects),
          env.open_ filepath = .ok file → env.decode file = .ok image →
          LoadImage env p filepath e = (e, .ok i)) := by
  obtain ⟨hw0, hh0, hL, hch⟩ := hwf
  refine ⟨fun v hv => by omega, ?_, ?_⟩
  · intro hbig
    have hnone : LoadImage.pixels p image = none := by
      unfold LoadImage.pixels
      rw [wrapInt_of_range _ (by omega) hL, make_too_long p _ hbig]
    refine ⟨hnone, ?_⟩
    intro env filepath file e hopen hdec
    unfold LoadImage
    rw [hopen]
    simp only [hdec, hnone]
  intro h44
  have cw : ((image.width.toNat : Nat) : Int) = image.width := Int.toNat_of_nonneg hw0
  have ch : ((image.height.toNat : Nat) : Int) = image.height := Int.toNat_of_nonneg hh0
  have hL2 : ((image.width.toNat * image.height.toNat : Nat) : Int) ≤ (p.maxLen : Int) := by
    push_cast; rw [cw, ch]; exact h44
  have hp := maxLen_le_pow p
  obtain ⟨d, hd, hlen, hpix⟩ := fill_total
    (fun x y => some ⟨(image.rgba x y).r / 256, (image.rgba x y).g / 256,
      (image.rgba x y).b / 256, (image.rgba x y).a / 256⟩)
    image.width.toNat image.height.toNat
    (List.replicate (image.width.toNat * image.height.toNat) ⟨0, 0, 0, 0⟩)
    (List.length_replicate _ _) (by omega) (fun x y _ _ => ⟨_, rfl⟩)
  rw [cw, ch] at hd
  have hmake : make p (wrapInt (image.width * image.height))
      = some (List.replicate (image.width.toNat * image.height.toNat) ⟨0, 0, 0, 0⟩) := by
    have e : image.width * image.height
        = ((image.width.toNat * image.height.toNat : Nat) : Int) := by
      push_cast; rw [cw, ch]
    rw [e, wrapInt_of_range _ (by omega) (by omega)]
    exact make_natCast p _ hL2
  have hload : LoadImage.pixels p image
      = some { data := d, width := image.width, height := image.height } := by
    unfold LoadImage.pixels
    simp only [hmake]
    exact congrArg (Option.map _) hd
  have hlenI : ((d.length : Nat) : Int) = image.width * image.height := by
    rw [hlen]; push_cast; rw [cw, ch]
  have hidx : ∀ x y : Nat, x < image.width.toNat → y < image.height.toNat →
      x + y * image.width.toNat < d.length := by
    intro x y hx hy
    rw [hlen]
    calc x + y * image.width.toNat < image.width.toNat + y * image.width.toNat := by omega
      _ = image.width.toNat * (y + 1) := by ring
      _ ≤ image.width.toNat * image.height.toNat := Nat.mul_le_mul_left _ hy
  refine ⟨_, hload, rfl, rfl, hlenI, ⟨hw0, hh0, hlenI⟩, ?_, ?_, ?_⟩
  · intro x y hx hy
    exact ⟨hidx x y (by omega) (by omega), hpix x y (by omega) (by omega)⟩
  · intro c hc
    obtain ⟨j, hj, rfl⟩ := List.getElem_of_mem hc
    have hwpos : 0 < image.width.toNat := by
      rcases Nat.eq_zero_or_pos image.width.toNat with h0 | h0
      · rw [hlen, h0, Nat.zero_mul] at hj
        exact absurd hj (Nat.not_lt_zero _)
      · exact h0
    have hx : j % image.width.toNat < image.width.toNat := Nat.mod_lt _ hwpos
    have hy : j / image.width.toNat < image.height.toNat := by
      apply Nat.div_lt_of_lt_mul
      rw [← hlen]; exact hj
    have ej : j % image.width.toNat + j / image.width.toNat * image.width.toNat = j := by
      rw [Nat.mul_comm]; exact Nat.mod_add_div j image.width.toNat
    have h1 := hpix _ _ hx hy
    rw [ej, List.getElem?_eq_getElem hj] at h1
    have h2 := Option.some.inj h1
    rw [h2]
    obtain ⟨c1, c2, c3, c4⟩ := hch ((j % image.width.toNat : Nat) : Int)
      ((j / image.width.toNat : Nat) : Int)
    exact ⟨by show _ / 256 ≤ 255; omega, by show _ / 256 ≤ 255; omega,
      by show _ / 256 ≤ 255; omega, by show _ / 256 ≤ 255; omega⟩
  · intro env filepath file e hopen hdec
    unfold LoadImage
    rw [hopen]
    simp only [hdec, hload]

/-- Witness for C13: the decoded 2 by 1 image black, white is loaded as the
buffer black, white with 8-bit channels. -/
theorem C13_LoadImage_pixels_witness :
    LoadImage.pixels amd64 decodedBlackWhite = some blackWhite := by
  obtain ⟨-, -, hsmall⟩ := C13_LoadImage_pixels amd64 decodedBlackWhite
    ⟨by decide, by decide, by decide, fun x y => by
      have e : decodedBlackWhite.rgba x y
          = if x = 0 then ⟨0, 0, 0, 65535⟩ else ⟨65535, 65535, 65535, 65535⟩ := rfl
      rw [e]
      split_ifs <;> exact ⟨by norm_num, by norm_num, by norm_num, by norm_num⟩⟩
  obtain ⟨i, hi, hw, hh, hlen, -, hpix, -⟩ := hsmall (by decide)
  rw [hi]
  obtain ⟨d, w, h⟩ := i
  have hw2 : w = 2 := hw
  have hh2 : h = 1 := hh
  subst hw2 hh2
  have h0 := (hpix 0 0 (by decide) (by decide)).2
  have h1 := (hpix 1 0 (by decide) (by decide)).2
  have hl : d.length = 2 := by
    have : ((d.length : Nat) : Int) = 2 * 1 := hlen
    omega
  match d, hl, h0, h1 with
  | [a, b], _, h0, h1 =>
    have ea : a = ⟨0, 0, 0, 255⟩ := Option.some.inj h0
    have eb : b = ⟨255, 255, 255, 255⟩ := Option.some.inj h1
    subst ea eb
    rfl

/-! ## The command line -/

/-- `LoadImage` creates no file and writes none. -/
theorem LoadImage_effects (env : Env) (p : Platform) (filepath : String) (e : Effects) :
    (LoadImage env p filepath e).1.created = e.created ∧
    (LoadImage env p filepath e).1.written = e.written := by
  unfold LoadImage
  split
  · exact ⟨rfl, rfl⟩
  · split
    · exact ⟨rfl, rfl⟩
    · split <;> exact ⟨rfl, rfl⟩

/-- `LoadImage` depends on the environment only through `open_` and `decode`. -/
theorem LoadImage_congr (env env2 : Env) (p : Platform) (filepath : String) (e : Effects)
    (ho : env2.open_ = env.open_) (hd : env2.decode = env.decode) :
    LoadImage env2 p filepath e = LoadImage env p filepath e := by
  unfold LoadImage
  rw [ho, hd]

/-- The `default` branch of the switch: a message is printed and the process
exits with status 1. -/
theorem switch_default (env : Env) (image : Image) (outputFormat : Int)
    (outputFilepath : String) (e : Effects)
    (h0 : outputFormat ≠ 0) (h1 : outputFormat ≠ 1) (h2 : outputFormat ≠ 2)
    (h3 : outputFormat ≠ 3) :
    main.switch env image outputFormat outputFilepath e
      = ({ e with stdout := e.stdout ++ [invalidFormatText] }, .error (.exit 1)) := by
  unfold main.switch
  rw [if_neg h0, if_neg h1, if_neg h2, if_neg h3]

/-- The run of `main` for an output format outside 0..3: after loading and
resizing, only the message of the `default` branch is left to do. -/
theorem main_default (env : Env) (p : Platform) (filepath : String) (xFactor yFactor : F64)
    (outputFormat : Int) (outputFilepath : String)
    (h0 : outputFormat ≠ 0) (h1 : outputFormat ≠ 1) (h2 : outputFormat ≠ 2)
    (h3 : outputFormat ≠ 3) :
    main env p filepath xFactor yFactor outputFormat outputFilepath
      = match LoadImage env p filepath ⟨[], [], []⟩ with
        | (e, .error stop) => (e, .error stop)
        | (e, .ok image) =>
          match image.Resize p xFactor yFactor with
          | none => (e, .error .panic)
          | some _ => ({ e with stdout := e.stdout ++ [invalidFormatText] }, .error (.exit 1)) := by
  unfold main
  rcases LoadImage env p filepath ⟨[], [], []⟩ with ⟨e, stop | image⟩
  · rfl
  · show (match image.Resize p xFactor yFactor with
        | none => (e, Except.error Stop.panic)
        | some resized => main.report outputFilepath
            (main.switch env resized outputFormat outputFilepath e))
        = (match image.Resize p xFactor yFactor with
          | none => (e, Except.error Stop.panic)
          | some _ => ({ e with stdout := e.stdout ++ [invalidFormatText] },
              Except.error (Stop.exit 1)))
    cases image.Resize p xFactor yFactor with
    | none => rfl
    | some resized =>
      show main.report outputFilepath (main.switch env resized outputFormat outputFilepath e) = _
      rw [switch_default env resized outputFormat outputFilepath e h0 h1 h2 h3]
      rfl

/-- C14: for every output-format selector outside 0, 1, 2, 3, `main` ends with a
non-zero exit status (1 from `os.Exit`, or 2 from a panic while loading or
resizing), no file has been created or written, the run does not depend on
what creating, writing or encoding a file would do (neither `SaveAscii` nor
`SavePNG` is invoked), and the switch itself prints the message and exits with
status 1; the selectors 0, 1, 2, 3 dispatch to `SaveAscii` in plain,
foreground and background mode and to `SavePNG`. -/
theorem C14_main_invalid_format (env : Env) (p : Platform) (filepath : String)
    (xFactor yFactor : F64) (outputFormat : Int) (outputFilepath : String)
    (h0 : outputFormat ≠ 0) (h1 : outputFormat ≠ 1) (h2 : outputFormat ≠ 2)
    (h3 : outputFormat ≠ 3) :
    exitStatus (main env p filepath xFactor yFactor outputFormat outputFilepath).2 ≠ 0 ∧
    ((main env p filepath xFactor yFactor outputFormat outputFilepath).2 = .error (.exit 1) ∨
     (main env p filepath xFactor yFactor outputFormat outputFilepath).2 = .error .panic) ∧
    (main env p filepath xFactor yFactor outputFormat outputFilepath).1.created = [] ∧
    (main env p filepath xFactor yFactor outputFormat outputFilepath).1.written = [] ∧
    (∀ env2 : Env, env2.open_ = env.open_ → env2.decode = env.decode →
      main env2 p filepath xFactor yFactor outputFormat outputFilepath
        = main env p filepath xFactor yFactor outputFormat outputFilepath) ∧
    (∀ (image : Image) (e : Effects),
      main.switch env image outputFormat outputFilepath e
        = ({ e with stdout := e.stdout ++ [invalidFormatText] }, .error (.exit 1))) ∧
    (∀ (image : Image) (e : Effects),
      main.switch env image 0 outputFilepath e
        = image.SaveAscii env outputFilepath ASCII_MODE_PLAIN e ∧
      main.switch env image 1 outputFilepath e
        = image.SaveAscii env outputFilepath ASCII_MODE_FORE e ∧
      main.switch env image 2 outputFilepath e
        = image.SaveAscii env outputFilepath ASCII_MODE_BACK e ∧
      main.switch env image 3 outputFilepath e = image.SavePNG env outputFilepath e) := by
  have hmain := main_default env p filepath xFactor yFactor outputFormat outputFilepath
    h0 h1 h2 h3
  have heff := LoadImage_effects env p filepath ⟨[], [], []⟩
  have hstop : ∀ stop, (LoadImage env p filepath ⟨[], [], []⟩).2 = .error stop →
      stop = .exit 1 ∨ stop = .panic := by
    intro stop
    unfold LoadImage
    split
    · intro h; left; exact (Except.error.inj h).symm
    · split
      · intro h; left; exact (Except.error.inj h).symm
      · split
        · intro h; right; exact (Except.error.inj h).symm
        · intro h
          have h2 : (Except.ok _ : Except Stop Image) = Except.error stop := h
          cases h2
  have hrun : ((main env p filepath xFactor yFactor outputFormat outputFilepath).2
        = .error (.exit 1) ∨
      (main env p filepath xFactor yFactor outputFormat outputFilepath).2 = .error .panic) ∧
      (main env p filepath xFactor yFactor outputFormat outputFilepath).1.created = [] ∧
      (main env p filepath xFactor yFactor outputFormat outputFilepath).1.written = [] := by
    rw [hmain]
    rcases hl : LoadImage env p filepath ⟨[], [], []⟩ with ⟨e, stop | image⟩
    · rw [hl] at heff hstop
      rcases hstop stop rfl with hs | hs
      · exact ⟨Or.inl (congrArg Except.error hs), heff.1, heff.2⟩
      · exact ⟨Or.inr (congrArg Except.error hs), heff.1, heff.2⟩
    · rw [hl] at heff
      dsimp only
      cases image.Resize p xFactor yFactor with
      | none => exact ⟨Or.inr rfl, heff.1, heff.2⟩
      | some resized => exact ⟨Or.inl rfl, heff.1, heff.2⟩
  refine ⟨?_, hrun.1, hrun.2.1, hrun.2.2, ?_, ?_, ?_⟩
  · rcases hrun.1 with h | h <;> rw [h] <;> decide
  · intro env2 ho hd
    rw [hmain, main_default env2 p filepath xFactor yFactor outputFormat outputFilepath
      h0 h1 h2 h3, LoadImage_congr env env2 p filepath _ ho hd]
  · intro image e
    exact switch_default env image outputFormat outputFilepath e h0 h1 h2 h3
  · intro image e
    exact ⟨rfl, rfl, rfl, rfl⟩

/-- Witness for C14: the selector 99 on the sample environment ends with a
non-zero exit status and no created or written file. -/
theorem C14_main_invalid_format_witness :
    exitStatus (main sampleEnv amd64 "in.png" (F64.fin 1) (F64.fin 1) 99 "out.txt").2 ≠ 0 ∧
    (main sampleEnv amd64 "in.png" (F64.fin 1) (F64.fin 1) 99 "out.txt").1.created = [] ∧
    (main sampleEnv amd64 "in.png" (F64.fin 1) (F64.fin 1) 99 "out.txt").1.written = [] :=
  have h := C14_main_invalid_format sampleEnv amd64 "in.png" (F64.fin 1) (F64.fin 1) 99
    "out.txt" (by decide) (by decide) (by decide) (by decide)
  ⟨h.1, h.2.2.1, h.2.2.2.1⟩

end AsciiConverter
